import Mathlib

/-! MemoryPP: a shallow embedding of the pass-based memory scanner

The development follows the C++ sources under `MemoryPP/`:

* `file_dump/file_dump.hpp`, `file_dump/src/file_dump.cpp` : the dump store,
* `file_dump/dumpable.hpp` : the dumpable record,
* `memory_reagion/memory_region.hpp` : the region snapshot,
* `scan_result/scan_result.hpp` : the per-region match list,
* `custom_map.hpp`, `scan_engine.hpp`, `scan_engine.cpp` : the engine.

Conventions of the embedding.

* A byte is a `Nat`; a block of memory or a file is a `List Nat`.
* Sizes, offsets and addresses are physical quantities (lengths of resident
  buffers, positions in a file, user-space addresses), all far below `2^64`;
  `size_t` / `uint64_t` arithmetic over them is rendered in `Nat`.  The
  arithmetic of the scanned scalars is the scalar type's own.
* The index and the offset a caller passes to a typed accessor of a region are
  not such quantities: any `size_t` may be passed.  `at_offset_size_t`,
  `at_index_size_t` and `at_address_size_t` compute the bound as the code does,
  modulo `2^64`; `at_offset`, `at_index` and `at_address` compute it in `Nat`
  and agree with them as long as the bound does not wrap, which is the case at
  every call the engine makes.
* Stateful code is written in state-passing style: a member function takes the
  object (and the store it refers to) and returns its result together with the
  new states.
* Calls into the operating system may fail.  The file a store works on carries
  the outcomes of the calls still to come (`os_file.faults`); with no outcome
  left every call succeeds.
* Locks are not modelled; tasks handed to a `deferred_processor` are run to
  completion in dispatch order.
-/

namespace MemoryPP

/-! ## Raw memory -/

/-- The effect of `std::vector<uint8_t>::resize(n)` and of moving the end of a
file to `n`: the block is cut to `n` bytes or lengthened with zero bytes. -/
def resize (mem : List Nat) (n : Nat) : List Nat :=
  mem.take n ++ List.replicate (n - mem.length) 0

/-- The effect of `std::memcpy(dst + pos, src, src.size())` on `dst`. -/
def memcpy (dst : List Nat) (pos : Nat) (src : List Nat) : List Nat :=
  dst.take pos ++ src ++ dst.drop (pos + src.length)

/-! ## The operating system's side of a dump file -/

/-- One file of the file system: its bytes (an absent file has none) and the
outcomes of the OS calls still to come, `true` for a call that fails. -/
structure os_file where
  bytes : List Nat
  faults : List Bool
deriving DecidableEq, Repr

namespace os_file

/-- Consume the outcome of the next OS call. -/
def call (f : os_file) : Bool × os_file :=
  match f.faults with
  | [] => (true, f)
  | b :: rest => (!b, { f with faults := rest })

/-- The call `CreateFileA(name, ..., OPEN_ALWAYS, ...)`: opens the file, creating it when absent. -/
def CreateFileA (f : os_file) : Bool × os_file := f.call

/-- The call `GetFileSizeEx`. -/
def GetFileSizeEx (f : os_file) : Option Nat × os_file :=
  match f.call with
  | (true, f1) => (some f1.bytes.length, f1)
  | (false, f1) => (none, f1)

/-- The call `SetFilePointerEx(h, n, nullptr, FILE_BEGIN)`. -/
def SetFilePointerEx (f : os_file) : Bool × os_file := f.call

/-- The call `SetEndOfFile` with the file pointer at `n`: the file becomes `n` bytes long. -/
def SetEndOfFile (f : os_file) (n : Nat) : Bool × os_file :=
  match f.call with
  | (true, f1) => (true, { f1 with bytes := resize f1.bytes n })
  | (false, f1) => (false, f1)

/-- The call `CreateFileMappingA(h, nullptr, PAGE_READWRITE, 0, 0, nullptr)`: a mapping
of the file's current size; an empty file cannot be mapped. -/
def CreateFileMappingA (f : os_file) : Bool × os_file :=
  match f.call with
  | (true, f1) => (decide (f1.bytes ≠ []), f1)
  | (false, f1) => (false, f1)

/-- The call `MapViewOfFile(m, FILE_MAP_WRITE, hi, lo, len)`: the bytes of the view, which
must lie inside the mapping; `len = 0` asks for everything from `off` to the end. -/
def MapViewOfFile (f : os_file) (off len : Nat) : Option (List Nat) × os_file :=
  match f.call with
  | (true, f1) =>
    if len = 0 then
      (if off < f1.bytes.length then some (f1.bytes.drop off) else none, f1)
    else
      (if off + len ≤ f1.bytes.length then some ((f1.bytes.drop off).take len) else none, f1)
  | (false, f1) => (none, f1)

/-- The call `FlushViewOfFile`. -/
def FlushViewOfFile (f : os_file) : Bool × os_file := f.call

end os_file

/-! ## `file_dump.hpp`, `file_dump.cpp` -/

/-- The struct `mapped_chunk`.  `view_base` holds the bytes found at the address
`MapViewOfFile` returned, `pointer` the distance of the user pointer from it.  The
two handles only matter for release and are left out. -/
structure mapped_chunk where
  view_base : List Nat
  pointer : Nat
  view_size : Nat
  map_offset : Nat
  chunk_size : Nat
deriving DecidableEq, Repr

/-- The `chunk_size` bytes a holder of the chunk sees at `pointer`. -/
def mapped_chunk.data (c : mapped_chunk) : List Nat :=
  (c.view_base.drop c.pointer).take c.chunk_size

/-- The constant `file_dump::BUFFER_SIZE`. -/
def BUFFER_SIZE : Nat := 100 * 1024 * 1024

/-- The value `SYSTEM_INFO::dwAllocationGranularity` reported by `GetSystemInfo`. -/
def dwAllocationGranularity : Nat := 65536

/-- The class `file_dump`.  `disk` is the file named `_file_name`.  `_buffer` has
`BUFFER_SIZE` bytes after the constructor's `resize`; the list holds it up to the last
byte ever copied into it, the rest being the zero bytes of that `resize`. -/
structure file_dump where
  disk : os_file
  _current_size : Nat
  _buffer : List Nat
  _buffer_pos : Nat
deriving DecidableEq, Repr

namespace file_dump

/-- The constructor `file_dump::file_dump(file_name)`. -/
def ctor (d : os_file) : file_dump :=
  match d.CreateFileA with
  | (true, d1) =>
    match d1.GetFileSizeEx with
    | (some n, d2) => { disk := d2, _current_size := n, _buffer := [], _buffer_pos := 0 }
    | (none, d2) => { disk := d2, _current_size := 0, _buffer := [], _buffer_pos := 0 }
  | (false, d1) => { disk := d1, _current_size := 0, _buffer := [], _buffer_pos := 0 }

/-- The accessor `file_dump::get_size`. -/
def get_size (s : file_dump) : Nat := s._current_size

/-- The first `n` bytes at `_buffer.data()`. -/
def buffer_data (s : file_dump) (n : Nat) : List Nat := resize s._buffer n

/-- The member `file_dump::map_file`. -/
def map_file (s : file_dump) (offset size : Nat) : Option mapped_chunk × file_dump :=
  match s.disk.CreateFileA with
  | (false, d1) => (none, { s with disk := d1 })
  | (true, d1) =>
    let required_size := offset + size
    let extended : Bool × os_file :=
      if s._current_size < required_size then
        match d1.SetFilePointerEx with
        | (false, d2) => (false, d2)
        | (true, d2) => d2.SetEndOfFile required_size
      else (true, d1)
    match extended with
    | (false, d3) => (none, { s with disk := d3 })
    | (true, d3) =>
      let granularity := dwAllocationGranularity
      let map_offset := (offset / granularity) * granularity
      let offset_diff := offset - map_offset
      let view_size := offset_diff + size
      match d3.CreateFileMappingA with
      | (false, d4) => (none, { s with disk := d4 })
      | (true, d4) =>
        match d4.MapViewOfFile map_offset view_size with
        | (none, d5) => (none, { s with disk := d5 })
        | (some view, d5) =>
          (some { view_base := view, pointer := offset_diff, view_size := view_size,
                  map_offset := map_offset, chunk_size := size },
           { s with disk := d5 })

/-- The member `file_dump::write_file`. -/
def write_file (s : file_dump) (offset : Nat) (buffer : List Nat) (size : Nat) :
    Bool × file_dump :=
  match s.map_file offset size with
  | (none, s1) => (false, s1)
  | (some chunk, s1) =>
    -- std::memcpy(chunk->pointer, buffer, size): the view is the file from `map_offset` on
    let d1 : os_file :=
      { s1.disk with bytes := memcpy s1.disk.bytes (chunk.map_offset + chunk.pointer) (buffer.take size) }
    match d1.FlushViewOfFile with
    | (false, d2) => (false, { s1 with disk := d2 })
    | (true, d2) =>
      let new_size := offset + size
      (true, { s1 with disk := d2,
                       _current_size := if new_size > s1._current_size then new_size else s1._current_size })

/-- The member `file_dump::read`. -/
def read (s : file_dump) (offset size : Nat) : Option mapped_chunk × file_dump :=
  if s._buffer_pos > 0 then
    match s.write_file s.get_size (s.buffer_data s._buffer_pos) s._buffer_pos with
    | (false, s1) => (none, s1)
    | (true, s1) => ({ s1 with _buffer_pos := 0 }).map_file offset size
  else s.map_file offset size

/-- The member `file_dump::write`; `size` is `buffer.length`. -/
def write (s : file_dump) (buffer : List Nat) : Option Nat × file_dump :=
  let size := buffer.length
  if s._buffer_pos + size ≤ BUFFER_SIZE then
    let s1 := { s with _buffer := memcpy (resize s._buffer (max s._buffer.length (s._buffer_pos + size)))
                                    s._buffer_pos buffer }
    let file_offset := s1.get_size + s1._buffer_pos
    (some file_offset, { s1 with _buffer_pos := s1._buffer_pos + size })
  else
    let flushed : Bool × file_dump :=
      if s._buffer_pos > 0 then
        match s.write_file s.get_size (s.buffer_data s._buffer_pos) s._buffer_pos with
        | (false, s1) => (false, s1)
        | (true, s1) => (true, { s1 with _buffer_pos := 0 })
      else (true, s)
    match flushed with
    | (false, s1) => (none, s1)
    | (true, s1) =>
      if size > BUFFER_SIZE then
        match s1.write_file s1.get_size buffer size with
        | (false, s2) => (none, s2)
        | (true, s2) => (some s2.get_size, s2)
      else
        let s2 := { s1 with _buffer := memcpy (resize s1._buffer (max s1._buffer.length size)) 0 buffer,
                            _buffer_pos := size }
        (some s2.get_size, s2)

/-! Notions used to state what the store does. -/

/-- The file as `map_file offset size` leaves it when no OS call fails. -/
def extended_bytes (s : file_dump) (offset size : Nat) : List Nat :=
  if s._current_size < offset + size then resize s.disk.bytes (offset + size) else s.disk.bytes

/-- The chunk `map_file offset size` builds over a file holding `bytes`. -/
def chunk_over (bytes : List Nat) (offset size : Nat) : mapped_chunk :=
  let map_offset := (offset / dwAllocationGranularity) * dwAllocationGranularity
  { view_base := (bytes.drop map_offset).take (offset - map_offset + size),
    pointer := offset - map_offset,
    view_size := offset - map_offset + size,
    map_offset := map_offset,
    chunk_size := size }

/-- No OS call on the store's file is going to fail, and the file holds the durable bytes. -/
def wf (s : file_dump) : Prop :=
  s.disk.faults = [] ∧ s._current_size ≤ s.disk.bytes.length

/-- The bytes a store holds, in logical order: the durable ones, then the staged ones. -/
def contents (s : file_dump) : List Nat :=
  s.disk.bytes.take s._current_size ++ s.buffer_data s._buffer_pos

end file_dump

/-- The store after the successive writes of the byte strings `later`. -/
def file_dump.write_all (s : file_dump) : List (List Nat) → file_dump
  | [] => s
  | b :: bs => file_dump.write_all (s.write b).2 bs

/-! ## Element types -/

/-- What the code uses of an element type `DataType` as an object in memory: `sizeof(DataType)`,
the bytes `reinterpret_cast<const uint8_t*>` sees in an object, and the object
`reinterpret_cast<DataType*>` sees in `sizeof(DataType)` bytes. -/
class object_repr (α : Type) where
  sizeof : Nat
  to_bytes : α → List Nat
  of_bytes : List Nat → α

/-- An object representation is lawful when an object occupies `sizeof` bytes, at least one,
and is recovered from them. -/
structure object_repr.lawful (α : Type) [object_repr α] : Prop where
  sizeof_pos : 0 < object_repr.sizeof α
  to_bytes_length : ∀ a : α, (object_repr.to_bytes a).length = object_repr.sizeof α
  of_to_bytes : ∀ a : α, object_repr.of_bytes (object_repr.to_bytes a) = a

/-- The element type `uint8_t` of a region's payload. -/
abbrev uint8_t : Type := Nat

instance : object_repr uint8_t where
  sizeof := 1
  to_bytes := fun b => [b]
  of_bytes := fun bs => bs.headD 0

/-- The bytes of the `n` objects found at `reinterpret_cast<const uint8_t*>(data.data())`. -/
def raw_bytes {α : Type} [object_repr α] (data : List α) : List Nat :=
  data.flatMap object_repr.to_bytes

/-- The `n` objects of `std::span<DataType>(reinterpret_cast<DataType*>(p), n)` over the bytes at `p`. -/
def span_of {α : Type} [object_repr α] (bytes : List Nat) (n : Nat) : List α :=
  (List.range n).map (fun i =>
    object_repr.of_bytes ((bytes.drop (i * object_repr.sizeof α)).take (object_repr.sizeof α)))

/-- A scalar type `DataType` the engine is instantiated at: an object representation and the
operators `==`, `<`, `>` and `-` of the type.  The types meant are the integer types whose
arithmetic stays in the type (`int`, as in `main.cpp`, and wider). -/
class scalar (T : Type) extends object_repr T, Sub T, LT T where
  decEq : DecidableEq T
  decLt : ∀ a b : T, Decidable (a < b)

instance scalar_decEq {T : Type} [scalar T] : DecidableEq T := scalar.decEq

instance scalar_decLt {T : Type} [scalar T] (a b : T) : Decidable (a < b) := scalar.decLt a b

/-- A `DataType*` obtained by `reinterpret_cast` from a byte pointer: the block pointed into
and the distance from its start. -/
structure typed_ptr where
  mem : List Nat
  offset : Nat
deriving DecidableEq, Repr

/-- The object `*p`. -/
def typed_ptr.deref {T : Type} [object_repr T] (p : typed_ptr) : T :=
  object_repr.of_bytes ((p.mem.drop p.offset).take (object_repr.sizeof T))

/-! ## `dumpable.hpp` -/

/-- The member `size` that `dumpable` reads in its `Header` parameter. -/
class sized_header (H : Type) where
  size : H → Nat

/-- The class template `dumpable<Header, DataType>`.  The store `_file` refers to is passed to
the member functions; `_data_map` holds the elements the span ranges over.  A member function
returns `none` when it throws (`std::bad_optional_access`). -/
structure dumpable (Header DataType : Type) where
  _header : Header
  _file_offset : Option Nat
  _data_map : List DataType
  _data : List DataType
  _mapped_info : Option mapped_chunk
  _valid : Bool
  _discarded : Bool

namespace dumpable

variable {Header DataType : Type}

/-- The constructor `dumpable(file_dump&)`, with the header the derived class then fills in. -/
def ctor (header : Header) : dumpable Header DataType :=
  { _header := header, _file_offset := some 0, _data_map := [], _data := [],
    _mapped_info := none, _valid := false, _discarded := false }

/-- The member `dumpable::copy_map_view`. -/
def copy_map_view (d : dumpable Header DataType) : dumpable Header DataType :=
  if !d._data_map.isEmpty then { d with _data := d._data_map } else d

/-- The member `dumpable::load`. -/
def load [sized_header Header] [object_repr DataType] (d : dumpable Header DataType)
    (file : file_dump) : Option (Bool × dumpable Header DataType × file_dump) :=
  if !d._data_map.isEmpty then some (true, d, file)
  else
    let total_size := sized_header.size d._header * object_repr.sizeof DataType
    match d._file_offset with
    | none => none
    | some file_offset =>
      match file.read file_offset total_size with
      | (some chunk, file1) =>
        some (true,
          { d with _mapped_info := some chunk,
                   _data_map := span_of chunk.data (sized_header.size d._header) },
          file1)
      | (none, file1) => some (false, { d with _mapped_info := none }, file1)

/-- The member `dumpable::dump`. -/
def dump [object_repr DataType] (d : dumpable Header DataType) (discard_memory : Bool)
    (file : file_dump) : Bool × dumpable Header DataType × file_dump :=
  if d._data.isEmpty then (false, d, file)
  else
    let data_bytes := d._data.length * object_repr.sizeof DataType
    match file.write ((raw_bytes d._data).take data_bytes) with
    | (none, file1) => (false, { d with _file_offset := none }, file1)
    | (some file_offset, file1) =>
      if discard_memory then
        (true,
          { d with _file_offset := some file_offset, _data := [], _data_map := [],
                   _mapped_info := none, _discarded := true },
          file1)
      else (true, { d with _file_offset := some file_offset }, file1)

end dumpable

/-! ## `memory_region.hpp` -/

/-- The struct `region_header`. -/
structure region_header where
  base : Nat
  size : Nat
deriving DecidableEq, Repr

instance : sized_header region_header where
  size := region_header.size

/-- A record over byte elements that holds the RAM payload `data`, its header giving the
number of elements, as a region snapshot is after a successful read. -/
def record_holding (data : List uint8_t) : dumpable region_header uint8_t :=
  { _header := { base := 0, size := data.length }, _file_offset := some 0, _data_map := data,
    _data := data, _mapped_info := none, _valid := true, _discarded := false }

/-- The fields of the Windows struct `MEMORY_BASIC_INFORMATION` the code reads. -/
structure MEMORY_BASIC_INFORMATION where
  BaseAddress : Nat
  RegionSize : Nat
  State : Nat
  Protect : Nat
  Type_ : Nat
deriving DecidableEq, Repr

/-- The Windows constant `PAGE_READWRITE`. -/
def PAGE_READWRITE : Nat := 0x04

/-- The Windows constant `PAGE_WRITECOPY`. -/
def PAGE_WRITECOPY : Nat := 0x08

/-- The Windows constant `MEM_COMMIT`. -/
def MEM_COMMIT : Nat := 0x1000

/-- The Windows constant `MEM_MAPPED`. -/
def MEM_MAPPED : Nat := 0x40000

/-- The class `memory_region`, a `dumpable<region_header, uint8_t>` over the store
`memory_dump`. -/
structure memory_region extends dumpable region_header uint8_t where
  _mbi : MEMORY_BASIC_INFORMATION

namespace memory_region

/-- The constructor `memory_region(const MEMORY_BASIC_INFORMATION&)`. -/
def ctor (mbi : MEMORY_BASIC_INFORMATION) : memory_region :=
  { todumpable := dumpable.ctor { base := mbi.BaseAddress, size := mbi.RegionSize },
    _mbi := mbi }

/-- The accessor `memory_region::base`. -/
def base (r : memory_region) : Nat := r._header.base

/-- The accessor `memory_region::size`. -/
def size (r : memory_region) : Nat := r._header.size

/-- The member `memory_region::contains`. -/
def contains (r : memory_region) (address : Nat) : Bool :=
  if address < r.base ∨ address > r.base + r.size then false else true

/-- The member `memory_region::has_protection_flags`. -/
def has_protection_flags (r : memory_region) (protect_flags : Nat) : Bool :=
  (r._mbi.Protect &&& protect_flags) != 0

/-- The member `memory_region::is_commited`. -/
def is_commited (r : memory_region) : Bool := r._mbi.State == MEM_COMMIT

/-- The member `memory_region::is_memmapped`. -/
def is_memmapped (r : memory_region) : Bool := r._mbi.Type_ == MEM_MAPPED

/-- The inherited member `load` on a region and its store `memory_dump`. -/
def load (r : memory_region) (memory_dump : file_dump) :
    Option (Bool × memory_region × file_dump) :=
  match r.todumpable.load memory_dump with
  | none => none
  | some (ok, d, memory_dump1) => some (ok, { r with todumpable := d }, memory_dump1)

/-- The inherited member `dump` on a region and its store `memory_dump`. -/
def dump (r : memory_region) (discard_memory : Bool) (memory_dump : file_dump) :
    Bool × memory_region × file_dump :=
  match r.todumpable.dump discard_memory memory_dump with
  | (ok, d, memory_dump1) => (ok, { r with todumpable := d }, memory_dump1)

/-- The member template `memory_region::at_offset<DataType>`; `sizeof_T` is `sizeof(DataType)`.
The sum `offset + sizeof(DataType)` is taken in `Nat`: this is the call for an offset with
`offset + sizeof(DataType) < 2^64`, see `at_offset_size_t`. -/
def at_offset (sizeof_T : Nat) (r : memory_region) (memory_dump : file_dump) (offset : Nat) :
    Option (Option typed_ptr × memory_region × file_dump) :=
  if offset + sizeof_T > r._header.size then some (none, r, memory_dump)
  else if !r._valid then some (none, r, memory_dump)
  else if !r._discarded then some (some ⟨r._data, offset⟩, r, memory_dump)
  else if r._mapped_info.isNone then
    match r.load memory_dump with
    | none => none
    | some (false, r1, memory_dump1) => some (none, r1, memory_dump1)
    | some (true, r1, memory_dump1) => some (some ⟨r1._data_map, offset⟩, r1, memory_dump1)
  else some (some ⟨r._data_map, offset⟩, r, memory_dump)

/-- The member template `memory_region::at_index<DataType>`.  The products are taken in `Nat`:
this is the call for an index with `(index + 1) * sizeof(DataType) < 2^64`, see
`at_index_size_t`. -/
def at_index (sizeof_T : Nat) (r : memory_region) (memory_dump : file_dump) (index : Nat) :
    Option (Option typed_ptr × memory_region × file_dump) :=
  if (index + 1) * sizeof_T > r._header.size then some (none, r, memory_dump)
  else
    let offset := index * sizeof_T
    r.at_offset sizeof_T memory_dump offset

/-- The member template `memory_region::at_address<DataType>`. -/
def at_address (sizeof_T : Nat) (r : memory_region) (memory_dump : file_dump) (address : Nat) :
    Option (Option typed_ptr × memory_region × file_dump) :=
  if !r.contains address then some (none, r, memory_dump)
  else
    let offset := address - r.base
    r.at_offset sizeof_T memory_dump offset

/-- The number of values of `size_t` and of `uint64_t`, `2^64`. -/
def size_t_range : Nat := 18446744073709551616

/-- The member template `memory_region::at_offset<DataType>` on any `size_t` value `offset`:
the sum `offset + sizeof(DataType)` of the range check is a `size_t` and wraps at `2^64`. -/
def at_offset_size_t (sizeof_T : Nat) (r : memory_region) (memory_dump : file_dump)
    (offset : Nat) : Option (Option typed_ptr × memory_region × file_dump) :=
  if (offset + sizeof_T) % size_t_range > r._header.size then some (none, r, memory_dump)
  else if !r._valid then some (none, r, memory_dump)
  else if !r._discarded then some (some ⟨r._data, offset⟩, r, memory_dump)
  else if r._mapped_info.isNone then
    match r.load memory_dump with
    | none => none
    | some (false, r1, memory_dump1) => some (none, r1, memory_dump1)
    | some (true, r1, memory_dump1) => some (some ⟨r1._data_map, offset⟩, r1, memory_dump1)
  else some (some ⟨r._data_map, offset⟩, r, memory_dump)

/-- The member template `memory_region::at_index<DataType>` on any `size_t` value `index`: the
product `(index + 1) * sizeof(DataType)` of the bounds check and the offset
`index * sizeof(DataType)` are `size_t` values and wrap at `2^64`. -/
def at_index_size_t (sizeof_T : Nat) (r : memory_region) (memory_dump : file_dump)
    (index : Nat) : Option (Option typed_ptr × memory_region × file_dump) :=
  if ((index + 1) * sizeof_T) % size_t_range > r._header.size then some (none, r, memory_dump)
  else
    let offset := (index * sizeof_T) % size_t_range
    r.at_offset_size_t sizeof_T memory_dump offset

/-- The member template `memory_region::at_address<DataType>` on any `uint64_t` value
`address`; the offset `address - base()` is only taken when `contains(address)` holds, and is
handed to `at_offset`, whose range check wraps. -/
def at_address_size_t (sizeof_T : Nat) (r : memory_region) (memory_dump : file_dump)
    (address : Nat) : Option (Option typed_ptr × memory_region × file_dump) :=
  if !r.contains address then some (none, r, memory_dump)
  else
    let offset := address - r.base
    r.at_offset_size_t sizeof_T memory_dump offset

/-- The member template `memory_region::read_data`.  The functor `read_func` gets the address,
the buffer as it is and the size, and returns its result, the buffer as it leaves it and the
count it stores in `bytes_read`. -/
def read_data (r : memory_region) (read_func : Nat → List Nat → Nat → Bool × List Nat × Nat) :
    Bool × memory_region × Nat :=
  let data0 := resize r._data r._header.size
  match read_func r._header.base data0 r._header.size with
  | (true, data1, bytes_read) =>
    let data2 := if r._header.size ≠ bytes_read then resize data1 r._header.size else data1
    (true,
      { r with _header := { r._header with size := bytes_read }, _data := data2, _valid := true,
               _data_map := data2 },
      bytes_read)
  | (false, _, bytes_read) =>
    (false, { r with _data := [], _data_map := [], _valid := false }, bytes_read)

end memory_region

/-! ## `scan_result.hpp` -/

/-- The enum `scan_type`. -/
inductive scan_type where
  | unknown_value
  | increased_value
  | decreased_value
  | exact_value
  | increased_by
  | decreased_by
  | smaller_than
  | bigger_than
  | changed
  | unchanged
  | value_between
deriving DecidableEq, Repr

/-- The struct template `scan_entry<DataType>`. -/
structure scan_entry (T : Type) where
  value : T
  address : Nat

instance scan_entry_decEq {T : Type} [DecidableEq T] : DecidableEq (scan_entry T) :=
  fun a b =>
    if h : a.value = b.value ∧ a.address = b.address then
      isTrue (by cases a; cases b; simp_all)
    else
      isFalse (fun e => h (by subst e; exact ⟨rfl, rfl⟩))

/-- The `n` bytes of `x`, least significant first. -/
def le_bytes : Nat → Nat → List Nat
  | 0, _ => []
  | n + 1, x => x % 256 :: le_bytes n (x / 256)

/-- The number whose bytes, least significant first, are `bs`. -/
def le_value : List Nat → Nat
  | [] => 0
  | b :: bs => b + 256 * le_value bs

/-- The layout of `scan_entry<DataType>`: the value, padding up to the 8-byte alignment of
the address, then the address. -/
instance scan_entry_repr {T : Type} [object_repr T] : object_repr (scan_entry T) where
  sizeof := (object_repr.sizeof T + 7) / 8 * 8 + 8
  to_bytes := fun e =>
    resize (object_repr.to_bytes e.value) ((object_repr.sizeof T + 7) / 8 * 8) ++ le_bytes 8 e.address
  of_bytes := fun bs =>
    { value := object_repr.of_bytes (bs.take (object_repr.sizeof T)),
      address := le_value ((bs.drop ((object_repr.sizeof T + 7) / 8 * 8)).take 8) }

/-- The struct `result_header`. -/
structure result_header where
  size : Nat
deriving DecidableEq, Repr

instance : sized_header result_header where
  size := result_header.size

/-- The constant `PARALLEL_THRESHOLD` of `search_value`. -/
def PARALLEL_THRESHOLD : Nat := 10000

/-- The class template `scan_result<DataType>`, a `dumpable<result_header, scan_entry<DataType>>`
over the store `results`.  The region a result shares with its other holders is kept in the
result in its current state; `_type` is `none` until `set_type` is called. -/
structure scan_result (T : Type) extends dumpable result_header (scan_entry T) where
  _associated_region : Option memory_region
  _type : Option scan_type
  _index : Nat

namespace scan_result

variable {T : Type}

/-- The constructor `scan_result(std::shared_ptr<memory_region>, size_t index)`. -/
def ctor (region : Option memory_region) (index : Nat) : scan_result T :=
  { todumpable := dumpable.ctor { size := 0 },
    _associated_region := region, _type := none, _index := index }

/-- The accessor `scan_result::index`. -/
def index (res : scan_result T) : Nat := res._index

/-- The member `scan_result::set_type`. -/
def set_type (res : scan_result T) (type : scan_type) : scan_result T :=
  { res with _type := some type }

/-- The accessor `scan_result::type`. -/
def type (res : scan_result T) : Option scan_type := res._type

/-- The accessor `scan_result::associated_region`. -/
def associated_region (res : scan_result T) : Option memory_region := res._associated_region

/-- The member `scan_result::region_base`; `none` for a null region pointer. -/
def region_base (res : scan_result T) : Option Nat := res._associated_region.map memory_region.base

/-- The member `scan_result::region_size`; `none` for a null region pointer. -/
def region_size (res : scan_result T) : Option Nat := res._associated_region.map memory_region.size

/-- The member `scan_result::add_element`. -/
def add_element (res : scan_result T) (entry : scan_entry T) : scan_result T :=
  { res with _data := res._data ++ [entry],
             _header := { size := res._header.size + 1 },
             _valid := true }

/-- The member `scan_result::elements`, on a result and its store `results`.  The two
`std::span` expression statements have no effect. -/
def elements [object_repr T] (res : scan_result T) (results : file_dump) :
    Option (List (scan_entry T) × scan_result T × file_dump) :=
  if !res._discarded then some (res._data, res, results)
  else if res._mapped_info.isNone then
    match res.todumpable.load results with
    | none => none
    | some (_, d, results1) => some (d._data_map, { res with todumpable := d }, results1)
  else some (res._data_map, res, results)

/-- The serial loop of `search_value` over the indices `is`, on the result, its region and
the region's store `memory_dump`. -/
def search_serial [object_repr T] (comparator : T → T → Option T → Bool) (value1 : T)
    (value2 : Option T) :
    List Nat → scan_result T → memory_region → file_dump →
      Option (scan_result T × memory_region × file_dump)
  | [], res, region, memory_dump => some (res, region, memory_dump)
  | i :: is, res, region, memory_dump =>
    match region.at_index (object_repr.sizeof T) memory_dump i with
    | none => none
    | some (value, region1, memory_dump1) =>
      let res1 : scan_result T :=
        match value with
        | some p =>
          if comparator p.deref value1 value2 then
            let address := region1.base + i * object_repr.sizeof T
            { res with _data := res._data ++ [{ value := p.deref, address := address }],
                       _header := { size := res._header.size + 1 },
                       _valid := true }
          else res
        | none => res
      search_serial comparator value1 value2 is res1 region1 memory_dump1

/-- The task `search_value` hands to one processor: the loop over the indices `is` of a chunk,
filling the chunk's `local_results[j]`. -/
def search_chunk [object_repr T] (comparator : T → T → Option T → Bool) (value1 : T)
    (value2 : Option T) :
    List Nat → List (scan_entry T) → memory_region → file_dump →
      Option (List (scan_entry T) × memory_region × file_dump)
  | [], local_results, region, memory_dump => some (local_results, region, memory_dump)
  | i :: is, local_results, region, memory_dump =>
    match region.at_index (object_repr.sizeof T) memory_dump i with
    | none => none
    | some (value, region1, memory_dump1) =>
      let local1 : List (scan_entry T) :=
        match value with
        | some p =>
          if comparator p.deref value1 value2 then
            let address := region1.base + i * object_repr.sizeof T
            local_results ++ [{ value := p.deref, address := address }]
          else local_results
        | none => local_results
      search_chunk comparator value1 value2 is local1 region1 memory_dump1

/-- The chunks of `search_value`: the tasks `j = 0 .. jobs - 1` still to run, each over
`[start_index, end_index)`, and the concatenation of their `local_results` in chunk order. -/
def search_chunks [object_repr T] (comparator : T → T → Option T → Bool) (value1 : T)
    (value2 : Option T) (total_elements jobs elements_per_processor : Nat) :
    List Nat → memory_region → file_dump →
      Option (List (scan_entry T) × memory_region × file_dump)
  | [], region, memory_dump => some ([], region, memory_dump)
  | j :: js, region, memory_dump =>
    let start_index := j * elements_per_processor
    let end_index := if j = jobs - 1 then total_elements else start_index + elements_per_processor
    match search_chunk comparator value1 value2 (List.range' start_index (end_index - start_index))
        [] region memory_dump with
    | none => none
    | some (local_j, region1, memory_dump1) =>
      match search_chunks comparator value1 value2 total_elements jobs elements_per_processor
          js region1 memory_dump1 with
      | none => none
      | some (rest, region2, memory_dump2) => some (local_j ++ rest, region2, memory_dump2)

/-- The member `scan_result::search_value`, on the result and the store `memory_dump` of its
region; `none` when the region pointer is null or a call throws. -/
def search_value [object_repr T] (res : scan_result T)
    (comparator : T → T → Option T → Bool) (value1 : T) (value2 : Option T)
    (memory_dump : file_dump) : Option (Bool × scan_result T × file_dump) :=
  match res._associated_region with
  | none => none
  | some region =>
    let total_elements := region.size / object_repr.sizeof T
    if total_elements < PARALLEL_THRESHOLD then
      match search_serial comparator value1 value2 (List.range total_elements) res region
          memory_dump with
      | none => none
      | some (res1, region1, memory_dump1) =>
        some (res1._valid, { res1 with _associated_region := some region1 }, memory_dump1)
    else
      let jobs := 4
      let elements_per_processor := total_elements / jobs
      match search_chunks comparator value1 value2 total_elements jobs elements_per_processor
          (List.range jobs) region memory_dump with
      | none => none
      | some (all, region1, memory_dump1) =>
        some (!all.isEmpty,
          { res with _data := all, _header := { size := all.length }, _valid := !all.isEmpty,
                     _associated_region := some region1 },
          memory_dump1)

end scan_result

/-! Notions used to state what `search_value` does. -/

/-- The scalar a region's RAM payload holds at index `i`: the object found at payload byte offset
`i * sizeof(T)`. -/
def memory_region.scalar_at (T : Type) [object_repr T] (r : memory_region) (i : Nat) : T :=
  object_repr.of_bytes ((r._data.drop (i * object_repr.sizeof T)).take (object_repr.sizeof T))

/-- The entries `search_value` is specified to find in a region: `{x_i, base + i * sizeof(T)}` for
`i = 0 .. size / sizeof(T) - 1` in ascending order, kept when the comparator holds of `x_i`. -/
def memory_region.matches {T : Type} [object_repr T] (r : memory_region)
    (comparator : T → T → Option T → Bool) (value1 : T) (value2 : Option T) :
    List (scan_entry T) :=
  ((List.range (r.size / object_repr.sizeof T)).map
      (fun i => ({ value := r.scalar_at T i, address := r.base + i * object_repr.sizeof T } : scan_entry T))).filter
    (fun e => comparator e.value value1 value2)

/-- A result after the entries `found` have been pushed one by one. -/
def scan_result.pushed {T : Type} (res : scan_result T) (found : List (scan_entry T)) : scan_result T :=
  { res with _data := res._data ++ found,
             _header := { size := res._header.size + found.length },
             _valid := res._valid || !found.isEmpty }

/-- A region snapshot at `base` holding the RAM payload `bytes` of `size` bytes, as a
successful read leaves it. -/
def region_holding (base size : Nat) (bytes : List Nat) : memory_region :=
  { _header := { base := base, size := size }, _file_offset := some 0, _data_map := bytes,
    _data := bytes, _mapped_info := none, _valid := true, _discarded := false,
    _mbi := ⟨base, size, MEM_COMMIT, PAGE_READWRITE, 0x20000⟩ }

/-! ## `custom_map.hpp` -/

/-- The class template `custom_map<T>`: the entries of its `std::map<int32_t, std::shared_ptr<T>>`
in ascending key order. -/
structure custom_map (V : Type) where
  _map : List (Int × V)

namespace custom_map

variable {V : Type}

/-- The effect of `_map[key] = value` on the entries. -/
def assign (key : Int) (value : V) : List (Int × V) → List (Int × V)
  | [] => [(key, value)]
  | (k, v) :: rest =>
    if key < k then (key, value) :: (k, v) :: rest
    else if key = k then (key, value) :: rest
    else (k, v) :: assign key value rest

/-- The default constructor. -/
def ctor : custom_map V := { _map := [] }

/-- The member `custom_map::insert`. -/
def insert (m : custom_map V) (key : Int) (value : V) : custom_map V :=
  { _map := assign key value m._map }

/-- The member `custom_map::erase`. -/
def erase (m : custom_map V) (key : Int) : Bool × custom_map V :=
  (m._map.any (fun e => e.1 = key), { _map := m._map.filter (fun e => e.1 ≠ key) })

/-- The member `custom_map::contains`. -/
def contains (m : custom_map V) (key : Int) : Bool := m._map.any (fun e => e.1 = key)

/-- The member `custom_map::at`. -/
def «at» (m : custom_map V) (key : Int) : Option V :=
  (m._map.find? (fun e => e.1 = key)).map Prod.snd

/-- The member `custom_map::first`. -/
def first (m : custom_map V) : Option V := m._map.head?.map Prod.snd

/-- The member `custom_map::empty`. -/
def empty (m : custom_map V) : Bool := m._map.isEmpty

/-- The member `custom_map::size`. -/
def size (m : custom_map V) : Nat := m._map.length

/-- The member `custom_map::keys`. -/
def keys (m : custom_map V) : List Int := m._map.map Prod.fst

/-- The member `custom_map::values`. -/
def values (m : custom_map V) : List V := m._map.map Prod.snd

end custom_map

/-! ## `scan_engine.hpp`, `scan_engine.cpp`, `main.cpp` -/

/-- The target process as the OS shows it during one pass: the answer of `VirtualQueryEx` at
an address (`none` when it returns 0), and the result of `ReadProcessMemory` for an address
and a size, with the bytes it delivers. -/
structure process where
  VirtualQueryEx : Nat → Option MEMORY_BASIC_INFORMATION
  ReadProcessMemory : Nat → Nat → Bool × List Nat

/-- The two stores `main.cpp` defines: `memory_dump` for region payloads, `results` for
scan results. -/
structure globals where
  memory_dump : file_dump
  results : file_dump

/-- The class `scan_engine`. -/
structure scan_engine where
  _pid : Int
  _current_scan : Nat
deriving DecidableEq, Repr

namespace scan_engine

/-- The two clamping statements of the loop body of `scan_engine::get_regions`, on the
answer `mbi` of `VirtualQueryEx`. -/
def clamp_to_range (range : Nat × Nat) (mbi : MEMORY_BASIC_INFORMATION) :
    MEMORY_BASIC_INFORMATION :=
  let mbi1 := if mbi.BaseAddress < range.1 then { mbi with BaseAddress := range.1 } else mbi
  if mbi1.BaseAddress + mbi1.RegionSize > range.2 then
    { mbi1 with RegionSize := range.2 - mbi1.BaseAddress }
  else mbi1

/-- The loop of `scan_engine::get_regions` from `current_address` on; `none` when `fuel`
iterations do not bring it to its end. -/
def get_regions_loop (p : process) (range : Nat × Nat) (protection_flags : Nat) :
    Nat → Nat → Option (List memory_region)
  | 0, current_address => if current_address < range.2 then none else some []
  | fuel + 1, current_address =>
    if current_address < range.2 then
      match p.VirtualQueryEx current_address with
      | none => some []
      | some mbi =>
        let current_region := memory_region.ctor (clamp_to_range range mbi)
        let next := (clamp_to_range range mbi).BaseAddress + (clamp_to_range range mbi).RegionSize
        match get_regions_loop p range protection_flags fuel next with
        | none => none
        | some regions =>
          if current_region.has_protection_flags protection_flags ∧ current_region.is_commited
              ∧ ¬ current_region.is_memmapped then
            some (current_region :: regions)
          else some regions
    else some []

/-- The member `scan_engine::get_regions`. -/
def get_regions (p : process) (range : Nat × Nat) (protection_flags : Nat) (fuel : Nat) :
    Option (List memory_region) :=
  get_regions_loop p range protection_flags fuel range.1

/-- The member `scan_engine::read_memory`. -/
def read_memory (p : process) (region : memory_region) : Bool × memory_region :=
  let r := region.read_data (fun address buffer size =>
    let delivered := (p.ReadProcessMemory address size).2.take size
    let local_bytes_read := delivered.length
    ((p.ReadProcessMemory address size).1 && local_bytes_read == size,
      memcpy buffer 0 delivered, local_bytes_read))
  (r.1, r.2.1)

end scan_engine

/-- The class template `scan_engine_templated<DataType>`. -/
structure scan_engine_templated (T : Type) extends scan_engine where
  _prev_scan_results : Option (custom_map (scan_result T))

namespace scan_engine_templated

variable {T : Type}

/-- The constructor `scan_engine_templated(long process_id)`. -/
def ctor (process_id : Int) : scan_engine_templated T :=
  { _pid := process_id, _current_scan := 0, _prev_scan_results := none }

/-- The member `scan_engine_templated::compare`, for an integer `DataType`; `none` is the
empty `std::function`. -/
def compare [scalar T] (type : scan_type) : Option (T → T → Option T → Bool) :=
  match type with
  | .exact_value => some (fun a b _ => decide (a = b))
  | .bigger_than => some (fun a b _ => decide (a > b))
  | .smaller_than => some (fun a b _ => decide (a < b))
  | .changed => some (fun a b _ => decide (a ≠ b))
  | .unchanged => some (fun a b _ => decide (a = b))
  | .increased_by =>
    some (fun a b c =>
      match c with
      | none => false
      | some c => decide (a - b = c))
  | .decreased_by =>
    some (fun a b c =>
      match c with
      | none => false
      | some c => decide (b - a = c))
  | .value_between =>
    some (fun a b c =>
      match c with
      | none => false
      | some c => decide (a > b) && decide (a < c))
  | .increased_value => some (fun a b _ => decide (a > b))
  | .decreased_value => some (fun a b _ => decide (a < b))
  | .unknown_value => none

/-- The loop of `first_scan` over the queue `regions`, from the index `i` on. -/
def first_scan_loop [scalar T] (p : process) (type : scan_type) (value1 : T) (value2 : Option T) :
    List memory_region → Nat → custom_map (scan_result T) → Nat → globals →
      Option (custom_map (scan_result T) × Nat × globals)
  | [], _, results, total_entries, g => some (results, total_entries, g)
  | current_region :: regions, i, results, total_entries, g =>
    let cmp : Option (T → T → Option T → Bool) := compare type
    match scan_engine.read_memory p current_region with
    | (false, _) => first_scan_loop p type value1 value2 regions (i + 1) results total_entries g
    | (true, region1) =>
      let dumped : Bool × memory_region × file_dump :=
        if type = scan_type.unknown_value then region1.dump true g.memory_dump
        else (false, region1, g.memory_dump)
      let result : scan_result T := scan_result.ctor (some dumped.2.1) i
      let g1 : globals := { g with memory_dump := dumped.2.2 }
      match cmp with
      | none =>
        if dumped.1 then
          first_scan_loop p type value1 value2 regions (i + 1)
            (results.insert i (result.set_type type)) total_entries g1
        else first_scan_loop p type value1 value2 regions (i + 1) results total_entries g1
      | some c =>
        match result.search_value c value1 value2 g1.memory_dump with
        | none => none
        | some (false, _, memory_dump2) =>
          first_scan_loop p type value1 value2 regions (i + 1) results total_entries
            { g1 with memory_dump := memory_dump2 }
        | some (true, result1, memory_dump2) =>
          match result1.elements g1.results with
          | none => none
          | some (elements, result2, results2) =>
            first_scan_loop p type value1 value2 regions (i + 1)
              (results.insert i (result2.set_type type)) (total_entries + elements.length)
              { memory_dump := memory_dump2, results := results2 }

/-- The member `scan_engine_templated::first_scan`. -/
def first_scan [scalar T] (p : process) (regions : List memory_region) (type : scan_type)
    (total_entries : Nat) (value1 : T) (value2 : Option T) (g : globals) :
    Option (custom_map (scan_result T) × Nat × globals) :=
  first_scan_loop p type value1 value2 regions 0 custom_map.ctor total_entries g

/-- The `switch` of the task of `next_scan`: whether the comparator accepts the pair. -/
def next_scan_success (type : scan_type) (cmp : T → T → Option T → Bool) (new_value : T)
    (old_elem : scan_entry T) (value1 : T) (value2 : Option T) : Bool :=
  match type with
  | .exact_value => cmp new_value value1 value2
  | .increased_value => cmp new_value old_elem.value (some value1)
  | .decreased_value => cmp new_value old_elem.value (some value1)
  | .changed => cmp new_value old_elem.value (some value1)
  | .unchanged => cmp new_value old_elem.value (some value1)
  | .decreased_by => cmp new_value old_elem.value (some value1)
  | .increased_by => cmp new_value old_elem.value (some value1)
  | .value_between => cmp new_value value1 value2
  | .smaller_than => cmp new_value value1 value2
  | .bigger_than => cmp new_value value1 value2
  | .unknown_value => false

/-- The state the element loop of a task of `next_scan` works on. -/
structure task_state (T : Type) where
  prev_region : memory_region
  current_region : memory_region
  result : scan_result T
  total_entries : Nat
  memory_dump : file_dump

/-- The element loop of the task of `next_scan`, over the indices `is`. -/
def next_scan_elements [scalar T] (type : scan_type) (value1 : T) (value2 : Option T)
    (old_scan_type : Option scan_type) (elements : List (scan_entry T)) :
    List Nat → task_state T → Option (task_state T)
  | [], st => some st
  | i :: is, st =>
    let old : Option (Option (scan_entry T) × memory_region × file_dump) :=
      if old_scan_type = some scan_type.unknown_value then
        match st.prev_region.at_index (object_repr.sizeof T) st.memory_dump i with
        | none => none
        | some (none, r, m) => some (none, r, m)
        | some (some old_value, r, m) =>
          some (some { value := old_value.deref, address := r.base + i * object_repr.sizeof T }, r, m)
      else
        match elements.get? i with
        | none => none
        | some e => some (some e, st.prev_region, st.memory_dump)
    match old with
    | none => none
    | some (none, r, m) =>
      next_scan_elements type value1 value2 old_scan_type elements is
        { st with prev_region := r, memory_dump := m }
    | some (some old_elem, r, m) =>
      match st.current_region.at_address (object_repr.sizeof T) m old_elem.address with
      | none => none
      | some (none, c, m1) =>
        next_scan_elements type value1 value2 old_scan_type elements is
          { st with prev_region := r, current_region := c, memory_dump := m1 }
      | some (some new_value, c, m1) =>
        match (compare type : Option (T → T → Option T → Bool)) with
        | none =>
          next_scan_elements type value1 value2 old_scan_type elements is
            { st with prev_region := r, current_region := c, memory_dump := m1 }
        | some cmp =>
          if next_scan_success type cmp new_value.deref old_elem value1 value2 then
            next_scan_elements type value1 value2 old_scan_type elements is
              { prev_region := r, current_region := c, memory_dump := m1,
                total_entries := st.total_entries + 1,
                result := (st.result.add_element
                  { value := new_value.deref, address := old_elem.address }).set_type type }
          else
            next_scan_elements type value1 value2 old_scan_type elements is
              { st with prev_region := r, current_region := c, memory_dump := m1 }

/-- The task `next_scan` hands to a processor for a pair of a prior result and a new region. -/
def next_scan_task [scalar T] (p : process) (old_scan : scan_result T)
    (current_region : memory_region) (type : scan_type) (value1 : T) (value2 : Option T)
    (results : custom_map (scan_result T)) (total_entries : Nat) (g : globals) :
    Option (custom_map (scan_result T) × Nat × globals) :=
  match scan_engine.read_memory p current_region with
  | (false, _) => some (results, total_entries, g)
  | (true, current_region1) =>
    let old_scan_type := old_scan.type
    match old_scan.associated_region with
    | none => some (results, total_entries, g)
    | some prev_region =>
      let counted : Option (List (scan_entry T) × Nat × file_dump) :=
        if old_scan_type = some scan_type.unknown_value then
          some ([], prev_region.size / object_repr.sizeof T, g.results)
        else
          match old_scan.elements g.results with
          | none => none
          | some (elements, _, results1) => some (elements, elements.length, results1)
      match counted with
      | none => none
      | some (elements, total_elements, results1) =>
        let result : scan_result T := scan_result.ctor (some current_region1) old_scan.index
        match next_scan_elements type value1 value2 old_scan_type elements
            (List.range total_elements)
            { prev_region := prev_region, current_region := current_region1, result := result,
              total_entries := total_entries, memory_dump := g.memory_dump } with
        | none => none
        | some st =>
          let result1 : scan_result T :=
            { st.result with _associated_region := some st.current_region }
          match result1.elements results1 with
          | none => none
          | some (found, result2, results2) =>
            if found.length > 0 then
              some (results.insert (old_scan.index : Int) result2, st.total_entries,
                { memory_dump := st.memory_dump, results := results2 })
            else
              some (results, st.total_entries,
                { memory_dump := st.memory_dump, results := results2 })

/-- The loop of `next_scan` over the keys of the prior map. -/
def next_scan_loop [scalar T] (p : process) (type : scan_type) (value1 : T) (value2 : Option T) :
    List Int → List memory_region → custom_map (scan_result T) → custom_map (scan_result T) →
      Nat → globals →
      Option (custom_map (scan_result T) × custom_map (scan_result T) × Nat × globals)
  | [], _, prev_scan, results, total_entries, g => some (prev_scan, results, total_entries, g)
  | _ :: _, [], prev_scan, results, total_entries, g => some (prev_scan, results, total_entries, g)
  | key :: keys, current_region :: regions, prev_scan, results, total_entries, g =>
    match prev_scan.«at» key with
    | none => none
    | some old =>
      match old.region_base, old.region_size with
      | some old_base, some old_size =>
        if old_base + old_size < current_region.base then
          next_scan_loop p type value1 value2 keys regions (prev_scan.erase key).2 results
            total_entries g
        else if old_base < current_region.base + current_region.size then
          let old_scan := old
          let prev_scan1 := (prev_scan.erase key).2
          match next_scan_task p old_scan current_region type value1 value2 results
              total_entries g with
          | none => none
          | some (results1, total_entries1, g1) =>
            next_scan_loop p type value1 value2 keys regions prev_scan1 results1 total_entries1 g1
        else
          next_scan_loop p type value1 value2 keys regions prev_scan results total_entries g
      | _, _ => none

/-- The member `scan_engine_templated::next_scan`; it returns the new map, and the prior map
as it leaves it. -/
def next_scan [scalar T] (p : process) (regions : List memory_region) (type : scan_type)
    (prev_scan : custom_map (scan_result T)) (total_entries : Nat) (value1 : T)
    (value2 : Option T) (g : globals) :
    Option (custom_map (scan_result T) × custom_map (scan_result T) × Nat × globals) :=
  match next_scan_loop p type value1 value2 prev_scan.keys regions prev_scan custom_map.ctor
      total_entries g with
  | none => none
  | some (prev_scan1, results, total_entries1, g1) => some (results, prev_scan1, total_entries1, g1)

/-- The member `scan_engine_templated::scan`: the count it returns, the engine and the stores
after the call; `none` when `fuel` is too little for `get_regions` or a call throws. -/
def scan [scalar T] (e : scan_engine_templated T) (p : process) (range : Nat × Nat)
    (type : scan_type) (value1 : T) (value2 : Option T) (g : globals) (fuel : Nat) :
    Option (Nat × scan_engine_templated T × globals) :=
  match scan_engine.get_regions p range (PAGE_READWRITE ||| PAGE_WRITECOPY) fuel with
  | none => none
  | some regions =>
    let total_entries := 0
    if e._current_scan = 0 then
      match first_scan p regions type total_entries value1 value2 g with
      | none => none
      | some (results, total_entries1, g1) =>
        some (total_entries1,
          { e with _prev_scan_results := some results, _current_scan := 1 }, g1)
    else
      match e._prev_scan_results with
      | none => none
      | some prev_scan =>
        match next_scan p regions type prev_scan total_entries value1 value2 g with
        | none => none
        | some (results, _, total_entries1, g1) =>
          some (total_entries1, { e with _prev_scan_results := some results }, g1)

/-- The accessor `scan_engine_templated::get_results`. -/
def get_results (e : scan_engine_templated T) : Option (custom_map (scan_result T)) :=
  e._prev_scan_results

end scan_engine_templated

/-! Notions used to state what the engine does. -/

/-- The table of the spec (4.G.2) for an integer scalar: what the comparator of a scan type
says of `(a, b, c)`; `unknown_value` has no comparator. -/
def comparator_table {T : Type} [scalar T] (type : scan_type) (a b : T) (c : Option T) : Prop :=
  match type with
  | .exact_value => a = b
  | .bigger_than => a > b
  | .smaller_than => a < b
  | .changed => a ≠ b
  | .unchanged => a = b
  | .increased_value => a > b
  | .decreased_value => a < b
  | .increased_by => ∃ d, c = some d ∧ a - b = d
  | .decreased_by => ∃ d, c = some d ∧ b - a = d
  | .value_between => ∃ d, c = some d ∧ b < a ∧ a < d
  | .unknown_value => False

/-- A region holds a full scalar of `w` bytes at `address`: the address is not below the base
and the `w` bytes from it on lie inside the region. -/
def memory_region.holds (w : Nat) (r : memory_region) (address : Nat) : Prop :=
  r.base ≤ address ∧ address - r.base + w ≤ r.size

instance memory_region.holds_decidable (w : Nat) (r : memory_region) (address : Nat) :
    Decidable (r.holds w address) :=
  inferInstanceAs (Decidable (_ ∧ _))

/-- The scalar a region's RAM payload holds at `address`. -/
def memory_region.scalar_at_address (T : Type) [object_repr T] (r : memory_region)
    (address : Nat) : T :=
  object_repr.of_bytes ((r._data.drop (address - r.base)).take (object_repr.sizeof T))

/-- The comparator of the requested type as a next pass applies it to a new value `n` and the
prior value of the entry: `cmp(n, old, v1)` for the relative types, `cmp(n, v1, v2)` for
`exact_value`, `bigger_than`, `smaller_than` and `value_between`; false without a comparator. -/
def next_pass_accepts {T : Type} [scalar T] (type : scan_type) (n old_value value1 : T)
    (value2 : Option T) : Bool :=
  match (scan_engine_templated.compare type : Option (T → T → Option T → Bool)) with
  | none => false
  | some cmp =>
    if type = scan_type.increased_value ∨ type = scan_type.decreased_value
        ∨ type = scan_type.changed ∨ type = scan_type.unchanged
        ∨ type = scan_type.increased_by ∨ type = scan_type.decreased_by then
      cmp n old_value (some value1)
    else cmp n value1 value2

/-- The entry a next pass makes of a prior entry `e` against the new region `R`: `{n, e.address}`
when `R` holds a full scalar `n` at `e.address` and the comparator accepts it. -/
def next_pass_entry {T : Type} [scalar T] (type : scan_type) (value1 : T) (value2 : Option T)
    (R : memory_region) (e : scan_entry T) : Option (scan_entry T) :=
  if R.holds (object_repr.sizeof T) e.address
      ∧ next_pass_accepts type (R.scalar_at_address T e.address) e.value value1 value2 = true then
    some { value := R.scalar_at_address T e.address, address := e.address }
  else none

/-- A result after the entries `found` of a pass of type `type` have been added one by one,
each with `add_element` and `set_type`. -/
def scan_result.accepted {T : Type} (res : scan_result T) (type : scan_type)
    (found : List (scan_entry T)) : scan_result T :=
  if found.isEmpty then res else { res.pushed found with _type := some type }

/-- The result `search_value` leaves on a fresh result with index `index` over `region`,
when it finds the entries `found`. -/
def scan_result.found_in {T : Type} (region : memory_region) (index : Nat)
    (found : List (scan_entry T)) : scan_result T :=
  { (scan_result.ctor (some region) index : scan_result T) with
    _data := found, _header := { size := found.length }, _valid := !found.isEmpty }

/-- The entries of the map a seed pass of a type with comparator `cmp` stores for the regions
`regions`, indexed from `i` on: one for each region that is read successfully and has a match,
under the region's index. -/
def first_pass_results {T : Type} [scalar T] (p : process) (type : scan_type)
    (cmp : T → T → Option T → Bool) (value1 : T) (value2 : Option T) :
    List memory_region → Nat → List (Int × scan_result T)
  | [], _ => []
  | r :: rs, i =>
    if (scan_engine.read_memory p r).1 = true
        ∧ (scan_engine.read_memory p r).2.matches cmp value1 value2 ≠ [] then
      ((i : Int), (scan_result.found_in (scan_engine.read_memory p r).2 i
          ((scan_engine.read_memory p r).2.matches cmp value1 value2)).set_type type)
        :: first_pass_results p type cmp value1 value2 rs (i + 1)
    else first_pass_results p type cmp value1 value2 rs (i + 1)

/-- The store `memory_dump` after a seed pass of type `unknown_value` has gone through
`regions`: every region read successfully has been dumped with discard, in queue order. -/
def seed_unknown_store (p : process) : List memory_region → file_dump → file_dump
  | [], memory_dump => memory_dump
  | r :: rs, memory_dump =>
    if (scan_engine.read_memory p r).1 = true then
      seed_unknown_store p rs ((scan_engine.read_memory p r).2.dump true memory_dump).2.2
    else seed_unknown_store p rs memory_dump

/-- The entries of the map a seed pass of type `unknown_value` stores for the regions
`regions`, indexed from `i` on, over the store `memory_dump`: one for each region that is
read and dumped successfully, under the region's index, bound to the region as dumped. -/
def seed_unknown_results {T : Type} (p : process) :
    List memory_region → Nat → file_dump → List (Int × scan_result T)
  | [], _, _ => []
  | r :: rs, i, memory_dump =>
    if (scan_engine.read_memory p r).1 = true then
      if ((scan_engine.read_memory p r).2.dump true memory_dump).1 = true then
        ((i : Int), (scan_result.ctor
            (some ((scan_engine.read_memory p r).2.dump true memory_dump).2.1) i).set_type
              scan_type.unknown_value)
          :: seed_unknown_results p rs (i + 1)
              ((scan_engine.read_memory p r).2.dump true memory_dump).2.2
      else
        seed_unknown_results p rs (i + 1)
          ((scan_engine.read_memory p r).2.dump true memory_dump).2.2
    else seed_unknown_results p rs (i + 1) memory_dump

/-- A discarded region shows `bytes` when it is reloaded from its store `md`: the region is
valid and discarded, and either nothing is mapped yet and `load` on `md` succeeds with a view
holding `bytes`, or a chunk is mapped and the view holds `bytes`. -/
def memory_region.dumped_in (r : memory_region) (md : file_dump) (bytes : List Nat) : Prop :=
  r._valid = true ∧ r._discarded = true
    ∧ ((r._mapped_info = none
          ∧ ∃ (r1 : memory_region) (md1 : file_dump),
              r.load md = some (true, r1, md1) ∧ r1._data_map = bytes)
        ∨ (r._mapped_info ≠ none ∧ r._data_map = bytes))

/-- The prior entry a next pass makes of index `i` of a dumped region holding `bytes`:
the scalar found at byte offset `i * sizeof(T)`, at the address `base + i * sizeof(T)`. -/
def reloaded_entry (T : Type) [object_repr T] (base : Nat) (bytes : List Nat) (i : Nat) :
    scan_entry T :=
  { value := object_repr.of_bytes
      ((bytes.drop (i * object_repr.sizeof T)).take (object_repr.sizeof T)),
    address := base + i * object_repr.sizeof T }

/-! ## The scalar type `int` of `main.cpp` -/

/-- The type `int`: 32 bits, two's complement. -/
structure int32_t where
  val : Int
deriving DecidableEq, Repr

namespace int32_t

/-- The value of the 32-bit pattern `n`. -/
def of_bits (n : Nat) : int32_t :=
  if n % 4294967296 < 2147483648 then ⟨(n % 4294967296 : Nat)⟩
  else ⟨((n % 4294967296 : Nat) : Int) - 4294967296⟩

/-- The 32-bit pattern of `x`. -/
def bits (x : int32_t) : Nat := (x.val % 4294967296).toNat

instance : OfNat int32_t n where
  ofNat := of_bits n

instance : scalar int32_t where
  sizeof := 4
  to_bytes := fun x => le_bytes 4 x.bits
  of_bytes := fun bs => of_bits (le_value (bs.take 4))
  sub := fun a b => of_bits ((a.val - b.val) % 4294967296).toNat
  lt := fun a b => a.val < b.val
  decEq := inferInstance
  decLt := fun a b => inferInstanceAs (Decidable (a.val < b.val))

end int32_t

/-- A target process with one committed private read-write region `[base, base + bytes.length)`
holding `bytes`; every other address is free. -/
def one_region_process (base : Nat) (bytes : List Nat) : process where
  VirtualQueryEx := fun a =>
    if a < base then some ⟨a, base - a, 0x10000, 0x01, 0⟩
    else if a < base + bytes.length then some ⟨base, bytes.length, MEM_COMMIT, PAGE_READWRITE, 0x20000⟩
    else some ⟨a, 0x10000, 0x10000, 0x01, 0⟩
  ReadProcessMemory := fun a n =>
    if base ≤ a ∧ a + n ≤ base + bytes.length then (true, (bytes.drop (a - base)).take n)
    else (false, [])

/-- The two stores of `main.cpp` as the program starts, over absent files. -/
def fresh_globals : globals :=
  { memory_dump := file_dump.ctor ⟨[], []⟩, results := file_dump.ctor ⟨[], []⟩ }

/-- The addresses and values of the entries a stored map holds, by key. -/
def map_entries {T : Type} (m : Option (custom_map (scan_result T))) : List (Int × List (Nat × T)) :=
  match m with
  | none => []
  | some m => m._map.map (fun kv => (kv.1, kv.2._data.map (fun e => (e.address, e.value))))


/-- A region snapshot `[base, base + size)` as `dump(true)` leaves it, with the offset `off`
recorded. -/
def dumped_region (base size off : Nat) : memory_region :=
  { _header := { base := base, size := size }, _file_offset := some off, _data_map := [],
    _data := [], _mapped_info := none, _valid := true, _discarded := true,
    _mbi := ⟨base, size, MEM_COMMIT, PAGE_READWRITE, 0x20000⟩ }

/-- The stores after a seed pass of type `unknown_value` over one region holding `bytes`:
the bytes are staged in the buffer of `memory_dump`. -/
def globals_holding (bytes : List Nat) : globals :=
  { memory_dump := ⟨⟨[], []⟩, 0, bytes, bytes.length⟩, results := file_dump.ctor ⟨[], []⟩ }

/-- The result a seed pass `bigger_than` 0 stores for the 32-bit sequence 10, 20, 30, 40 at
`0x1000`. -/
def four_matches : scan_result int32_t :=
  (scan_result.found_in (region_holding 0x1000 16 (raw_bytes ([10, 20, 30, 40] : List int32_t))) 0
    [⟨10, 0x1000⟩, ⟨20, 0x1004⟩, ⟨30, 0x1008⟩, ⟨40, 0x100c⟩]).set_type scan_type.bigger_than


/-- The result a seed pass `bigger_than` 0 stores under the index 1 for the 32-bit sequence
10, 20, 30, 40 at `0x3000`. -/
def second_matches : scan_result int32_t :=
  (scan_result.found_in (region_holding 0x3000 16 (raw_bytes ([10, 20, 30, 40] : List int32_t))) 1
    [⟨10, 0x3000⟩, ⟨20, 0x3004⟩, ⟨30, 0x3008⟩, ⟨40, 0x300c⟩]).set_type scan_type.bigger_than

/-- A prior map with the keys 0 and 1: `four_matches` over `[0x1000, 0x1010)` and
`second_matches` over `[0x3000, 0x3010)`. -/
def two_prior_results : custom_map (scan_result int32_t) :=
  ((custom_map.ctor : custom_map (scan_result int32_t)).insert 0 four_matches).insert 1
    second_matches

/-- The move constructor and the move assignment of `dumpable`: the object moved into and the
object moved from.  The latter keeps its header and its span (both are copied), gives up the
vector and the chunk, and has its offset set to 0 and its flags to false. -/
def dumpable.move {Header DataType : Type} (other : dumpable Header DataType) :
    dumpable Header DataType × dumpable Header DataType :=
  (other,
   { other with _file_offset := some 0, _data := [], _mapped_info := none, _valid := false,
                _discarded := false })

/-- The move constructor and the move assignment of `memory_region`. -/
def memory_region.move (other : memory_region) : memory_region × memory_region :=
  ({ other with todumpable := other.todumpable.move.1 },
   { other with todumpable := other.todumpable.move.2 })

/-- The inherited member `copy_map_view` on a region. -/
def memory_region.copy_map_view (r : memory_region) : memory_region :=
  { r with todumpable := r.todumpable.copy_map_view }

/-- A call made on a region snapshot during its life; `move` continues with the object moved
into. -/
inductive region_call where
  | read_data (read_func : Nat → List Nat → Nat → Bool × List Nat × Nat)
  | dump (discard_memory : Bool)
  | load
  | copy_map_view
  | move

/-- A region snapshot with its store and the account of its writes: `written` tells that a
`dump` has written the record to the store, `write_failed` that the latest write it asked of
the store failed. -/
structure region_life where
  region : memory_region
  memory_dump : file_dump
  written : Bool
  write_failed : Bool

namespace region_life

/-- A snapshot as constructed, over the store `memory_dump`. -/
def start (mbi : MEMORY_BASIC_INFORMATION) (memory_dump : file_dump) : region_life :=
  { region := memory_region.ctor mbi, memory_dump := memory_dump, written := false,
    write_failed := false }

/-- One call; `none` when it throws. -/
def step (h : region_life) : region_call → Option region_life
  | .read_data read_func => some { h with region := (h.region.read_data read_func).2.1 }
  | .dump discard_memory =>
    some { region := (h.region.dump discard_memory h.memory_dump).2.1,
           memory_dump := (h.region.dump discard_memory h.memory_dump).2.2,
           written := h.written || (h.region.dump discard_memory h.memory_dump).1,
           write_failed :=
             if h.region._data.isEmpty then h.write_failed
             else !(h.region.dump discard_memory h.memory_dump).1 }
  | .load =>
    match h.region.load h.memory_dump with
    | none => none
    | some (_, r, memory_dump1) => some { h with region := r, memory_dump := memory_dump1 }
  | .copy_map_view => some { h with region := h.region.copy_map_view }
  | .move => some { h with region := h.region.move.1 }

/-- A sequence of calls. -/
def run : List region_call → region_life → Option region_life
  | [], h => some h
  | c :: cs, h =>
    match h.step c with
    | none => none
    | some h1 => run cs h1

end region_life

/-- The predicate of the spec on a record: a set discarded flag comes with an empty RAM
vector. -/
def dumpable.discard_invariant {Header DataType : Type} (d : dumpable Header DataType) : Prop :=
  d._discarded = true → d._data = []

/-- A prior result a task of `next_scan` can work on: it has not been dumped, it is bound to a
region, and the region has a file offset (as it has from its construction on, unless a write
of it failed). -/
def scan_result.usable {T : Type} (old : scan_result T) : Prop :=
  old._discarded = false
    ∧ ∃ r : memory_region, old._associated_region = some r ∧ r._file_offset ≠ none

/-- The keys of a map are in strictly ascending order, as in a `std::map`. -/
def custom_map.ordered {V : Type} (m : custom_map V) : Prop :=
  m.keys.Pairwise (fun a b => a < b)

/-- What a next pass of type `type` makes of a prior result `old`: a result `new` with the
prior index and at least one entry, whose entries were accepted by the comparator and, when
`old` was not produced by `unknown_value`, whose addresses are, in order, addresses of entries
of `old`. -/
def next_pass_result {T : Type} [scalar T] (type : scan_type) (value1 : T) (value2 : Option T)
    (old new : scan_result T) : Prop :=
  new.index = old.index ∧ new._data ≠ [] ∧ new._discarded = false
    ∧ (∀ e ∈ new._data, ∃ o : T, next_pass_accepts type e.value o value1 value2 = true)
    ∧ (old.type ≠ some scan_type.unknown_value →
        (new._data.map (fun e => e.address)).Sublist (old._data.map (fun e => e.address)))

/-- An engine after a first pass that stored the map `m`. -/
def engine_holding {T : Type} (m : custom_map (scan_result T)) : scan_engine_templated T :=
  { _pid := 1, _current_scan := 1, _prev_scan_results := some m }

/-- A target process with the committed private read-write regions `regs`, each given by its
base and its bytes, in ascending order and apart from each other; the addresses between them
are free. -/
def regions_process (regs : List (Nat × List Nat)) : process where
  VirtualQueryEx := fun a =>
    match regs.find? (fun r => decide (r.1 ≤ a ∧ a < r.1 + r.2.length)) with
    | some r => some ⟨r.1, r.2.length, MEM_COMMIT, PAGE_READWRITE, 0x20000⟩
    | none =>
      match regs.find? (fun r => decide (a < r.1)) with
      | some r => some ⟨a, r.1 - a, 0x10000, 0x01, 0⟩
      | none => some ⟨a, 0x10000, 0x10000, 0x01, 0⟩
  ReadProcessMemory := fun a n =>
    match regs.find? (fun r => decide (r.1 ≤ a ∧ a + n ≤ r.1 + r.2.length)) with
    | some r => (true, (r.2.drop (a - r.1)).take n)
    | none => (false, [])

/-- A target with three regions of four 32-bit values each, at `0x1000`, `0x2000` and
`0x3000`. -/
def three_regions : process :=
  regions_process
    [(0x1000, raw_bytes ([1, 2, 3, 4] : List int32_t)),
     (0x2000, raw_bytes ([5, 6, 7, 8] : List int32_t)),
     (0x3000, raw_bytes ([10, 20, 30, 40] : List int32_t))]

/-- The result a seed pass `exact_value` 30 over `three_regions` stores, under the index 2 of
the third region. -/
def third_region_match : scan_result int32_t :=
  (scan_result.found_in (region_holding 0x3000 16 (raw_bytes ([10, 20, 30, 40] : List int32_t))) 2
    [⟨30, 0x3008⟩]).set_type scan_type.exact_value

/-- The arguments of one call of `scan`, the target process as it is during the call, and the
fuel allowed to the enumeration of its regions. -/
structure scan_call (T : Type) where
  p : process
  range : Nat × Nat
  type : scan_type
  value1 : T
  value2 : Option T
  fuel : Nat

/-- Successive calls of `scan` on one engine: the counts they return, and the engine and the
stores after the last one. -/
def scan_engine_templated.scans {T : Type} [scalar T] :
    List (scan_call T) → scan_engine_templated T → globals →
      Option (List Nat × scan_engine_templated T × globals)
  | [], e, g => some ([], e, g)
  | c :: cs, e, g =>
    match e.scan c.p c.range c.type c.value1 c.value2 g c.fuel with
    | none => none
    | some (n, e1, g1) =>
      match scans cs e1 g1 with
      | none => none
      | some (ns, e2, g2) => some (n :: ns, e2, g2)

/-- The order of two entries of a stored map, the first visited before the second: the keys
ascend strictly and so do the bases of the regions the results are bound to. -/
def stored_before {T : Type} (a b : Int × scan_result T) : Prop :=
  a.1 < b.1 ∧ ∃ x y : Nat, a.2.region_base = some x ∧ b.2.region_base = some y ∧ x < y

/-- The ordering invariant of a stored result map: along the map the keys and the bases of the
bound regions ascend strictly, each result sits under its index, and each result can be worked
on by the next pass. -/
def custom_map.stored_ok {T : Type} (m : custom_map (scan_result T)) : Prop :=
  m._map.Pairwise stored_before ∧ ∀ kv ∈ m._map, (kv.2.index : Int) = kv.1 ∧ kv.2.usable

/-- The entries of a list are made of the regions `regions`, indexed from `i` on: in ascending
order, each under its index and not below `i`, usable, and bound to the range of a region of
the list. -/
def seed_entries_ok {T : Type} (regions : List memory_region) (i : Nat)
    (entries : List (Int × scan_result T)) : Prop :=
  entries.Pairwise stored_before
    ∧ ∀ kv ∈ entries, (i : Int) ≤ kv.1 ∧ (kv.2.index : Int) = kv.1 ∧ kv.2.usable
        ∧ ∃ r ∈ regions, kv.2.region_base = some r.base

/-! ## Lemmas on raw memory -/

theorem resize_length (mem : List Nat) (n : Nat) : (resize mem n).length = n := by
  simp only [resize, List.length_append, List.length_take, List.length_replicate]
  omega

theorem resize_of_le (mem : List Nat) (n : Nat) (h : n ≤ mem.length) :
    resize mem n = mem.take n := by
  simp [resize, Nat.sub_eq_zero_of_le h]

theorem take_resize (mem : List Nat) (k n : Nat) (h : k ≤ n) :
    (resize mem n).take k = resize mem k := by
  unfold resize
  rw [List.take_append_eq_append_take, List.take_take, List.take_replicate, List.length_take]
  by_cases hk : k ≤ mem.length
  · have e1 : k - min n mem.length = 0 := by omega
    have e2 : k - mem.length = 0 := by omega
    simp [e1, e2, Nat.min_eq_left h]
  · have e1 : min n mem.length = mem.length := by omega
    have e2 : min (k - mem.length) (n - mem.length) = k - mem.length := by omega
    have e3 : mem.length ≤ min k n := by omega
    rw [e1, e2, List.take_of_length_le e3, List.take_of_length_le (by omega : mem.length ≤ k)]

theorem memcpy_length (dst : List Nat) (pos : Nat) (src : List Nat)
    (h : pos + src.length ≤ dst.length) : (memcpy dst pos src).length = dst.length := by
  simp only [memcpy, List.length_append, List.length_take, List.length_drop]
  omega

theorem take_memcpy (dst : List Nat) (pos : Nat) (src : List Nat) (h : pos ≤ dst.length) :
    (memcpy dst pos src).take (pos + src.length) = dst.take pos ++ src := by
  unfold memcpy
  have hl : (dst.take pos ++ src).length = pos + src.length := by
    simp [List.length_take, Nat.min_eq_left h]
  rw [← hl, List.take_left]

theorem take_memcpy_before (dst : List Nat) (pos : Nat) (src : List Nat) (h : pos ≤ dst.length) :
    (memcpy dst pos src).take pos = dst.take pos := by
  unfold memcpy
  have hl : pos ≤ (dst.take pos).length := by simp [List.length_take, Nat.min_eq_left h]
  rw [List.append_assoc, List.take_append_of_le_length hl, List.take_take, Nat.min_self]

/-! ## The dump store -/

namespace file_dump

theorem map_offset_le (offset : Nat) :
    offset / dwAllocationGranularity * dwAllocationGranularity ≤ offset :=
  Nat.div_mul_le_self offset dwAllocationGranularity

theorem chunk_over_data (bytes : List Nat) (offset size : Nat) :
    (chunk_over bytes offset size).data = (bytes.drop offset).take size := by
  have hm := map_offset_le offset
  simp only [mapped_chunk.data, chunk_over]
  rw [List.drop_take, List.drop_drop]
  have e1 : offset / dwAllocationGranularity * dwAllocationGranularity
      + (offset - offset / dwAllocationGranularity * dwAllocationGranularity) = offset := by omega
  have e2 : offset - offset / dwAllocationGranularity * dwAllocationGranularity + size
      - (offset - offset / dwAllocationGranularity * dwAllocationGranularity) = size := by omega
  rw [e1, e2, List.take_take, Nat.min_self]

theorem chunk_over_pointer (bytes : List Nat) (offset size : Nat) :
    (chunk_over bytes offset size).map_offset + (chunk_over bytes offset size).pointer = offset := by
  have hm := map_offset_le offset
  simp only [chunk_over]
  omega

theorem extended_bytes_length (s : file_dump) (offset size : Nat)
    (hcur : s._current_size ≤ s.disk.bytes.length) :
    offset + size ≤ (s.extended_bytes offset size).length := by
  unfold extended_bytes
  split
  · rw [resize_length]
  · omega

theorem map_file_ok (s : file_dump) (offset size : Nat) (hf : s.disk.faults = [])
    (hcur : s._current_size ≤ s.disk.bytes.length) (hsize : 0 < size) :
    s.map_file offset size
      = (some (chunk_over (s.extended_bytes offset size) offset size),
         { s with disk := ⟨s.extended_bytes offset size, []⟩ }) := by
  have hlen := extended_bytes_length s offset size hcur
  obtain ⟨⟨bytes, faults⟩, cur, buf, pos⟩ := s
  simp only at hf hcur
  subst hf
  have hm := map_offset_le offset
  have hv : ¬ (offset - offset / dwAllocationGranularity * dwAllocationGranularity + size = 0) := by omega
  by_cases hlt : cur < offset + size
  · have hx : extended_bytes ⟨⟨bytes, []⟩, cur, buf, pos⟩ offset size = resize bytes (offset + size) := by
      simp [extended_bytes, hlt]
    rw [hx] at hlen ⊢
    have hne : resize bytes (offset + size) ≠ [] := by
      intro h0
      rw [h0] at hlen
      simp at hlen
      omega
    have hr : offset / dwAllocationGranularity * dwAllocationGranularity
        + (offset - offset / dwAllocationGranularity * dwAllocationGranularity + size)
        ≤ (resize bytes (offset + size)).length := by omega
    simp [map_file, chunk_over, os_file.CreateFileA, os_file.call, os_file.SetFilePointerEx,
      os_file.SetEndOfFile, os_file.CreateFileMappingA, os_file.MapViewOfFile, hlt, hne, hv, hr]
  · have hx : extended_bytes ⟨⟨bytes, []⟩, cur, buf, pos⟩ offset size = bytes := by
      simp [extended_bytes, hlt]
    rw [hx] at hlen ⊢
    have hne : bytes ≠ [] := by
      intro h0
      rw [h0] at hlen
      simp at hlen
      omega
    have hr : offset / dwAllocationGranularity * dwAllocationGranularity
        + (offset - offset / dwAllocationGranularity * dwAllocationGranularity + size)
        ≤ bytes.length := by omega
    simp [map_file, chunk_over, os_file.CreateFileA, os_file.call,
      os_file.CreateFileMappingA, os_file.MapViewOfFile, hlt, hne, hv, hr]

theorem contents_length (s : file_dump) (h : s.wf) :
    s.contents.length = s._current_size + s._buffer_pos := by
  simp only [contents, buffer_data, List.length_append, List.length_take, resize_length]
  have := h.2
  omega

theorem memcpy_resize_end (bytes data : List Nat) (cur : Nat) (hcur : cur ≤ bytes.length) :
    memcpy (resize bytes (cur + data.length)) cur data = bytes.take cur ++ data := by
  unfold memcpy
  rw [take_resize _ _ _ (Nat.le_add_right _ _), resize_of_le _ _ hcur,
    List.drop_of_length_le (by rw [resize_length]), List.append_nil]

theorem write_file_append (s : file_dump) (data : List Nat) (h : s.wf) (hd : 0 < data.length) :
    s.write_file s._current_size data data.length
      = (true, { s with disk := ⟨s.disk.bytes.take s._current_size ++ data, []⟩,
                        _current_size := s._current_size + data.length }) := by
  have hm := map_file_ok s s._current_size data.length h.1 h.2 hd
  have hx : s.extended_bytes s._current_size data.length
      = resize s.disk.bytes (s._current_size + data.length) := by
    simp only [extended_bytes]
    rw [if_pos (by omega)]
  rw [hx] at hm
  have hp := chunk_over_pointer (resize s.disk.bytes (s._current_size + data.length))
    s._current_size data.length
  simp only [write_file, hm, hp, List.take_length, memcpy_resize_end _ _ _ h.2,
    os_file.FlushViewOfFile, os_file.call]
  rw [if_pos (by omega)]

theorem flush_ok (s : file_dump) (h : s.wf) (hp : 0 < s._buffer_pos) :
    s.write_file s.get_size (s.buffer_data s._buffer_pos) s._buffer_pos
      = (true, { s with disk := ⟨s.contents, []⟩,
                        _current_size := s._current_size + s._buffer_pos }) := by
  have hbd : (s.buffer_data s._buffer_pos).length = s._buffer_pos := resize_length _ _
  have hfl := write_file_append s (s.buffer_data s._buffer_pos) h (by omega)
  rw [hbd] at hfl
  exact hfl

theorem staged_after_memcpy (buf : List Nat) (pos : Nat) (src : List Nat) :
    resize (memcpy (resize buf (max buf.length (pos + src.length))) pos src) (pos + src.length)
      = resize buf pos ++ src := by
  have hM : (resize buf (max buf.length (pos + src.length))).length
      = max buf.length (pos + src.length) := resize_length _ _
  have hl : (memcpy (resize buf (max buf.length (pos + src.length))) pos src).length
      = max buf.length (pos + src.length) := by
    rw [memcpy_length _ _ _ (by omega), hM]
  rw [resize_of_le _ _ (by omega), take_memcpy _ _ _ (by omega), take_resize _ _ _ (by omega)]

/-- What `write` returns and does to the logical contents when no OS call fails. -/
theorem write_ok (s : file_dump) (buffer : List Nat) (h : s.wf) :
    (s.write buffer).1
        = some (if buffer.length ≤ BUFFER_SIZE then s.contents.length
                else s.contents.length + buffer.length)
      ∧ (s.write buffer).2.wf
      ∧ (s.write buffer).2.contents = s.contents ++ buffer := by
  have hc := contents_length s h
  have hc2 := hc
  simp only [contents, buffer_data] at hc2
  by_cases hfit : s._buffer_pos + buffer.length ≤ BUFFER_SIZE
  · have hn : buffer.length ≤ BUFFER_SIZE := by omega
    simp only [write, hfit, if_true, hn, get_size]
    refine ⟨by rw [hc], h, ?_⟩
    simp only [contents, buffer_data, staged_after_memcpy, List.append_assoc]
  · by_cases hp : 0 < s._buffer_pos
    · have hfl := flush_ok s h hp
      simp only [get_size] at hfl
      have hcl : s.contents.length = s._current_size + s._buffer_pos := hc
      by_cases hbig : buffer.length > BUFFER_SIZE
      · have hn : ¬ buffer.length ≤ BUFFER_SIZE := by omega
        have hwf1 : wf { s with disk := ⟨s.contents, []⟩, _current_size := s._current_size + s._buffer_pos, _buffer_pos := 0 } :=
          ⟨rfl, by simp only; omega⟩
        have hd := write_file_append _ buffer hwf1 (by omega)
        simp only at hd
        simp only [write, hfit, if_false, hp, gt_iff_lt, if_true, hfl, hbig, get_size, hd, hn]
        refine ⟨by rw [hc, Nat.add_assoc], ⟨rfl, ?_⟩, ?_⟩
        · simp only [List.length_append, List.length_take]
          omega
        · simp only [contents, buffer_data]
          rw [List.take_of_length_le (by simp only [List.length_append, List.length_take]; omega),
            List.take_of_length_le (by omega)]
          simp [resize]
      · have hn : buffer.length ≤ BUFFER_SIZE := by omega
        simp only [write, hfit, if_false, hp, gt_iff_lt, if_true, hfl, hbig, get_size, hn]
        refine ⟨by rw [hc], ⟨rfl, by simp only; omega⟩, ?_⟩
        simp only [contents, buffer_data]
        rw [List.take_of_length_le (by omega)]
        have := staged_after_memcpy s._buffer 0 buffer
        simp only [Nat.zero_add] at this
        rw [this]
        simp [resize]
    · have hp0 : s._buffer_pos = 0 := by omega
      have hbig : buffer.length > BUFFER_SIZE := by omega
      have hn : ¬ buffer.length ≤ BUFFER_SIZE := by omega
      have hd := write_file_append s buffer h (by omega)
      simp only [write, hfit, if_false, hp, gt_iff_lt, hbig, if_true, get_size, hd, hn]
      refine ⟨by rw [hc, hp0, Nat.add_zero], ⟨rfl, ?_⟩, ?_⟩
      · simp only [List.length_append, List.length_take]
        have := h.2
        omega
      · simp only [contents, buffer_data, hp0]
        rw [List.take_of_length_le (by
          simp only [List.length_append, List.length_take]
          have := h.2
          omega)]
        simp [resize]

/-- What `read` exposes for a range inside the logical contents when no OS call fails. -/
theorem read_ok (s : file_dump) (offset size : Nat) (h : s.wf) (hsize : 0 < size)
    (hin : offset + size ≤ s.contents.length) :
    (∃ c, (s.read offset size).1 = some c ∧ c.data = (s.contents.drop offset).take size)
      ∧ (s.read offset size).2.wf
      ∧ (s.read offset size).2.contents = s.contents := by
  have hc := contents_length s h
  have hc2 := hc
  simp only [contents, buffer_data] at hc2
  by_cases hp : 0 < s._buffer_pos
  · have hfl := flush_ok s h hp
    simp only [get_size] at hfl
    have hwf1 : wf { s with disk := ⟨s.contents, []⟩, _current_size := s._current_size + s._buffer_pos, _buffer_pos := 0 } :=
      ⟨rfl, by simp only; omega⟩
    have hm := map_file_ok _ offset size hwf1.1 hwf1.2 hsize
    have hx : extended_bytes { s with disk := ⟨s.contents, []⟩, _current_size := s._current_size + s._buffer_pos, _buffer_pos := 0 } offset size
        = s.contents := by
      simp only [extended_bytes]
      rw [if_neg (by omega)]
    rw [hx] at hm
    simp only [read, get_size, hp, gt_iff_lt, if_true, hfl, hm]
    refine ⟨⟨_, rfl, chunk_over_data _ _ _⟩, ⟨rfl, by simp only; omega⟩, ?_⟩
    simp only [contents, buffer_data]
    rw [List.take_of_length_le (by omega)]
    simp [resize]
  · have hp0 : s._buffer_pos = 0 := by omega
    have hm := map_file_ok s offset size h.1 h.2 hsize
    have hx : s.extended_bytes offset size = s.disk.bytes := by
      simp only [extended_bytes]
      rw [if_neg (by omega)]
    rw [hx] at hm
    simp only [read, hp, gt_iff_lt, if_false, hm]
    refine ⟨⟨_, rfl, ?_⟩, ⟨rfl, h.2⟩, rfl⟩
    rw [chunk_over_data]
    simp only [contents, buffer_data, hp0]
    have e : resize s._buffer 0 = [] := by simp [resize]
    rw [e, List.append_nil, List.drop_take, List.take_take]
    have : min size (s._current_size - offset) = size := by omega
    rw [this]

theorem map_file_frame (s : file_dump) (offset size : Nat) :
    (s.map_file offset size).2._current_size = s._current_size
      ∧ (s.map_file offset size).2._buffer = s._buffer
      ∧ (s.map_file offset size).2._buffer_pos = s._buffer_pos := by
  unfold map_file
  split
  · exact ⟨rfl, rfl, rfl⟩
  · simp only
    split
    · exact ⟨rfl, rfl, rfl⟩
    · split
      · exact ⟨rfl, rfl, rfl⟩
      · split <;> exact ⟨rfl, rfl, rfl⟩

theorem write_file_frame (s : file_dump) (offset : Nat) (buffer : List Nat) (size : Nat)
    (s1 : file_dump) (h : s.write_file offset buffer size = (true, s1)) :
    s1._current_size = (if offset + size > s._current_size then offset + size else s._current_size)
      ∧ s1._buffer = s._buffer ∧ s1._buffer_pos = s._buffer_pos := by
  have hfr := map_file_frame s offset size
  unfold write_file at h
  split at h
  · simp at h
  · rename_i chunk s2 heq
    rw [heq] at hfr
    simp only at h hfr
    split at h
    · simp at h
    · simp only [Prod.mk.injEq, true_and] at h
      subst h
      simp only [hfr.1, hfr.2.1, hfr.2.2, and_self]

/-- C2: a successful `write` of `n <= BUFFER_SIZE` bytes returns the durable size plus the
buffer cursor as they were before the call; afterwards durable size plus cursor is the
returned offset plus `n`; and when the bytes fit in the remaining buffer the durable size
reported by `get_size` is unchanged. -/
theorem write_offset_is_logical_end (s : file_dump) (buffer : List Nat) (off : Nat)
    (hn : buffer.length ≤ BUFFER_SIZE) (hok : (s.write buffer).1 = some off) :
    off = s.get_size + s._buffer_pos
      ∧ (s.write buffer).2.get_size + (s.write buffer).2._buffer_pos = off + buffer.length
      ∧ (s._buffer_pos + buffer.length ≤ BUFFER_SIZE → (s.write buffer).2.get_size = s.get_size) := by
  by_cases hfit : s._buffer_pos + buffer.length ≤ BUFFER_SIZE
  · simp only [write, hfit, if_true, get_size, Option.some.injEq] at hok ⊢
    subst hok
    refine ⟨rfl, by omega, ?_⟩
    simp
  · have hp : 0 < s._buffer_pos := by omega
    have hbig : ¬ buffer.length > BUFFER_SIZE := by omega
    simp only [write, hfit, if_false, hp, gt_iff_lt, if_true, get_size] at hok ⊢
    cases hw : s.write_file s._current_size (s.buffer_data s._buffer_pos) s._buffer_pos with
    | mk ok s1 =>
      rw [hw] at hok
      cases ok with
      | false => simp at hok
      | true =>
        have hfr := write_file_frame s _ _ _ s1 hw
        simp only [gt_iff_lt] at hbig
        simp only [hbig, if_false, Option.some.injEq] at hok ⊢
        rw [if_pos (by omega)] at hfr
        subst hok
        refine ⟨hfr.1, by omega, ?_⟩
        intro hc
        exact hc.elim

theorem write_offset_is_logical_end_witness :
    ([4, 5].length ≤ BUFFER_SIZE ∧ ((file_dump.mk ⟨[9], []⟩ 1 [7] 1).write [4, 5]).1 = some 2)
      ∧ (2 = (file_dump.mk ⟨[9], []⟩ 1 [7] 1).get_size + (file_dump.mk ⟨[9], []⟩ 1 [7] 1)._buffer_pos
        ∧ ((file_dump.mk ⟨[9], []⟩ 1 [7] 1).write [4, 5]).2.get_size
            + ((file_dump.mk ⟨[9], []⟩ 1 [7] 1).write [4, 5]).2._buffer_pos = 2 + [4, 5].length
        ∧ ((file_dump.mk ⟨[9], []⟩ 1 [7] 1)._buffer_pos + [4, 5].length ≤ BUFFER_SIZE →
            ((file_dump.mk ⟨[9], []⟩ 1 [7] 1).write [4, 5]).2.get_size
              = (file_dump.mk ⟨[9], []⟩ 1 [7] 1).get_size)) :=
  ⟨⟨by decide, by decide⟩,
   write_offset_is_logical_end (file_dump.mk ⟨[9], []⟩ 1 [7] 1) [4, 5] 2 (by decide) (by decide)⟩

theorem write_oversize_state (s : file_dump) (buffer : List Nat) (h : s.wf)
    (hp : s._buffer_pos = 0) (hbig : BUFFER_SIZE < buffer.length) :
    s.write buffer
      = (some (s._current_size + buffer.length),
         { s with disk := ⟨s.disk.bytes.take s._current_size ++ buffer, []⟩,
                  _current_size := s._current_size + buffer.length }) := by
  have hd := write_file_append s buffer h (by omega)
  have hfit : ¬ s._buffer_pos + buffer.length ≤ BUFFER_SIZE := by omega
  have hp1 : ¬ 0 < s._buffer_pos := by omega
  simp only [write, hfit, if_false, hp1, gt_iff_lt, hbig, if_true, get_size, hd]

theorem read_past_end (s : file_dump) (offset size : Nat) (h : s.wf) (hsize : 0 < size)
    (hp : s._buffer_pos = 0) (hlen : s.disk.bytes.length = s._current_size)
    (hoff : s._current_size ≤ offset) :
    (s.read offset size).1
      = some (chunk_over (resize s.disk.bytes (offset + size)) offset size)
      ∧ (chunk_over (resize s.disk.bytes (offset + size)) offset size).data
          = List.replicate size 0 := by
  have hm := map_file_ok s offset size h.1 h.2 hsize
  have hx : s.extended_bytes offset size = resize s.disk.bytes (offset + size) := by
    simp only [extended_bytes]
    rw [if_pos (by omega)]
  rw [hx] at hm
  have hp1 : ¬ 0 < s._buffer_pos := by omega
  refine ⟨by simp only [read, hp1, gt_iff_lt, if_false, hm], ?_⟩
  rw [chunk_over_data]
  unfold resize
  have h1 : s.disk.bytes.length ≤ offset + size := by omega
  have h2 : s.disk.bytes.length ≤ offset := by omega
  rw [List.take_of_length_le h1, List.drop_append_eq_append_drop,
    List.drop_of_length_le h2, List.nil_append, List.drop_replicate, List.take_replicate]
  congr 1
  omega

/-- C1, at the failing input: on a fresh store a `write` of `BUFFER_SIZE + 1` bytes of value 1
puts them at `[0, BUFFER_SIZE + 1)` and returns the offset `BUFFER_SIZE + 1`, their end; the
`read` of that offset and length succeeds and exposes `BUFFER_SIZE + 1` zero bytes, not the
bytes written. -/
theorem write_oversize_not_addressable :
    ((file_dump.ctor ⟨[], []⟩).write (List.replicate (BUFFER_SIZE + 1) 1)).1
        = some (BUFFER_SIZE + 1)
      ∧ ((file_dump.ctor ⟨[], []⟩).write (List.replicate (BUFFER_SIZE + 1) 1)).2.contents
        = List.replicate (BUFFER_SIZE + 1) 1
      ∧ ∃ c, (((file_dump.ctor ⟨[], []⟩).write (List.replicate (BUFFER_SIZE + 1) 1)).2.read
                (BUFFER_SIZE + 1) (BUFFER_SIZE + 1)).1 = some c
          ∧ c.data = List.replicate (BUFFER_SIZE + 1) 0
          ∧ c.data ≠ List.replicate (BUFFER_SIZE + 1) 1 := by
  have hctor : file_dump.ctor ⟨[], []⟩ = ⟨⟨[], []⟩, 0, [], 0⟩ := rfl
  have hwf : (⟨⟨[], []⟩, 0, [], 0⟩ : file_dump).wf := ⟨rfl, Nat.le_refl _⟩
  have hlen : (List.replicate (BUFFER_SIZE + 1) 1).length = BUFFER_SIZE + 1 :=
    List.length_replicate _ _
  have hw := write_oversize_state ⟨⟨[], []⟩, 0, [], 0⟩ (List.replicate (BUFFER_SIZE + 1) 1)
    hwf rfl (by rw [hlen]; omega)
  rw [hlen] at hw
  simp only [List.take_nil, List.nil_append, Nat.zero_add] at hw
  rw [hctor, hw]
  have hwf1 : (⟨⟨List.replicate (BUFFER_SIZE + 1) 1, []⟩, BUFFER_SIZE + 1, [], 0⟩ : file_dump).wf :=
    ⟨rfl, by simp only [hlen]; omega⟩
  have hr := read_past_end ⟨⟨List.replicate (BUFFER_SIZE + 1) 1, []⟩, BUFFER_SIZE + 1, [], 0⟩
    (BUFFER_SIZE + 1) (BUFFER_SIZE + 1) hwf1 (by omega) rfl hlen (Nat.le_refl _)
  refine ⟨rfl, ?_, _, hr.1, hr.2, ?_⟩
  · simp only [contents, buffer_data]
    rw [List.take_of_length_le (by rw [hlen])]
    simp [resize]
  · rw [hr.2]
    intro hne
    have := congrArg List.head? hne
    rw [List.replicate_succ, List.replicate_succ] at this
    simp at this

theorem read_of_prefix (s : file_dump) (pre buf : List Nat) (h : s.wf) (hn : 0 < buf.length)
    (hpre : (pre ++ buf) <+: s.contents) :
    ∃ c, (s.read pre.length buf.length).1 = some c ∧ c.data = buf := by
  obtain ⟨t, ht⟩ := hpre
  have hin : pre.length + buf.length ≤ s.contents.length := by
    rw [← ht]
    simp only [List.length_append]
    omega
  obtain ⟨⟨c, hc, hd⟩, _, _⟩ := read_ok s pre.length buf.length h hn hin
  refine ⟨c, hc, ?_⟩
  rw [hd, ← ht, List.append_assoc, List.drop_left, List.take_left]

end file_dump

/-! ## Dumpable records -/

theorem raw_bytes_uint8 (data : List uint8_t) : raw_bytes data = data := by
  induction data with
  | nil => rfl
  | cons a l ih =>
    simp only [raw_bytes, List.flatMap_cons] at ih ⊢
    rw [ih]
    rfl

theorem span_of_uint8 (bytes : List Nat) : (span_of bytes bytes.length : List uint8_t) = bytes := by
  apply List.ext_getElem
  · simp [span_of]
  · intro i h1 h2
    simp only [span_of, List.getElem_map, List.getElem_range]
    show ((bytes.drop (i * 1)).take 1).headD 0 = bytes[i]
    rw [Nat.mul_one]
    have hi : i < bytes.length := h2
    rw [List.drop_eq_getElem_cons hi]
    rfl

theorem dump_load_oversize (data : List uint8_t) (hbig : BUFFER_SIZE < data.length) :
    ((record_holding data).dump true (file_dump.ctor ⟨[], []⟩)).1 = true
      ∧ ∃ d f, ((record_holding data).dump true (file_dump.ctor ⟨[], []⟩)).2.1.load
                  ((record_holding data).dump true (file_dump.ctor ⟨[], []⟩)).2.2 = some (true, d, f)
          ∧ d._data_map = List.replicate data.length 0 := by
  have hctor : file_dump.ctor ⟨[], []⟩ = ⟨⟨[], []⟩, 0, [], 0⟩ := rfl
  have hwf : (⟨⟨[], []⟩, 0, [], 0⟩ : file_dump).wf := ⟨rfl, Nat.le_refl _⟩
  have hw := file_dump.write_oversize_state ⟨⟨[], []⟩, 0, [], 0⟩ data hwf rfl hbig
  simp only [List.take_nil, List.nil_append, Nat.zero_add] at hw
  have hwf1 : (⟨⟨data, []⟩, data.length, [], 0⟩ : file_dump).wf := ⟨rfl, Nat.le_refl _⟩
  have hr := file_dump.read_past_end ⟨⟨data, []⟩, data.length, [], 0⟩
    data.length data.length hwf1 (by omega) rfl rfl (Nat.le_refl _)
  simp only at hr
  have hrd := (@Prod.mk.eta _ _ (file_dump.read ⟨⟨data, []⟩, data.length, [], 0⟩
    data.length data.length)).symm
  rw [hr.1] at hrd
  generalize (file_dump.read ⟨⟨data, []⟩, data.length, [], 0⟩ data.length data.length).2 = f at hrd
  have hne : data.isEmpty = false := by
    cases data with
    | nil => simp at hbig
    | cons a l => rfl
  have hsz : object_repr.sizeof uint8_t = 1 := rfl
  have htake : (raw_bytes data).take (data.length * object_repr.sizeof uint8_t) = data := by
    rw [raw_bytes_uint8, hsz, Nat.mul_one, List.take_length]
  have hdump : (record_holding data).dump true (file_dump.ctor ⟨[], []⟩)
      = (true, { record_holding data with _file_offset := some data.length, _data := [],
                                          _data_map := [], _mapped_info := none, _discarded := true },
         ⟨⟨data, []⟩, data.length, [], 0⟩) := by
    simp only [dumpable.dump, record_holding, hne, hctor, htake, hw]
    rfl
  rw [hdump]
  refine ⟨rfl, ?_⟩
  simp only [dumpable.load, record_holding, List.isEmpty_nil, Bool.not_true, sized_header.size,
    hsz, Nat.mul_one, hrd]
  refine ⟨_, _, rfl, ?_⟩
  simp only [hr.2]
  have := span_of_uint8 (List.replicate data.length 0)
  rw [List.length_replicate] at this
  exact this

/-- C3, at the failing input: a record holding `BUFFER_SIZE + 1` bytes of value 1 (as many as
its header says) is dumped with discard into a fresh store and loaded again; both calls
succeed, and the loaded view holds zero bytes, not the payload. -/
theorem dump_load_oversize_loses_payload :
    ((record_holding (List.replicate (BUFFER_SIZE + 1) 1)).dump true (file_dump.ctor ⟨[], []⟩)).1
        = true
      ∧ ∃ d f, ((record_holding (List.replicate (BUFFER_SIZE + 1) 1)).dump true
                  (file_dump.ctor ⟨[], []⟩)).2.1.load
                ((record_holding (List.replicate (BUFFER_SIZE + 1) 1)).dump true
                  (file_dump.ctor ⟨[], []⟩)).2.2 = some (true, d, f)
          ∧ d._data_map = List.replicate (BUFFER_SIZE + 1) 0
          ∧ d._data_map ≠ List.replicate (BUFFER_SIZE + 1) 1 := by
  have hlen : (List.replicate (BUFFER_SIZE + 1) (1 : uint8_t)).length = BUFFER_SIZE + 1 :=
    List.length_replicate _ _
  obtain ⟨h1, d, f, h2, h3⟩ := dump_load_oversize (List.replicate (BUFFER_SIZE + 1) 1)
    (by rw [hlen]; omega)
  rw [hlen] at h3
  refine ⟨h1, d, f, h2, h3, ?_⟩
  rw [h3]
  intro hne
  have := congrArg List.head? hne
  rw [List.replicate_succ, List.replicate_succ] at this
  simp at this

/-! ## Addressability and the round trip inside the buffer capacity -/

namespace file_dump

theorem write_all_ok (later : List (List Nat)) :
    ∀ (s : file_dump), s.wf → (s.write_all later).wf ∧ s.contents <+: (s.write_all later).contents := by
  induction later with
  | nil => intro s h; exact ⟨h, List.prefix_refl _⟩
  | cons b bs ih =>
    intro s h
    obtain ⟨_, hwf1, hc1⟩ := write_ok s b h
    obtain ⟨hwf2, hp2⟩ := ih (s.write b).2 hwf1
    refine ⟨hwf2, ?_⟩
    rw [hc1] at hp2
    exact (List.prefix_append _ _).trans hp2

/-- Addressability inside the buffer capacity: on a store whose OS calls succeed, the offset a
`write` of at most `BUFFER_SIZE` bytes returns keeps exposing those bytes to `read`, after
any further writes, flushed or not. -/
theorem written_bytes_addressable (s : file_dump) (buffer : List Nat) (later : List (List Nat))
    (off : Nat) (h : s.wf) (hpos : 0 < buffer.length) (hcap : buffer.length ≤ BUFFER_SIZE)
    (hoff : (s.write buffer).1 = some off) :
    ∃ c, (((s.write buffer).2.write_all later).read off buffer.length).1 = some c
      ∧ c.data = buffer := by
  obtain ⟨ho, hwf1, hc1⟩ := write_ok s buffer h
  rw [if_pos hcap, hoff, Option.some.injEq] at ho
  obtain ⟨hwf2, hp2⟩ := write_all_ok later (s.write buffer).2 hwf1
  rw [hc1] at hp2
  rw [ho]
  exact read_of_prefix _ s.contents buffer hwf2 hpos hp2

end file_dump

/-! Round trip of a dumpable inside the buffer capacity. -/

theorem span_of_raw_bytes {α : Type} [object_repr α] (hl : object_repr.lawful α) (data : List α)
    (rest : List Nat) :
    (span_of (raw_bytes data ++ rest) data.length : List α) = data := by
  induction data with
  | nil => rfl
  | cons a l ih =>
    have hlen := hl.to_bytes_length a
    simp only [span_of, List.length_cons, List.range_succ_eq_map, List.map_cons, List.map_map,
      raw_bytes, List.flatMap_cons, Nat.zero_mul, List.drop_zero, List.append_assoc]
    congr 1
    · rw [← hlen, List.take_left]
      exact hl.of_to_bytes a
    · have : (fun i => (object_repr.of_bytes
          ((List.drop (i * object_repr.sizeof α)
            (object_repr.to_bytes a ++ (l.flatMap object_repr.to_bytes ++ rest))).take
              (object_repr.sizeof α)) : α)) ∘ Nat.succ
          = fun i => object_repr.of_bytes
              ((List.drop (i * object_repr.sizeof α)
                (l.flatMap object_repr.to_bytes ++ rest)).take (object_repr.sizeof α)) := by
        funext i
        simp only [Function.comp_apply, Nat.succ_eq_add_one]
        have e : (i + 1) * object_repr.sizeof α
            = (object_repr.to_bytes a).length + i * object_repr.sizeof α := by
          rw [hlen, Nat.add_mul, Nat.one_mul, Nat.add_comm]
        rw [e, ← List.drop_drop, List.drop_left]
      rw [this]
      exact ih

theorem raw_bytes_length {α : Type} [object_repr α] (hl : object_repr.lawful α) (data : List α) :
    (raw_bytes data).length = data.length * object_repr.sizeof α := by
  induction data with
  | nil => simp [raw_bytes]
  | cons a l ih =>
    simp only [raw_bytes, List.flatMap_cons, List.length_append, List.length_cons] at ih ⊢
    rw [ih, hl.to_bytes_length a, Nat.add_mul, Nat.one_mul, Nat.add_comm]

/-- The round trip inside the buffer capacity: a record whose non-empty RAM payload has
`header.size` elements and at most `BUFFER_SIZE` bytes, dumped with discard into a store
whose OS calls succeed and loaded again, shows its payload in the loaded view. -/
theorem dump_load_round_trip {H α : Type} [sized_header H] [object_repr α]
    (hl : object_repr.lawful α) (d : dumpable H α) (file : file_dump) (hwf : file.wf)
    (hne : d._data ≠ []) (hsize : sized_header.size d._header = d._data.length)
    (hcap : d._data.length * object_repr.sizeof α ≤ BUFFER_SIZE) :
    (d.dump true file).1 = true
      ∧ ∃ d1 file1, (d.dump true file).2.1.load (d.dump true file).2.2 = some (true, d1, file1)
          ∧ d1._data_map = d._data := by
  have hlenb := raw_bytes_length hl d._data
  have htake : (raw_bytes d._data).take (d._data.length * object_repr.sizeof α) = raw_bytes d._data := by
    rw [← hlenb, List.take_length]
  have hemp : d._data.isEmpty = false := by
    cases hd : d._data with
    | nil => exact absurd hd hne
    | cons a l => rfl
  have hposd : 0 < d._data.length := by
    cases hd : d._data with
    | nil => exact absurd hd hne
    | cons a l => simp
  have hposb : 0 < (raw_bytes d._data).length := by
    rw [hlenb]
    exact Nat.mul_pos hposd hl.sizeof_pos
  obtain ⟨ho, hwf1, hc1⟩ := file_dump.write_ok file (raw_bytes d._data) hwf
  rw [if_pos (by rw [hlenb]; exact hcap)] at ho
  have hpairw : file.write (raw_bytes d._data)
      = (some file.contents.length, (file.write (raw_bytes d._data)).2) := Prod.ext ho rfl
  generalize (file.write (raw_bytes d._data)).2 = file1 at hpairw hwf1 hc1
  obtain ⟨⟨c, hc, hdata⟩, _, _⟩ := file_dump.read_ok file1 file.contents.length
    (raw_bytes d._data).length hwf1 hposb (by rw [hc1, List.length_append])
  have hpairr : file1.read file.contents.length (raw_bytes d._data).length
      = (some c, (file1.read file.contents.length (raw_bytes d._data).length).2) := Prod.ext hc rfl
  generalize (file1.read file.contents.length (raw_bytes d._data).length).2 = file2 at hpairr
  have hdump : d.dump true file
      = (true, { d with _file_offset := some file.contents.length, _data := [], _data_map := [],
                        _mapped_info := none, _discarded := true }, file1) := by
    simp only [dumpable.dump, hemp, Bool.false_eq_true, if_false, htake, hpairw, if_true]
  rw [hdump]
  refine ⟨rfl, ?_⟩
  rw [hlenb] at hpairr
  simp only [dumpable.load, List.isEmpty_nil, Bool.not_true, Bool.false_eq_true, if_false, hsize,
    hpairr]
  refine ⟨_, _, rfl, ?_⟩
  simp only
  rw [hdata, hc1, List.drop_left, List.take_length]
  have := span_of_raw_bytes hl d._data []
  rw [List.append_nil] at this
  exact this

theorem uint8_lawful : object_repr.lawful uint8_t :=
  ⟨Nat.one_pos, fun _ => rfl, fun _ => rfl⟩

/-! ## Region snapshots and `search_value` -/

namespace memory_region

theorem at_offset_ram (w : Nat) (r : memory_region) (md : file_dump) (offset : Nat)
    (hv : r._valid = true) (hd : r._discarded = false) :
    r.at_offset w md offset
      = some (if offset + w ≤ r._header.size then some ⟨r._data, offset⟩ else none, r, md) := by
  by_cases h : offset + w ≤ r._header.size
  · have h1 : ¬ offset + w > r._header.size := by omega
    simp [at_offset, h, h1, hv, hd]
  · have h1 : offset + w > r._header.size := by omega
    simp [at_offset, h, h1]

theorem at_index_ram (w : Nat) (r : memory_region) (md : file_dump) (i : Nat)
    (hv : r._valid = true) (hd : r._discarded = false) :
    r.at_index w md i
      = some (if (i + 1) * w ≤ r._header.size then some ⟨r._data, i * w⟩ else none, r, md) := by
  by_cases h : (i + 1) * w ≤ r._header.size
  · have h1 : ¬ (i + 1) * w > r._header.size := by omega
    have h2 : i * w + w ≤ r._header.size := by rw [Nat.add_mul] at h; omega
    simp only [at_index, h1, if_false, at_offset_ram w r md _ hv hd, h2, h, if_true]
  · have h1 : (i + 1) * w > r._header.size := by omega
    simp [at_index, h, h1]

end memory_region

namespace scan_result
variable {T : Type} [object_repr T]

theorem search_chunk_acc (cmp : T → T → Option T → Bool) (v1 : T) (v2 : Option T) (is : List Nat) :
    ∀ (acc : List (scan_entry T)) (region : memory_region) (md : file_dump),
      search_chunk cmp v1 v2 is acc region md
        = (search_chunk cmp v1 v2 is [] region md).map (fun r => (acc ++ r.1, r.2)) := by
  induction is with
  | nil => intro acc region md; simp [search_chunk]
  | cons i is ih =>
    intro acc region md
    simp only [search_chunk]
    cases hat : region.at_index (object_repr.sizeof T) md i with
    | none => rfl
    | some r =>
      obtain ⟨value, region1, md1⟩ := r
      simp only
      rw [ih]
      conv_rhs => rw [ih]
      cases value with
      | none => simp
      | some p =>
        by_cases hc : cmp p.deref v1 v2 = true
        · simp [hc, Option.map_map, Function.comp_def]
        · simp [hc]

theorem search_chunk_append (cmp : T → T → Option T → Bool) (v1 : T) (v2 : Option T)
    (is1 is2 : List Nat) :
    ∀ (acc : List (scan_entry T)) (region : memory_region) (md : file_dump),
      search_chunk cmp v1 v2 (is1 ++ is2) acc region md
        = (search_chunk cmp v1 v2 is1 acc region md).bind
            (fun r => search_chunk cmp v1 v2 is2 r.1 r.2.1 r.2.2) := by
  induction is1 with
  | nil => intro acc region md; simp [search_chunk]
  | cons i is ih =>
    intro acc region md
    simp only [List.cons_append, search_chunk]
    cases hat : region.at_index (object_repr.sizeof T) md i with
    | none => rfl
    | some r =>
      obtain ⟨value, region1, md1⟩ := r
      simp only [List.append_eq, Option.some_bind]
      rw [ih]

theorem search_serial_eq_chunk (cmp : T → T → Option T → Bool) (v1 : T) (v2 : Option T)
    (is : List Nat) :
    ∀ (res : scan_result T) (region : memory_region) (md : file_dump),
      search_serial cmp v1 v2 is res region md
        = (search_chunk cmp v1 v2 is [] region md).map (fun r => (res.pushed r.1, r.2)) := by
  induction is with
  | nil =>
    intro res region md
    simp [search_serial, search_chunk, pushed]
  | cons i is ih =>
    intro res region md
    simp only [search_serial, search_chunk]
    cases hat : region.at_index (object_repr.sizeof T) md i with
    | none => rfl
    | some r =>
      obtain ⟨value, region1, md1⟩ := r
      cases value with
      | none =>
        simp only
        rw [ih]
      | some p =>
        by_cases hc : cmp p.deref v1 v2 = true
        · simp only [hc, if_true, List.nil_append]
          rw [ih, search_chunk_acc cmp v1 v2 is [_] region1 md1, Option.map_map]
          congr 1
          funext r
          simp only [pushed, List.append_assoc, List.singleton_append, List.length_cons,
            Function.comp_apply, Bool.true_or, List.isEmpty_cons, Bool.not_false, Bool.or_true]
          have e : res._header.size + 1 + r.1.length = res._header.size + (r.1.length + 1) := by
            omega
          rw [e]
        · simp only [hc]
          rw [ih]
          rfl

theorem search_chunks_flat (cmp : T → T → Option T → Bool) (v1 : T) (v2 : Option T)
    (total jobs q : Nat) (js : List Nat) :
    ∀ (region : memory_region) (md : file_dump),
      search_chunks cmp v1 v2 total jobs q js region md
        = search_chunk cmp v1 v2
            (js.flatMap (fun j =>
              List.range' (j * q) ((if j = jobs - 1 then total else j * q + q) - j * q)))
            [] region md := by
  induction js with
  | nil => intro region md; rfl
  | cons j js ih =>
    intro region md
    simp only [search_chunks, List.flatMap_cons]
    rw [search_chunk_append]
    cases hc : search_chunk cmp v1 v2
        (List.range' (j * q) ((if j = jobs - 1 then total else j * q + q) - j * q)) [] region md with
    | none => rfl
    | some r =>
      obtain ⟨local_j, region1, md1⟩ := r
      simp only [Option.some_bind]
      rw [ih, search_chunk_acc cmp v1 v2 _ local_j region1 md1]
      cases search_chunk cmp v1 v2
        (js.flatMap (fun j =>
          List.range' (j * q) ((if j = jobs - 1 then total else j * q + q) - j * q)))
        [] region1 md1 with
      | none => rfl
      | some r2 => rfl

theorem chunk_ranges (total : Nat) :
    (List.range 4).flatMap (fun j =>
        List.range' (j * (total / 4))
          ((if j = 4 - 1 then total else j * (total / 4) + total / 4) - j * (total / 4)))
      = List.range total := by
  have h4 : List.range 4 = [0, 1, 2, 3] := by decide
  have hq : 3 * (total / 4) ≤ total := by omega
  rw [h4]
  simp only [List.flatMap_cons, List.flatMap_nil, List.append_nil]
  have e0 : (if 0 = 4 - 1 then total else 0 * (total / 4) + total / 4) - 0 * (total / 4)
      = total / 4 := by simp
  have e1 : (if 1 = 4 - 1 then total else 1 * (total / 4) + total / 4) - 1 * (total / 4)
      = total / 4 := by simp
  have e2 : (if 2 = 4 - 1 then total else 2 * (total / 4) + total / 4) - 2 * (total / 4)
      = total / 4 := by simp
  rw [e0, e1, e2]
  simp only [if_true]
  rw [List.range_eq_range']
  have a1 : List.range' (0 * (total / 4)) (total / 4) ++ List.range' (1 * (total / 4)) (total / 4)
      = List.range' 0 (2 * (total / 4)) := by
    have := List.range'_append 0 (total / 4) (total / 4) 1
    simp only [Nat.zero_add, Nat.one_mul] at this
    rw [Nat.zero_mul, Nat.one_mul, this]
    congr 1
    omega
  have a2 : List.range' 0 (2 * (total / 4)) ++ List.range' (2 * (total / 4)) (total / 4)
      = List.range' 0 (3 * (total / 4)) := by
    have := List.range'_append 0 (2 * (total / 4)) (total / 4) 1
    simp only [Nat.zero_add, Nat.one_mul] at this
    rw [this]
    congr 1
    omega
  have a3 : List.range' 0 (3 * (total / 4)) ++ List.range' (3 * (total / 4)) (total - 3 * (total / 4))
      = List.range' 0 total := by
    have := List.range'_append 0 (3 * (total / 4)) (total - 3 * (total / 4)) 1
    simp only [Nat.zero_add, Nat.one_mul] at this
    rw [this]
    congr 1
    omega
  rw [← List.append_assoc, ← List.append_assoc, a1, a2, a3]

theorem search_chunk_ram (cmp : T → T → Option T → Bool) (v1 : T) (v2 : Option T)
    (region : memory_region) (md : file_dump)
    (hv : region._valid = true) (hd : region._discarded = false) (is : List Nat) :
    ∀ (acc : List (scan_entry T)),
      (∀ i ∈ is, (i + 1) * object_repr.sizeof T ≤ region._header.size) →
      search_chunk cmp v1 v2 is acc region md
        = some (acc ++ (is.map (fun i =>
              ({ value := region.scalar_at T i,
                 address := region.base + i * object_repr.sizeof T } : scan_entry T))).filter
              (fun e => cmp e.value v1 v2),
            region, md) := by
  induction is with
  | nil => intro acc _; simp [search_chunk]
  | cons i is ih =>
    intro acc hall
    have hi := hall i (List.mem_cons_self _ _)
    have hrest : ∀ k ∈ is, (k + 1) * object_repr.sizeof T ≤ region._header.size :=
      fun k hk => hall k (List.mem_cons_of_mem _ hk)
    simp only [search_chunk, memory_region.at_index_ram _ region md i hv hd, hi, if_true]
    rw [ih _ hrest]
    have hderef : (typed_ptr.deref ⟨region._data, i * object_repr.sizeof T⟩ : T)
        = region.scalar_at T i := rfl
    rw [hderef]
    by_cases hc : cmp (region.scalar_at T i) v1 v2 = true
    · simp [hc, List.filter_cons]
    · simp [hc, List.filter_cons]

theorem search_value_chunked (res : scan_result T) (region : memory_region)
    (cmp : T → T → Option T → Bool) (v1 : T) (v2 : Option T) (md : file_dump)
    (hreg : res._associated_region = some region)
    (hbig : PARALLEL_THRESHOLD ≤ region.size / object_repr.sizeof T) :
    res.search_value cmp v1 v2 md
      = (search_chunk cmp v1 v2 (List.range (region.size / object_repr.sizeof T)) [] region md).map
          (fun r => (!r.1.isEmpty,
            { res with _data := r.1, _header := { size := r.1.length }, _valid := !r.1.isEmpty,
                       _associated_region := some r.2.1 },
            r.2.2)) := by
  have hlt : ¬ region.size / object_repr.sizeof T < PARALLEL_THRESHOLD := by omega
  simp only [search_value, hreg, hlt, if_false]
  rw [search_chunks_flat, chunk_ranges]
  cases search_chunk cmp v1 v2 (List.range (region.size / object_repr.sizeof T)) [] region md with
  | none => rfl
  | some r => rfl

/-- C5: for a region of at least 10000 elements the chunked path of `search_value` (four
chunks in index order, their match lists concatenated in chunk order) leaves the entry list,
the header count, the return value, the region and the store that the serial loop over the
indices `0 .. total - 1`, started on an empty entry list, produces on the same bytes. -/
theorem search_value_chunked_eq_serial (res : scan_result T) (region : memory_region)
    (cmp : T → T → Option T → Bool) (v1 : T) (v2 : Option T) (md : file_dump)
    (hreg : res._associated_region = some region)
    (hbig : PARALLEL_THRESHOLD ≤ region.size / object_repr.sizeof T) :
    (res.search_value cmp v1 v2 md).map
        (fun r => (r.2.1._data, r.2.1._header.size, r.1, r.2.1._associated_region, r.2.2))
      = (search_serial cmp v1 v2 (List.range (region.size / object_repr.sizeof T))
            (scan_result.ctor (some region) res._index) region md).map
          (fun r => (r.1._data, r.1._header.size, r.1._valid, some r.2.1, r.2.2)) := by
  rw [search_value_chunked res region cmp v1 v2 md hreg hbig, search_serial_eq_chunk]
  cases search_chunk cmp v1 v2 (List.range (region.size / object_repr.sizeof T)) [] region md with
  | none => rfl
  | some r => simp [pushed, ctor, dumpable.ctor]

/-- C4: on a fresh scan result over a valid, non-discarded region, `search_value` leaves the
entry list equal to the list of `{x_i, base + i * sizeof(T)}`, `i = 0 .. size / sizeof(T) - 1`
in ascending order, restricted to the `i` where the comparator holds of the scalar `x_i` at
payload byte offset `i * sizeof(T)`; `header.size` is the number of entries; and the call
returns true exactly when the list is not empty. -/
theorem search_value_fidelity (region : memory_region) (idx : Nat)
    (cmp : T → T → Option T → Bool) (v1 : T) (v2 : Option T) (md : file_dump)
    (hv : region._valid = true) (hd : region._discarded = false) :
    ∃ (b : Bool) (res : scan_result T),
      (scan_result.ctor (some region) idx : scan_result T).search_value cmp v1 v2 md
          = some (b, res, md)
        ∧ res._data = region.matches cmp v1 v2
        ∧ res._header.size = (region.matches cmp v1 v2).length
        ∧ (b = true ↔ region.matches cmp v1 v2 ≠ []) := by
  have hall : ∀ i ∈ List.range (region.size / object_repr.sizeof T),
      (i + 1) * object_repr.sizeof T ≤ region._header.size := by
    intro i hi
    have hlt : i + 1 ≤ region.size / object_repr.sizeof T := List.mem_range.mp hi
    calc (i + 1) * object_repr.sizeof T
        ≤ region.size / object_repr.sizeof T * object_repr.sizeof T := Nat.mul_le_mul_right _ hlt
      _ ≤ region.size := Nat.div_mul_le_self _ _
  have hch := search_chunk_ram cmp v1 v2 region md hv hd
    (List.range (region.size / object_repr.sizeof T)) [] hall
  rw [List.nil_append] at hch
  have hm : ((List.range (region.size / object_repr.sizeof T)).map (fun i =>
      ({ value := region.scalar_at T i,
         address := region.base + i * object_repr.sizeof T } : scan_entry T))).filter
      (fun e => cmp e.value v1 v2) = region.matches cmp v1 v2 := rfl
  rw [hm] at hch
  by_cases hbig : PARALLEL_THRESHOLD ≤ region.size / object_repr.sizeof T
  · rw [search_value_chunked _ region cmp v1 v2 md rfl hbig, hch]
    refine ⟨_, _, rfl, rfl, rfl, ?_⟩
    cases region.matches cmp v1 v2 <;> simp
  · have hlt : region.size / object_repr.sizeof T < PARALLEL_THRESHOLD := by omega
    have hs : (scan_result.ctor (some region) idx : scan_result T).search_value cmp v1 v2 md
        = some (((scan_result.ctor (some region) idx : scan_result T).pushed
                  (region.matches cmp v1 v2))._valid,
                { (scan_result.ctor (some region) idx : scan_result T).pushed
                    (region.matches cmp v1 v2) with _associated_region := some region }, md) := by
      simp only [search_value, ctor, hlt, if_true, search_serial_eq_chunk, hch, Option.map_some']
    rw [hs]
    refine ⟨_, _, rfl, ?_, ?_, ?_⟩
    · simp [pushed, ctor, dumpable.ctor]
    · simp [pushed, ctor, dumpable.ctor]
    · cases region.matches cmp v1 v2 <;> simp [pushed, ctor, dumpable.ctor]

theorem search_value_fidelity_witness :
    ((region_holding 0x1000 16 (raw_bytes ([10, 20, 30, 40] : List int32_t)))._valid = true
      ∧ (region_holding 0x1000 16 (raw_bytes ([10, 20, 30, 40] : List int32_t)))._discarded = false)
    ∧ ∃ (b : Bool) (res : scan_result int32_t),
      (scan_result.ctor (some (region_holding 0x1000 16 (raw_bytes ([10, 20, 30, 40] : List int32_t)))) 0
          : scan_result int32_t).search_value (fun a b _ => decide (a = b)) 30 none
            (file_dump.ctor ⟨[], []⟩)
          = some (b, res, file_dump.ctor ⟨[], []⟩)
        ∧ res._data = (region_holding 0x1000 16 (raw_bytes ([10, 20, 30, 40] : List int32_t))).matches
            (fun a b _ => decide (a = b)) 30 none
        ∧ res._header.size = ((region_holding 0x1000 16 (raw_bytes ([10, 20, 30, 40] : List int32_t))).matches
            (fun a b _ => decide (a = b)) (30 : int32_t) none).length
        ∧ (b = true ↔ (region_holding 0x1000 16 (raw_bytes ([10, 20, 30, 40] : List int32_t))).matches
            (fun a b _ => decide (a = b)) (30 : int32_t) none ≠ []) :=
  ⟨⟨rfl, rfl⟩,
   search_value_fidelity (region_holding 0x1000 16 (raw_bytes ([10, 20, 30, 40] : List int32_t))) 0
     (fun a b _ => decide (a = b)) 30 none (file_dump.ctor ⟨[], []⟩) rfl rfl⟩

/-- The first scenario of the spec: the 32-bit sequence 10, 20, 30, 40 at `0x1000`, searched
for the value 30, gives one entry, at `0x1008`. -/
theorem matches_scenario :
    (region_holding 0x1000 16 (raw_bytes ([10, 20, 30, 40] : List int32_t))).matches
        (fun a b _ => decide (a = b)) (30 : int32_t) none
      = [{ value := 30, address := 0x1008 }] := by
  decide

theorem search_value_chunked_eq_serial_witness :
    ((scan_result.ctor (some (region_holding 0x1000 40000 (List.replicate 40000 0))) 0
          : scan_result int32_t)._associated_region
        = some (region_holding 0x1000 40000 (List.replicate 40000 0))
      ∧ PARALLEL_THRESHOLD
          ≤ (region_holding 0x1000 40000 (List.replicate 40000 0)).size / object_repr.sizeof int32_t)
    ∧ ((scan_result.ctor (some (region_holding 0x1000 40000 (List.replicate 40000 0))) 0
          : scan_result int32_t).search_value (fun a b _ => decide (a = b)) 0 none
            (file_dump.ctor ⟨[], []⟩)).map
        (fun r => (r.2.1._data, r.2.1._header.size, r.1, r.2.1._associated_region, r.2.2))
      = (search_serial (fun a b _ => decide (a = b)) (0 : int32_t) none
            (List.range ((region_holding 0x1000 40000 (List.replicate 40000 0)).size
              / object_repr.sizeof int32_t))
            (scan_result.ctor (some (region_holding 0x1000 40000 (List.replicate 40000 0)))
              (scan_result.ctor (some (region_holding 0x1000 40000 (List.replicate 40000 0))) 0
                : scan_result int32_t)._index)
            (region_holding 0x1000 40000 (List.replicate 40000 0)) (file_dump.ctor ⟨[], []⟩)).map
          (fun r => (r.1._data, r.1._header.size, r.1._valid, some r.2.1, r.2.2)) :=
  ⟨⟨rfl, by decide⟩,
   search_value_chunked_eq_serial
     (scan_result.ctor (some (region_holding 0x1000 40000 (List.replicate 40000 0))) 0)
     (region_holding 0x1000 40000 (List.replicate 40000 0))
     (fun a b _ => decide (a = b)) 0 none (file_dump.ctor ⟨[], []⟩) rfl (by decide)⟩

end scan_result

/-! ## The engine -/

namespace scan_engine_templated
variable {T : Type} [scalar T]

/-- C6: `compare` returns no comparator for `unknown_value`, and for every other scan type
the predicate of the spec's table: `a == b`, `a > b`, `a < b`, `a != b`, `a == b`, `a > b`,
`a < b`, `c` present and `a - b == c`, `c` present and `b - a == c`, `c` present and
`b < a < c`, with the subtraction of the scalar type. -/
theorem compare_selects (type : scan_type) :
    match (compare type : Option (T → T → Option T → Bool)) with
    | none => type = scan_type.unknown_value
    | some cmp =>
      type ≠ scan_type.unknown_value
        ∧ ∀ (a b : T) (c : Option T), (cmp a b c = true ↔ comparator_table type a b c) := by
  cases type <;> simp only [compare, comparator_table, ne_eq, not_false_eq_true, reduceCtorEq,
    decide_eq_true_eq, true_and, gt_iff_lt, implies_true, Bool.and_eq_true]
  · intro a b c
    cases c <;> simp
  · intro a b c
    cases c <;> simp
  · intro a b c
    cases c <;> simp

/-- On `int` the subtraction of `increased_by` is the 32-bit one: `INT_MIN - 1` is `INT_MAX`. -/
theorem compare_increased_by_int_wraps :
    (compare scan_type.increased_by : Option (int32_t → int32_t → Option int32_t → Bool)).map
        (fun cmp => cmp ⟨-2147483648⟩ ⟨1⟩ (some ⟨2147483647⟩)) = some true := by
  decide

end scan_engine_templated

/-! ## The next pass over a pair -/

namespace memory_region

theorem at_address_ram (w : Nat) (r : memory_region) (md : file_dump) (address : Nat)
    (hv : r._valid = true) (hd : r._discarded = false) :
    r.at_address w md address
      = some (if r.holds w address then some ⟨r._data, address - r.base⟩ else none, r, md) := by
  unfold at_address contains holds
  by_cases h1 : address < r.base ∨ address > r.base + r.size
  · have hn : ¬ (r.base ≤ address ∧ address - r.base + w ≤ r.size) := by omega
    simp [h1, hn]
  · simp only [h1, if_false, Bool.not_true, Bool.false_eq_true]
    rw [at_offset_ram w r md _ hv hd]
    have hs : r._header.size = r.size := rfl
    rw [hs]
    by_cases h2 : address - r.base + w ≤ r.size
    · have : r.base ≤ address ∧ address - r.base + w ≤ r.size := ⟨by omega, h2⟩
      simp [h2, this]
    · have : ¬ (r.base ≤ address ∧ address - r.base + w ≤ r.size) := fun h => h2 h.2
      simp [h2, this]

end memory_region

namespace scan_engine

theorem read_memory_ok (p : process) (R : memory_region) (h : (read_memory p R).1 = true) :
    (read_memory p R).2._valid = true
      ∧ (read_memory p R).2._discarded = R._discarded
      ∧ (read_memory p R).2.base = R.base := by
  unfold read_memory memory_region.read_data at h ⊢
  simp only at h ⊢
  split at h
  · rename_i heq
    simp [heq, memory_region.base]
  · simp at h

end scan_engine

namespace scan_engine_templated

theorem accepted_nil {T : Type} (res : scan_result T) (type : scan_type) : res.accepted type [] = res := rfl

theorem accepted_cons {T : Type} (res : scan_result T) (type : scan_type) (e : scan_entry T)
    (l : List (scan_entry T)) :
    ((res.add_element e).set_type type).accepted type l = res.accepted type (e :: l) := by
  cases l with
  | nil =>
    simp [scan_result.accepted, scan_result.pushed, scan_result.add_element, scan_result.set_type]
  | cons a l =>
    simp [scan_result.accepted, scan_result.pushed, scan_result.add_element, scan_result.set_type,
      Nat.add_assoc, Nat.add_comm]

variable {T : Type} [scalar T]

theorem next_scan_success_eq (type : scan_type) (cmp : T → T → Option T → Bool)
    (h : compare type = some cmp) (n : T) (e : scan_entry T) (v1 : T) (v2 : Option T) :
    next_scan_success type cmp n e v1 v2 = next_pass_accepts type n e.value v1 v2 := by
  unfold next_pass_accepts
  rw [h]
  cases type <;> simp [next_scan_success]
  simp [compare] at h

theorem next_scan_elements_known (type : scan_type) (v1 : T) (v2 : Option T)
    (ot : Option scan_type) (hot : ot ≠ some scan_type.unknown_value)
    (els : List (scan_entry T)) (is : List Nat) :
    ∀ (st : task_state T), st.current_region._valid = true →
      st.current_region._discarded = false → (∀ i ∈ is, i < els.length) →
      next_scan_elements type v1 v2 ot els is st
        = some { prev_region := st.prev_region, current_region := st.current_region,
                 result := st.result.accepted type
                   (is.filterMap (fun i =>
                     (els.get? i).bind (next_pass_entry type v1 v2 st.current_region))),
                 total_entries := st.total_entries
                   + (is.filterMap (fun i =>
                     (els.get? i).bind (next_pass_entry type v1 v2 st.current_region))).length,
                 memory_dump := st.memory_dump } := by
  induction is with
  | nil =>
    intro st _ _ _
    simp [next_scan_elements, accepted_nil]
  | cons i is ih =>
    intro st hv hd hall
    have hi : i < els.length := hall i (List.mem_cons_self _ _)
    have hrest : ∀ k ∈ is, k < els.length := fun k hk => hall k (List.mem_cons_of_mem _ hk)
    have hget : els.get? i = some els[i] := List.get?_eq_get hi
    simp only [next_scan_elements, hot, if_false, hget,
      memory_region.at_address_ram _ st.current_region st.memory_dump _ hv hd,
      List.filterMap_cons, Option.some_bind]
    by_cases hh : st.current_region.holds (object_repr.sizeof T) els[i].address
    · simp only [hh, if_true]
      cases hc : (compare type : Option (T → T → Option T → Bool)) with
      | none =>
        have hentry : next_pass_entry type v1 v2 st.current_region els[i] = none := by
          simp [next_pass_entry, next_pass_accepts, hc]
        simp only [hentry]
        rw [ih]
        · exact hv
        · exact hd
        · exact hrest
      | some cmp =>
        simp only
        have hderef : (typed_ptr.deref ⟨st.current_region._data,
            els[i].address - st.current_region.base⟩ : T)
            = st.current_region.scalar_at_address T els[i].address := rfl
        rw [hderef, next_scan_success_eq type cmp hc]
        by_cases ha : next_pass_accepts type
            (st.current_region.scalar_at_address T els[i].address) els[i].value v1 v2 = true
        · have hentry : next_pass_entry type v1 v2 st.current_region els[i]
              = some { value := st.current_region.scalar_at_address T els[i].address,
                       address := els[i].address } := by
            simp [next_pass_entry, hh, ha]
          simp only [ha, if_true, hentry]
          rw [ih]
          · simp only [accepted_cons, List.length_cons]
            congr 2
            rw [Nat.add_assoc, Nat.add_comm 1]
          · exact hv
          · exact hd
          · exact hrest
        · have hentry : next_pass_entry type v1 v2 st.current_region els[i] = none := by
            simp [next_pass_entry, ha]
          simp only [ha, Bool.false_eq_true, if_false, hentry]
          rw [ih]
          · exact hv
          · exact hd
          · exact hrest
    · have hentry : next_pass_entry type v1 v2 st.current_region els[i] = none := by
        simp [next_pass_entry, hh]
      simp only [hh, if_false, hentry]
      rw [ih]
      · exact hv
      · exact hd
      · exact hrest

theorem range_filterMap_get {α β : Type} (f : α → Option β) (l : List α) :
    (List.range l.length).filterMap (fun i => (l.get? i).bind f) = l.filterMap f := by
  induction l with
  | nil => rfl
  | cons a l ih =>
    rw [List.length_cons, List.range_succ_eq_map, List.filterMap_cons, List.filterMap_map]
    simp only [List.get?_cons_zero, Option.some_bind, List.filterMap_cons]
    have : ((fun i => ((a :: l).get? i).bind f) ∘ Nat.succ) = (fun i => (l.get? i).bind f) := by
      funext i
      simp
    rw [this, ih]

theorem elements_ram (res : scan_result T) (store : file_dump) (h : res._discarded = false) :
    res.elements store = some (res._data, res, store) := by
  simp [scan_result.elements, h]

/-- C7: in the task of `next_scan` for a pair of a prior result `old_scan`, not produced by
`unknown_value`, and a new region `R` that is read successfully, the new result's entry list
is, in the order of the prior entries, the list of `{n, e.address}` over the prior entries `e`
for which the region read holds a full scalar `n` at `e.address` and the comparator of the
requested type accepts (`cmp(n, e.value, v1)` for the relative types, `cmp(n, v1, v2)` for
`exact_value`, `bigger_than`, `smaller_than`, `value_between`); the new result carries the
prior result's index and is bound to the region read; it is inserted in the new map under
that index exactly when the list is not empty; and the count grows by the list's length. -/
theorem next_scan_task_known (p : process) (old_scan : scan_result T)
    (prev_region R : memory_region) (type : scan_type) (v1 : T) (v2 : Option T)
    (results : custom_map (scan_result T)) (total_entries : Nat) (g : globals)
    (hold : old_scan.type ≠ some scan_type.unknown_value)
    (hnd : old_scan._discarded = false)
    (hreg : old_scan.associated_region = some prev_region)
    (hR : R._discarded = false)
    (hread : (scan_engine.read_memory p R).1 = true) :
    ∃ result : scan_result T,
      next_scan_task p old_scan R type v1 v2 results total_entries g
          = some (if old_scan._data.filterMap
                      (next_pass_entry type v1 v2 (scan_engine.read_memory p R).2) = [] then results
                  else results.insert (old_scan.index : Int) result,
                  total_entries + (old_scan._data.filterMap
                      (next_pass_entry type v1 v2 (scan_engine.read_memory p R).2)).length,
                  g)
        ∧ result._data = old_scan._data.filterMap
            (next_pass_entry type v1 v2 (scan_engine.read_memory p R).2)
        ∧ result._header.size = result._data.length
        ∧ result.index = old_scan.index
        ∧ result.associated_region = some (scan_engine.read_memory p R).2 := by
  obtain ⟨hv1, hd1, _⟩ := scan_engine.read_memory_ok p R hread
  rw [hR] at hd1
  have hpair : scan_engine.read_memory p R = (true, (scan_engine.read_memory p R).2) :=
    Prod.ext hread rfl
  generalize (scan_engine.read_memory p R).2 = R1 at hv1 hd1 hpair ⊢
  have hall : ∀ i ∈ List.range old_scan._data.length, i < old_scan._data.length :=
    fun i hi => List.mem_range.mp hi
  have hloop := next_scan_elements_known type v1 v2 old_scan.type hold old_scan._data
    (List.range old_scan._data.length)
    { prev_region := prev_region, current_region := R1,
      result := scan_result.ctor (some R1) old_scan.index,
      total_entries := total_entries, memory_dump := g.memory_dump } hv1 hd1 hall
  simp only [range_filterMap_get] at hloop
  have heta : (fun a => next_pass_entry type v1 v2 R1 a) = next_pass_entry type v1 v2 R1 := rfl
  rw [heta] at hloop
  cases hf : old_scan._data.filterMap (next_pass_entry type v1 v2 R1) with
  | nil =>
    rw [hf] at hloop
    refine ⟨{ (scan_result.ctor (some R1) old_scan.index : scan_result T) with
              _associated_region := some R1 }, ?_, rfl, rfl, rfl, rfl⟩
    simp only [next_scan_task, hpair, hreg, hold, if_false, elements_ram old_scan g.results hnd,
      hloop, accepted_nil]
    rw [elements_ram _ g.results rfl]
    simp [scan_result.ctor, dumpable.ctor]
  | cons a l =>
    rw [hf] at hloop
    refine ⟨{ (scan_result.ctor (some R1) old_scan.index : scan_result T).accepted type (a :: l)
              with _associated_region := some R1 }, ?_, ?_, ?_, rfl, rfl⟩
    · simp only [next_scan_task, hpair, hreg, hold, if_false, elements_ram old_scan g.results hnd,
        hloop]
      rw [elements_ram _ g.results rfl]
      simp [scan_result.accepted, scan_result.pushed, scan_result.ctor, dumpable.ctor]
    · simp [scan_result.accepted, scan_result.pushed, scan_result.ctor, dumpable.ctor]
    · simp [scan_result.accepted, scan_result.pushed, scan_result.ctor, dumpable.ctor]

end scan_engine_templated

/-! ## The seed pass with a comparator -/

namespace scan_result
variable {T : Type} [object_repr T]

theorem search_value_fresh (region : memory_region) (idx : Nat)
    (cmp : T → T → Option T → Bool) (v1 : T) (v2 : Option T) (md : file_dump)
    (hv : region._valid = true) (hd : region._discarded = false) :
    (scan_result.ctor (some region) idx : scan_result T).search_value cmp v1 v2 md
      = some (!(region.matches cmp v1 v2).isEmpty,
              found_in region idx (region.matches cmp v1 v2), md) := by
  have hall : ∀ i ∈ List.range (region.size / object_repr.sizeof T),
      (i + 1) * object_repr.sizeof T ≤ region._header.size := by
    intro i hi
    have hlt : i + 1 ≤ region.size / object_repr.sizeof T := List.mem_range.mp hi
    calc (i + 1) * object_repr.sizeof T
        ≤ region.size / object_repr.sizeof T * object_repr.sizeof T := Nat.mul_le_mul_right _ hlt
      _ ≤ region.size := Nat.div_mul_le_self _ _
  have hch := search_chunk_ram cmp v1 v2 region md hv hd
    (List.range (region.size / object_repr.sizeof T)) [] hall
  rw [List.nil_append] at hch
  have hm : ((List.range (region.size / object_repr.sizeof T)).map (fun i =>
      ({ value := region.scalar_at T i,
         address := region.base + i * object_repr.sizeof T } : scan_entry T))).filter
      (fun e => cmp e.value v1 v2) = region.matches cmp v1 v2 := rfl
  rw [hm] at hch
  by_cases hbig : PARALLEL_THRESHOLD ≤ region.size / object_repr.sizeof T
  · rw [search_value_chunked _ region cmp v1 v2 md rfl hbig, hch]
    rfl
  · have hlt : region.size / object_repr.sizeof T < PARALLEL_THRESHOLD := by omega
    simp only [search_value, ctor, hlt, if_true, search_serial_eq_chunk, hch, Option.map_some']
    simp [pushed, found_in, ctor, dumpable.ctor]

end scan_result

namespace custom_map
variable {V : Type}

theorem assign_append (key : Int) (value : V) (m : List (Int × V))
    (h : ∀ e ∈ m, e.1 < key) : assign key value m = m ++ [(key, value)] := by
  induction m with
  | nil => rfl
  | cons e m ih =>
    obtain ⟨k, v⟩ := e
    have hk : k < key := h (k, v) (List.mem_cons_self _ _)
    have hrest : ∀ e ∈ m, e.1 < key := fun e he => h e (List.mem_cons_of_mem _ he)
    have h1 : ¬ key < k := by omega
    have h2 : ¬ key = k := by omega
    simp only [assign, h1, h2, if_false, ih hrest, List.cons_append]

end custom_map

namespace scan_engine_templated
variable {T : Type} [scalar T]

theorem first_pass_results_keys (p : process) (type : scan_type) (cmp : T → T → Option T → Bool)
    (v1 : T) (v2 : Option T) (regions : List memory_region) :
    ∀ (i : Nat), ∀ e ∈ first_pass_results p type cmp v1 v2 regions i, (i : Int) ≤ e.1 := by
  induction regions with
  | nil => intro i e he; simp [first_pass_results] at he
  | cons r rs ih =>
    intro i e he
    simp only [first_pass_results] at he
    split at he
    · rcases List.mem_cons.mp he with h | h
      · rw [h]
      · have := ih (i + 1) e h
        omega
    · have := ih (i + 1) e he
      omega

theorem first_scan_loop_known (p : process) (type : scan_type) (cmp : T → T → Option T → Bool)
    (hcmp : compare type = some cmp) (v1 : T) (v2 : Option T) (regions : List memory_region) :
    ∀ (i : Nat) (results : custom_map (scan_result T)) (total_entries : Nat) (g : globals),
      (∀ r ∈ regions, r._discarded = false) →
      (∀ e ∈ results._map, e.1 < (i : Int)) →
      first_scan_loop p type v1 v2 regions i results total_entries g
        = some ({ _map := results._map ++ first_pass_results p type cmp v1 v2 regions i },
                total_entries
                  + ((first_pass_results p type cmp v1 v2 regions i).map
                      (fun kv => kv.2._data.length)).sum,
                g) := by
  have htype : type ≠ scan_type.unknown_value := by
    intro h
    rw [h] at hcmp
    simp [compare] at hcmp
  induction regions with
  | nil =>
    intro i results total_entries g _ _
    simp [first_scan_loop, first_pass_results]
  | cons r rs ih =>
    intro i results total_entries g hnd hkeys
    have hr : r._discarded = false := hnd r (List.mem_cons_self _ _)
    have hrest : ∀ r ∈ rs, r._discarded = false := fun x hx => hnd x (List.mem_cons_of_mem _ hx)
    have hkeys1 : ∀ e ∈ results._map, e.1 < ((i + 1 : Nat) : Int) := by
      intro e he
      have := hkeys e he
      omega
    simp only [first_scan_loop, first_pass_results, hcmp, htype, if_false]
    by_cases hread : (scan_engine.read_memory p r).1 = true
    · obtain ⟨hv1, hd1, _⟩ := scan_engine.read_memory_ok p r hread
      rw [hr] at hd1
      have hpair : scan_engine.read_memory p r = (true, (scan_engine.read_memory p r).2) :=
        Prod.ext hread rfl
      rw [hpair]
      simp only [true_and]
      generalize (scan_engine.read_memory p r).2 = r1 at hv1 hd1
      rw [scan_result.search_value_fresh r1 i cmp v1 v2 g.memory_dump hv1 hd1]
      cases hm : r1.matches cmp v1 v2 with
      | nil =>
        simp only [List.isEmpty_nil, Bool.not_true, ne_eq, not_true_eq_false, if_false]
        rw [ih (i + 1) results total_entries _ hrest hkeys1]
      | cons a l =>
        simp only [List.isEmpty_cons, Bool.not_false, ne_eq, reduceCtorEq, not_false_eq_true,
          if_true]
        rw [elements_ram _ g.results rfl]
        simp only
        rw [ih (i + 1) _ _ _ hrest]
        · simp only [custom_map.insert, custom_map.assign_append _ _ _ hkeys, List.append_assoc,
            List.singleton_append, List.map_cons, List.sum_cons, scan_result.set_type,
            scan_result.found_in, List.length_cons, Nat.add_assoc]
        · intro e he
          simp only [custom_map.insert, custom_map.assign_append _ _ _ hkeys] at he
          rcases List.mem_append.mp he with h | h
          · exact hkeys1 e h
          · simp only [List.mem_singleton] at h
            rw [h]
            simp only
            omega
    · have hf : (scan_engine.read_memory p r).1 = false := by
        cases h : (scan_engine.read_memory p r).1 <;> simp_all
      have hpair : scan_engine.read_memory p r = (false, (scan_engine.read_memory p r).2) :=
        Prod.ext hf rfl
      rw [hpair]
      simp only [Bool.false_eq_true, false_and, if_false]
      rw [ih (i + 1) results total_entries g hrest hkeys1]

theorem first_pass_results_find (p : process) (type : scan_type) (cmp : T → T → Option T → Bool)
    (v1 : T) (v2 : Option T) (regions : List memory_region) :
    ∀ (i0 j : Nat),
      ((first_pass_results p type cmp v1 v2 regions i0).find?
          (fun e => e.1 = ((i0 + j : Nat) : Int))).map Prod.snd
        = (regions[j]?).bind (fun r =>
            if (scan_engine.read_memory p r).1 = true
                ∧ (scan_engine.read_memory p r).2.matches cmp v1 v2 ≠ [] then
              some ((scan_result.found_in (scan_engine.read_memory p r).2 (i0 + j)
                ((scan_engine.read_memory p r).2.matches cmp v1 v2)).set_type type)
            else none) := by
  induction regions with
  | nil => intro i0 j; simp [first_pass_results]
  | cons r rs ih =>
    intro i0 j
    cases j with
    | zero =>
      simp only [first_pass_results, Nat.add_zero, List.getElem?_cons_zero, Option.some_bind]
      split
      · simp
      · have hnone : (first_pass_results p type cmp v1 v2 rs (i0 + 1)).find?
            (fun e => e.1 = ((i0 : Nat) : Int)) = none := by
          rw [List.find?_eq_none]
          intro e he
          have := first_pass_results_keys p type cmp v1 v2 rs (i0 + 1) e he
          simp only [decide_eq_true_eq]
          omega
        rw [hnone]
        rfl
    | succ j =>
      have e1 : i0 + (j + 1) = i0 + 1 + j := by omega
      simp only [first_pass_results, List.getElem?_cons_succ]
      rw [e1, ← ih (i0 + 1) j]
      split
      · rw [List.find?_cons_of_neg]
        simp only [decide_eq_true_eq]
        omega
      · rfl

end scan_engine_templated

namespace scan_engine

theorem get_regions_loop_fresh (p : process) (range : Nat × Nat) (flags : Nat) :
    ∀ (fuel cur : Nat) (regions : List memory_region),
      get_regions_loop p range flags fuel cur = some regions →
      ∀ r ∈ regions, r._discarded = false := by
  intro fuel
  induction fuel with
  | zero =>
    intro cur regions h r hr
    by_cases hlt : cur < range.2
    · simp [get_regions_loop, hlt] at h
    · simp only [get_regions_loop, hlt, if_false, Option.some.injEq] at h
      subst h
      simp at hr
  | succ fuel ih =>
    intro cur regions h r hr
    by_cases hlt : cur < range.2
    · cases hq : p.VirtualQueryEx cur with
      | none =>
        simp only [get_regions_loop, hlt, if_true, hq, Option.some.injEq] at h
        subst h
        simp at hr
      | some mbi =>
        cases hl : get_regions_loop p range flags fuel
            ((clamp_to_range range mbi).BaseAddress + (clamp_to_range range mbi).RegionSize) with
        | none => simp [get_regions_loop, hlt, hq, hl] at h
        | some rest =>
          simp only [get_regions_loop, hlt, if_true, hq, hl] at h
          split at h
          · simp only [Option.some.injEq] at h
            subst h
            rcases List.mem_cons.mp hr with h2 | h2
            · rw [h2]
              rfl
            · exact ih _ _ hl r h2
          · simp only [Option.some.injEq] at h
            subst h
            exact ih _ _ hl r hr
    · simp only [get_regions_loop, hlt, if_false, Option.some.injEq] at h
      subst h
      simp at hr

end scan_engine

namespace scan_engine_templated
variable {T : Type} [scalar T]

/-- C8: the first `scan` call, with a type that has a comparator, over the enumerated regions
`r_0 .. r_{n-1}`: the stored map contains the key `i` if and only if `r_i` was read
successfully and has at least one match; the result under the key `i` holds exactly the
matches of `r_i` as read, carries the requested type, the index `i`, and is bound to that
region; `scan` returns the sum of the entry counts over the stored map; and when nothing
matches the stored map is present and empty. -/
theorem scan_seed_known (e : scan_engine_templated T) (p : process) (range : Nat × Nat)
    (type : scan_type) (cmp : T → T → Option T → Bool) (v1 : T) (v2 : Option T) (g : globals)
    (fuel : Nat) (regions : List memory_region)
    (hfirst : e._current_scan = 0)
    (hcmp : compare type = some cmp)
    (hregions : scan_engine.get_regions p range (PAGE_READWRITE ||| PAGE_WRITECOPY) fuel
      = some regions) :
    ∃ results : custom_map (scan_result T),
      e.scan p range type v1 v2 g fuel
          = some ((results._map.map (fun kv => kv.2._data.length)).sum,
                  { e with _prev_scan_results := some results, _current_scan := 1 }, g)
        ∧ (∀ k : Int, results.contains k = true ↔
            ∃ (i : Nat) (r : memory_region), k = i ∧ regions[i]? = some r
              ∧ (scan_engine.read_memory p r).1 = true
              ∧ (scan_engine.read_memory p r).2.matches cmp v1 v2 ≠ [])
        ∧ (∀ (i : Nat) (res : scan_result T), results.«at» i = some res →
            ∃ r : memory_region, regions[i]? = some r
              ∧ res._data = (scan_engine.read_memory p r).2.matches cmp v1 v2
              ∧ res.type = some type
              ∧ res.index = i
              ∧ res.associated_region = some (scan_engine.read_memory p r).2)
        ∧ ((∀ r ∈ regions, ¬ ((scan_engine.read_memory p r).1 = true
              ∧ (scan_engine.read_memory p r).2.matches cmp v1 v2 ≠ [])) → results._map = []) := by
  have hfresh := scan_engine.get_regions_loop_fresh p range _ fuel range.1 regions hregions
  have hloop := first_scan_loop_known p type cmp hcmp v1 v2 regions 0 custom_map.ctor 0 g hfresh
    (by intro e he; simp [custom_map.ctor] at he)
  simp only [custom_map.ctor, List.nil_append, Nat.zero_add] at hloop
  have hfind := first_pass_results_find p type cmp v1 v2 regions 0
  simp only [Nat.zero_add] at hfind
  refine ⟨{ _map := first_pass_results p type cmp v1 v2 regions 0 }, ?_, ?_, ?_, ?_⟩
  · simp only [scan, hregions, hfirst, if_true, first_scan, custom_map.ctor, hloop]
  · intro k
    constructor
    · intro hk
      simp only [custom_map.contains, List.any_eq_true, decide_eq_true_eq] at hk
      obtain ⟨x, hx, hxk⟩ := hk
      have hge := first_pass_results_keys p type cmp v1 v2 regions 0 x hx
      have hk0 : k = ((k.toNat : Nat) : Int) := by
        rw [← hxk]
        simp only [Nat.cast_zero] at hge
        omega
      have hsome : ((first_pass_results p type cmp v1 v2 regions 0).find?
          (fun e => e.1 = ((k.toNat : Nat) : Int))).isSome = true := by
        rw [List.find?_isSome]
        exact ⟨x, hx, by simp only [decide_eq_true_eq]; omega⟩
      have hf := hfind k.toNat
      cases hr : regions[k.toNat]? with
      | none =>
        rw [hr] at hf
        simp only [Option.none_bind, Option.map_eq_none'] at hf
        rw [hf] at hsome
        simp at hsome
      | some r =>
        rw [hr] at hf
        simp only [Option.some_bind] at hf
        by_cases hhit : (scan_engine.read_memory p r).1 = true
            ∧ (scan_engine.read_memory p r).2.matches cmp v1 v2 ≠ []
        · exact ⟨k.toNat, r, hk0, hr, hhit.1, hhit.2⟩
        · rw [if_neg hhit] at hf
          simp only [Option.map_eq_none'] at hf
          rw [hf] at hsome
          simp at hsome
    · rintro ⟨i, r, hki, hr, h1, h2⟩
      have hf := hfind i
      rw [hr] at hf
      simp only [Option.some_bind, h1, h2, ne_eq, not_false_eq_true, and_self, if_true] at hf
      simp only [custom_map.contains, List.any_eq_true, decide_eq_true_eq]
      cases hx : (first_pass_results p type cmp v1 v2 regions 0).find?
          (fun e => e.1 = ((i : Nat) : Int)) with
      | none =>
        rw [hx] at hf
        simp at hf
      | some x =>
        have hmem := List.mem_of_find?_eq_some hx
        have hp := List.find?_some hx
        simp only [decide_eq_true_eq] at hp
        exact ⟨x, hmem, by rw [hp, hki]⟩
  · intro i res hat
    have hf := hfind i
    simp only [custom_map.«at»] at hat
    rw [hat] at hf
    cases hr : regions[i]? with
    | none =>
      rw [hr] at hf
      simp at hf
    | some r =>
      rw [hr] at hf
      simp only [Option.some_bind] at hf
      by_cases hhit : (scan_engine.read_memory p r).1 = true
          ∧ (scan_engine.read_memory p r).2.matches cmp v1 v2 ≠ []
      · rw [if_pos hhit] at hf
        simp only [Option.some.injEq] at hf
        refine ⟨r, rfl, ?_, ?_, ?_, ?_⟩
        · rw [hf]; rfl
        · rw [hf]; rfl
        · rw [hf]; rfl
        · rw [hf]; rfl
      · rw [if_neg hhit] at hf
        simp at hf
  · intro hnone
    have : ∀ (rs : List memory_region) (i : Nat),
        (∀ r ∈ rs, ¬ ((scan_engine.read_memory p r).1 = true
              ∧ (scan_engine.read_memory p r).2.matches cmp v1 v2 ≠ [])) →
        first_pass_results p type cmp v1 v2 rs i = [] := by
      intro rs
      induction rs with
      | nil => intro i _; rfl
      | cons r rs ih =>
        intro i h
        simp only [first_pass_results]
        rw [if_neg (h r (List.mem_cons_self _ _))]
        exact ih (i + 1) (fun x hx => h x (List.mem_cons_of_mem _ hx))
    exact this regions 0 hnone


theorem scan_seed_known_witness :
    ((scan_engine_templated.ctor 1 : scan_engine_templated int32_t)._current_scan = 0
      ∧ (compare scan_type.exact_value : Option (int32_t → int32_t → Option int32_t → Bool))
          = some (fun a b _ => decide (a = b))
      ∧ scan_engine.get_regions (one_region_process 0x1000 (raw_bytes ([10, 20, 30, 40] : List int32_t)))
          (0x1000, 0x1010) (PAGE_READWRITE ||| PAGE_WRITECOPY) 4
          = some [memory_region.ctor ⟨0x1000, 16, MEM_COMMIT, PAGE_READWRITE, 0x20000⟩])
    ∧ ∃ results : custom_map (scan_result int32_t),
      (scan_engine_templated.ctor 1 : scan_engine_templated int32_t).scan
          (one_region_process 0x1000 (raw_bytes ([10, 20, 30, 40] : List int32_t)))
          (0x1000, 0x1010) scan_type.exact_value 30 none fresh_globals 4
          = some ((results._map.map (fun kv => kv.2._data.length)).sum,
                  { (scan_engine_templated.ctor 1 : scan_engine_templated int32_t) with
                    _prev_scan_results := some results, _current_scan := 1 }, fresh_globals)
        ∧ (∀ k : Int, results.contains k = true ↔
            ∃ (i : Nat) (r : memory_region), k = i
              ∧ [memory_region.ctor ⟨0x1000, 16, MEM_COMMIT, PAGE_READWRITE, 0x20000⟩][i]? = some r
              ∧ (scan_engine.read_memory
                  (one_region_process 0x1000 (raw_bytes ([10, 20, 30, 40] : List int32_t))) r).1 = true
              ∧ (scan_engine.read_memory
                  (one_region_process 0x1000 (raw_bytes ([10, 20, 30, 40] : List int32_t))) r).2.matches
                    (fun a b _ => decide (a = b)) (30 : int32_t) none ≠ [])
        ∧ (∀ (i : Nat) (res : scan_result int32_t), results.«at» i = some res →
            ∃ r : memory_region,
              [memory_region.ctor ⟨0x1000, 16, MEM_COMMIT, PAGE_READWRITE, 0x20000⟩][i]? = some r
              ∧ res._data = (scan_engine.read_memory
                  (one_region_process 0x1000 (raw_bytes ([10, 20, 30, 40] : List int32_t))) r).2.matches
                    (fun a b _ => decide (a = b)) (30 : int32_t) none
              ∧ res.type = some scan_type.exact_value
              ∧ res.index = i
              ∧ res.associated_region = some (scan_engine.read_memory
                  (one_region_process 0x1000 (raw_bytes ([10, 20, 30, 40] : List int32_t))) r).2)
        ∧ ((∀ r ∈ [memory_region.ctor ⟨0x1000, 16, MEM_COMMIT, PAGE_READWRITE, 0x20000⟩],
              ¬ ((scan_engine.read_memory
                  (one_region_process 0x1000 (raw_bytes ([10, 20, 30, 40] : List int32_t))) r).1 = true
              ∧ (scan_engine.read_memory
                  (one_region_process 0x1000 (raw_bytes ([10, 20, 30, 40] : List int32_t))) r).2.matches
                    (fun a b _ => decide (a = b)) (30 : int32_t) none ≠ [])) → results._map = []) :=
  ⟨⟨rfl, rfl, rfl⟩,
   scan_seed_known (scan_engine_templated.ctor 1)
     (one_region_process 0x1000 (raw_bytes ([10, 20, 30, 40] : List int32_t)))
     (0x1000, 0x1010) scan_type.exact_value (fun a b _ => decide (a = b)) 30 none fresh_globals 4
     [memory_region.ctor ⟨0x1000, 16, MEM_COMMIT, PAGE_READWRITE, 0x20000⟩] rfl rfl rfl⟩

/-- The first two scenarios of the spec: over the 32-bit sequence 10, 20, 30, 40 at `0x1000`,
a seed scan for `exact_value` 30 returns 1 and stores one entry, at `0x1008`; for
`exact_value` 5 it returns 0 and stores a present, empty map. -/
theorem scan_seed_scenarios :
    ((scan_engine_templated.ctor 1 : scan_engine_templated int32_t).scan
        (one_region_process 0x1000 (raw_bytes ([10, 20, 30, 40] : List int32_t)))
        (0x1000, 0x1010) scan_type.exact_value 30 none fresh_globals 4).map
      (fun r => (r.1, r.2.1._prev_scan_results.map (fun m => map_entries (some m))))
      = some (1, some [(0, [(0x1008, 30)])])
    ∧ ((scan_engine_templated.ctor 1 : scan_engine_templated int32_t).scan
        (one_region_process 0x1000 (raw_bytes ([10, 20, 30, 40] : List int32_t)))
        (0x1000, 0x1010) scan_type.exact_value 5 none fresh_globals 4).map
      (fun r => (r.1, r.2.1._prev_scan_results.map (fun m => map_entries (some m))))
      = some (0, some []) := by
  constructor <;> rfl

end scan_engine_templated

/-! ## The seed pass with `unknown_value` -/

namespace memory_region

theorem dump_discard (r : memory_region) (md : file_dump) :
    r.dump true md
      = if r._data = [] then (false, r, md)
        else
          match md.write r._data with
          | (none, md1) => (false, { r with _file_offset := none }, md1)
          | (some off, md1) =>
            (true,
              { r with _file_offset := some off, _data := [], _data_map := [],
                       _mapped_info := none, _discarded := true },
              md1) := by
  have hsz : object_repr.sizeof uint8_t = 1 := rfl
  have htake : (raw_bytes r._data).take (r._data.length * object_repr.sizeof uint8_t) = r._data := by
    rw [raw_bytes_uint8, hsz, Nat.mul_one, List.take_length]
  unfold dump dumpable.dump
  by_cases he : r._data = []
  · simp [he]
  · have hne : r._data.isEmpty = false := by
      cases hd : r._data with
      | nil => exact absurd hd he
      | cons a l => rfl
    simp only [hne, Bool.false_eq_true, if_false, htake, he, if_true]
    cases hw : md.write r._data with
    | mk off md1 =>
      cases off <;> rfl

theorem dump_discard_ok (r : memory_region) (md : file_dump) (h : (r.dump true md).1 = true) :
    r._data ≠ [] ∧ (r.dump true md).2.2 = (md.write r._data).2
      ∧ (r.dump true md).2.1._file_offset = (md.write r._data).1
      ∧ ((md.write r._data).1).isSome = true
      ∧ (r.dump true md).2.1._discarded = true
      ∧ (r.dump true md).2.1._data = []
      ∧ (r.dump true md).2.1._data_map = []
      ∧ (r.dump true md).2.1._mapped_info = none
      ∧ (r.dump true md).2.1._header = r._header
      ∧ (r.dump true md).2.1._valid = r._valid := by
  rw [dump_discard] at h ⊢
  by_cases he : r._data = []
  · simp [he] at h
  · simp only [he, if_false] at h ⊢
    cases hw : md.write r._data with
    | mk off md1 =>
      rw [hw] at h
      cases off with
      | none => simp at h
      | some o => simp [he]

theorem dump_discard_iff (r : memory_region) (md : file_dump) :
    (r.dump true md).1 = true ↔ r._data ≠ [] ∧ ((md.write r._data).1).isSome = true := by
  constructor
  · intro h
    have := dump_discard_ok r md h
    exact ⟨this.1, this.2.2.2.1⟩
  · rintro ⟨h1, h2⟩
    rw [dump_discard]
    simp only [h1, if_false]
    cases hw : md.write r._data with
    | mk off md1 =>
      rw [hw] at h2
      cases off with
      | none => simp at h2
      | some o => rfl

end memory_region

namespace scan_engine_templated

theorem seed_unknown_results_keys {T : Type} (p : process) (regions : List memory_region) :
    ∀ (i : Nat) (md : file_dump),
      ∀ e ∈ (seed_unknown_results p regions i md : List (Int × scan_result T)), (i : Int) ≤ e.1 := by
  induction regions with
  | nil => intro i md e he; simp [seed_unknown_results] at he
  | cons r rs ih =>
    intro i md e he
    simp only [seed_unknown_results] at he
    split at he
    · split at he
      · rcases List.mem_cons.mp he with h | h
        · rw [h]
        · have := ih (i + 1) _ e h
          omega
      · have := ih (i + 1) _ e he
        omega
    · have := ih (i + 1) _ e he
      omega

theorem seed_unknown_store_take_succ (p : process) (regions : List memory_region) :
    ∀ (j : Nat) (r : memory_region) (md : file_dump), regions[j]? = some r →
      seed_unknown_store p (regions.take (j + 1)) md
        = if (scan_engine.read_memory p r).1 = true then
            ((scan_engine.read_memory p r).2.dump true
              (seed_unknown_store p (regions.take j) md)).2.2
          else seed_unknown_store p (regions.take j) md := by
  induction regions with
  | nil => intro j r md h; simp at h
  | cons a rs ih =>
    intro j r md h
    cases j with
    | zero =>
      simp only [List.getElem?_cons_zero, Option.some.injEq] at h
      subst h
      simp [seed_unknown_store]
    | succ j =>
      simp only [List.getElem?_cons_succ] at h
      simp only [List.take_succ_cons, seed_unknown_store]
      split
      · exact ih j r _ h
      · exact ih j r _ h

theorem seed_unknown_results_find {T : Type} (p : process) (regions : List memory_region) :
    ∀ (i0 j : Nat) (md : file_dump),
      (((seed_unknown_results p regions i0 md : List (Int × scan_result T))).find?
          (fun e => e.1 = ((i0 + j : Nat) : Int))).map Prod.snd
        = (regions[j]?).bind (fun r =>
            if (scan_engine.read_memory p r).1 = true
                ∧ ((scan_engine.read_memory p r).2.dump true
                    (seed_unknown_store p (regions.take j) md)).1 = true then
              some ((scan_result.ctor
                (some ((scan_engine.read_memory p r).2.dump true
                    (seed_unknown_store p (regions.take j) md)).2.1) (i0 + j)).set_type
                  scan_type.unknown_value)
            else none) := by
  induction regions with
  | nil => intro i0 j md; simp [seed_unknown_results]
  | cons r rs ih =>
    intro i0 j md
    cases j with
    | zero =>
      simp only [seed_unknown_results, Nat.add_zero, List.getElem?_cons_zero, Option.some_bind,
        List.take_zero, seed_unknown_store]
      have hnone : ∀ md1, ((seed_unknown_results p rs (i0 + 1) md1 : List (Int × scan_result T))).find?
            (fun e => e.1 = ((i0 : Nat) : Int)) = none := by
        intro md1
        rw [List.find?_eq_none]
        intro e he
        have := seed_unknown_results_keys p rs (i0 + 1) md1 e he
        simp only [decide_eq_true_eq]
        omega
      by_cases h1 : (scan_engine.read_memory p r).1 = true
      · by_cases h2 : ((scan_engine.read_memory p r).2.dump true md).1 = true
        · simp [h1, h2]
        · simp only [h1, h2, if_true, Bool.false_eq_true, if_false, and_false, hnone]
          rfl
      · simp only [h1, Bool.false_eq_true, if_false, false_and, hnone]
        rfl
    | succ j =>
      have e1 : i0 + (j + 1) = i0 + 1 + j := by omega
      simp only [seed_unknown_results, List.getElem?_cons_succ, List.take_succ_cons,
        seed_unknown_store]
      rw [e1]
      by_cases h1 : (scan_engine.read_memory p r).1 = true
      · simp only [h1, if_true]
        by_cases h2 : ((scan_engine.read_memory p r).2.dump true md).1 = true
        · simp only [h2, if_true]
          rw [List.find?_cons_of_neg, ih (i0 + 1) j]
          simp only [decide_eq_true_eq]
          omega
        · simp only [h2, Bool.false_eq_true, if_false]
          rw [ih (i0 + 1) j]
      · simp only [h1, Bool.false_eq_true, if_false]
        rw [ih (i0 + 1) j]

variable {T : Type} [scalar T]

theorem first_scan_loop_unknown (p : process) (v1 : T) (v2 : Option T)
    (regions : List memory_region) :
    ∀ (i : Nat) (results : custom_map (scan_result T)) (total_entries : Nat) (g : globals),
      (∀ e ∈ results._map, e.1 < (i : Int)) →
      first_scan_loop p scan_type.unknown_value v1 v2 regions i results total_entries g
        = some ({ _map := results._map ++ seed_unknown_results p regions i g.memory_dump },
                total_entries,
                { g with memory_dump := seed_unknown_store p regions g.memory_dump }) := by
  induction regions with
  | nil =>
    intro i results total_entries g _
    simp [first_scan_loop, seed_unknown_results, seed_unknown_store]
  | cons r rs ih =>
    intro i results total_entries g hkeys
    have hkeys1 : ∀ e ∈ results._map, e.1 < ((i + 1 : Nat) : Int) := by
      intro e he
      have := hkeys e he
      omega
    have hcmp : (compare scan_type.unknown_value : Option (T → T → Option T → Bool)) = none := rfl
    simp only [first_scan_loop, seed_unknown_results, seed_unknown_store, hcmp, if_true]
    by_cases hread : (scan_engine.read_memory p r).1 = true
    · have hpair : scan_engine.read_memory p r = (true, (scan_engine.read_memory p r).2) :=
        Prod.ext hread rfl
      rw [hpair]
      simp only [if_true]
      generalize (scan_engine.read_memory p r).2 = r1
      by_cases hdump : (r1.dump true g.memory_dump).1 = true
      · simp only [hdump, if_true]
        rw [ih (i + 1) _ _ _]
        · simp only [custom_map.insert, custom_map.assign_append _ _ _ hkeys, List.append_assoc,
            List.singleton_append]
        · intro e he
          simp only [custom_map.insert, custom_map.assign_append _ _ _ hkeys] at he
          rcases List.mem_append.mp he with h | h
          · exact hkeys1 e h
          · simp only [List.mem_singleton] at h
            rw [h]
            simp only
            omega
      · simp only [hdump, Bool.false_eq_true, if_false]
        rw [ih (i + 1) _ _ _ hkeys1]
    · have hf : (scan_engine.read_memory p r).1 = false := by
        cases h : (scan_engine.read_memory p r).1 <;> simp_all
      have hpair : scan_engine.read_memory p r = (false, (scan_engine.read_memory p r).2) :=
        Prod.ext hf rfl
      rw [hpair]
      simp only [Bool.false_eq_true, if_false]
      rw [ih (i + 1) results total_entries g hkeys1]

/-- C9: the first `scan` call with type `unknown_value` returns 0; the stored map contains
the key `i` exactly when the region `r_i` is read successfully with a non-empty payload and
`write` on the store, as the regions before it have left it, returns an offset; the result
under the key `i` has no entries, type `unknown_value`, index `i`, and is bound to `r_i` as
read, left discarded: empty RAM payload, the offset `write` returned recorded. -/
theorem scan_seed_unknown (e : scan_engine_templated T) (p : process) (range : Nat × Nat)
    (v1 : T) (v2 : Option T) (g : globals) (fuel : Nat) (regions : List memory_region)
    (hfirst : e._current_scan = 0)
    (hregions : scan_engine.get_regions p range (PAGE_READWRITE ||| PAGE_WRITECOPY) fuel
      = some regions) :
    ∃ results : custom_map (scan_result T),
      e.scan p range scan_type.unknown_value v1 v2 g fuel
          = some (0, { e with _prev_scan_results := some results, _current_scan := 1 },
                  { g with memory_dump := seed_unknown_store p regions g.memory_dump })
        ∧ (∀ k : Int, results.contains k = true ↔
            ∃ (i : Nat) (r : memory_region), k = i ∧ regions[i]? = some r
              ∧ (scan_engine.read_memory p r).1 = true
              ∧ (scan_engine.read_memory p r).2._data ≠ []
              ∧ (((seed_unknown_store p (regions.take i) g.memory_dump).write
                    (scan_engine.read_memory p r).2._data).1).isSome = true)
        ∧ (∀ (i : Nat) (res : scan_result T), results.«at» i = some res →
            ∃ (r region : memory_region), regions[i]? = some r
              ∧ res._data = [] ∧ res._header.size = 0
              ∧ res.type = some scan_type.unknown_value
              ∧ res.index = i
              ∧ res.associated_region = some region
              ∧ region._header = (scan_engine.read_memory p r).2._header
              ∧ region._discarded = true
              ∧ region._data = []
              ∧ (region._file_offset).isSome = true
              ∧ region._file_offset
                  = ((seed_unknown_store p (regions.take i) g.memory_dump).write
                      (scan_engine.read_memory p r).2._data).1) := by
  have hloop := first_scan_loop_unknown p v1 v2 regions 0 (custom_map.ctor : custom_map (scan_result T))
    0 g (by intro e he; simp [custom_map.ctor] at he)
  simp only [custom_map.ctor, List.nil_append] at hloop
  have hfind := fun j => seed_unknown_results_find (T := T) p regions 0 j g.memory_dump
  simp only [Nat.zero_add] at hfind
  refine ⟨{ _map := seed_unknown_results p regions 0 g.memory_dump }, ?_, ?_, ?_⟩
  · simp only [scan, hregions, hfirst, if_true, first_scan, custom_map.ctor, hloop]
  · intro k
    constructor
    · intro hk
      simp only [custom_map.contains, List.any_eq_true, decide_eq_true_eq] at hk
      obtain ⟨x, hx, hxk⟩ := hk
      have hge := seed_unknown_results_keys p regions 0 g.memory_dump x hx
      have hk0 : k = ((k.toNat : Nat) : Int) := by
        rw [← hxk]
        simp only [Nat.cast_zero] at hge
        omega
      have hsome : (((seed_unknown_results p regions 0 g.memory_dump
          : List (Int × scan_result T))).find?
          (fun e => e.1 = ((k.toNat : Nat) : Int))).isSome = true := by
        rw [List.find?_isSome]
        exact ⟨x, hx, by simp only [decide_eq_true_eq]; omega⟩
      have hf := hfind k.toNat
      cases hr : regions[k.toNat]? with
      | none =>
        rw [hr] at hf
        simp only [Option.none_bind, Option.map_eq_none'] at hf
        rw [hf] at hsome
        simp at hsome
      | some r =>
        rw [hr] at hf
        simp only [Option.some_bind] at hf
        by_cases hhit : (scan_engine.read_memory p r).1 = true
            ∧ ((scan_engine.read_memory p r).2.dump true
                (seed_unknown_store p (regions.take k.toNat) g.memory_dump)).1 = true
        · have hd := (memory_region.dump_discard_iff _ _).mp hhit.2
          exact ⟨k.toNat, r, hk0, hr, hhit.1, hd.1, hd.2⟩
        · rw [if_neg hhit] at hf
          simp only [Option.map_eq_none'] at hf
          rw [hf] at hsome
          simp at hsome
    · rintro ⟨i, r, hki, hr, h1, h2, h3⟩
      have hd := (memory_region.dump_discard_iff (scan_engine.read_memory p r).2
        (seed_unknown_store p (regions.take i) g.memory_dump)).mpr ⟨h2, h3⟩
      have hf := hfind i
      rw [hr] at hf
      simp only [Option.some_bind, h1, hd, and_self, if_true] at hf
      simp only [custom_map.contains, List.any_eq_true, decide_eq_true_eq]
      cases hx : ((seed_unknown_results p regions 0 g.memory_dump
          : List (Int × scan_result T))).find? (fun e => e.1 = ((i : Nat) : Int)) with
      | none =>
        rw [hx] at hf
        simp at hf
      | some x =>
        have hmem := List.mem_of_find?_eq_some hx
        have hp := List.find?_some hx
        simp only [decide_eq_true_eq] at hp
        exact ⟨x, hmem, by rw [hp, hki]⟩
  · intro i res hat
    have hf := hfind i
    simp only [custom_map.«at»] at hat
    rw [hat] at hf
    cases hr : regions[i]? with
    | none =>
      rw [hr] at hf
      simp at hf
    | some r =>
      rw [hr] at hf
      simp only [Option.some_bind] at hf
      by_cases hhit : (scan_engine.read_memory p r).1 = true
          ∧ ((scan_engine.read_memory p r).2.dump true
              (seed_unknown_store p (regions.take i) g.memory_dump)).1 = true
      · rw [if_pos hhit] at hf
        simp only [Option.some.injEq] at hf
        have hd := memory_region.dump_discard_ok _ _ hhit.2
        refine ⟨r, ((scan_engine.read_memory p r).2.dump true
              (seed_unknown_store p (regions.take i) g.memory_dump)).2.1, rfl, ?_, ?_, ?_, ?_, ?_,
              hd.2.2.2.2.2.2.2.2.1, hd.2.2.2.2.1, hd.2.2.2.2.2.1, ?_, hd.2.2.1⟩
        · rw [hf]; rfl
        · rw [hf]; rfl
        · rw [hf]; rfl
        · rw [hf]; rfl
        · rw [hf]; rfl
        · rw [hd.2.2.1]
          exact hd.2.2.2.1
      · rw [if_neg hhit] at hf
        simp at hf

theorem scan_seed_unknown_witness :
    ((scan_engine_templated.ctor 1 : scan_engine_templated int32_t)._current_scan = 0
      ∧ scan_engine.get_regions (one_region_process 0x1000 (raw_bytes ([7, 8, 9] : List int32_t)))
          (0x1000, 0x100c) (PAGE_READWRITE ||| PAGE_WRITECOPY) 4
          = some [memory_region.ctor ⟨0x1000, 12, MEM_COMMIT, PAGE_READWRITE, 0x20000⟩])
    ∧ ∃ results : custom_map (scan_result int32_t),
      (scan_engine_templated.ctor 1 : scan_engine_templated int32_t).scan
          (one_region_process 0x1000 (raw_bytes ([7, 8, 9] : List int32_t)))
          (0x1000, 0x100c) scan_type.unknown_value 0 none fresh_globals 4
          = some (0, { (scan_engine_templated.ctor 1 : scan_engine_templated int32_t) with
                        _prev_scan_results := some results, _current_scan := 1 },
                  (⟨seed_unknown_store (one_region_process 0x1000 (raw_bytes ([7, 8, 9] : List int32_t)))
                      [memory_region.ctor ⟨0x1000, 12, MEM_COMMIT, PAGE_READWRITE, 0x20000⟩]
                      fresh_globals.memory_dump, fresh_globals.results⟩ : globals))
        ∧ (∀ k : Int, results.contains k = true ↔
            ∃ (i : Nat) (r : memory_region), k = i
              ∧ [memory_region.ctor ⟨0x1000, 12, MEM_COMMIT, PAGE_READWRITE, 0x20000⟩][i]? = some r
              ∧ (scan_engine.read_memory
                  (one_region_process 0x1000 (raw_bytes ([7, 8, 9] : List int32_t))) r).1 = true
              ∧ (scan_engine.read_memory
                  (one_region_process 0x1000 (raw_bytes ([7, 8, 9] : List int32_t))) r).2._data ≠ []
              ∧ (((seed_unknown_store (one_region_process 0x1000 (raw_bytes ([7, 8, 9] : List int32_t)))
                    ([memory_region.ctor ⟨0x1000, 12, MEM_COMMIT, PAGE_READWRITE, 0x20000⟩].take i)
                    fresh_globals.memory_dump).write
                    (scan_engine.read_memory
                      (one_region_process 0x1000 (raw_bytes ([7, 8, 9] : List int32_t))) r).2._data).1).isSome
                  = true)
        ∧ (∀ (i : Nat) (res : scan_result int32_t), results.«at» i = some res →
            ∃ (r region : memory_region),
              [memory_region.ctor ⟨0x1000, 12, MEM_COMMIT, PAGE_READWRITE, 0x20000⟩][i]? = some r
              ∧ res._data = [] ∧ res._header.size = 0
              ∧ res.type = some scan_type.unknown_value
              ∧ res.index = i
              ∧ res.associated_region = some region
              ∧ region._header = (scan_engine.read_memory
                  (one_region_process 0x1000 (raw_bytes ([7, 8, 9] : List int32_t))) r).2._header
              ∧ region._discarded = true
              ∧ region._data = []
              ∧ (region._file_offset).isSome = true
              ∧ region._file_offset
                  = ((seed_unknown_store (one_region_process 0x1000 (raw_bytes ([7, 8, 9] : List int32_t)))
                      ([memory_region.ctor ⟨0x1000, 12, MEM_COMMIT, PAGE_READWRITE, 0x20000⟩].take i)
                      fresh_globals.memory_dump).write
                      (scan_engine.read_memory
                        (one_region_process 0x1000 (raw_bytes ([7, 8, 9] : List int32_t))) r).2._data).1) :=
  ⟨⟨rfl, rfl⟩,
   scan_seed_unknown (scan_engine_templated.ctor 1)
     (one_region_process 0x1000 (raw_bytes ([7, 8, 9] : List int32_t)))
     (0x1000, 0x100c) 0 none fresh_globals 4
     [memory_region.ctor ⟨0x1000, 12, MEM_COMMIT, PAGE_READWRITE, 0x20000⟩] rfl rfl⟩

end scan_engine_templated

/-! ## The next pass after an `unknown_value` seed -/

namespace memory_region

theorem load_frame (r : memory_region) (md : file_dump) (r1 : memory_region) (md1 : file_dump)
    (h : r.load md = some (true, r1, md1)) :
    r1._valid = r._valid ∧ r1._discarded = r._discarded ∧ r1._header = r._header
      ∧ ((r1 = r ∧ md1 = md) ∨ r1._mapped_info ≠ none) := by
  unfold load dumpable.load at h
  by_cases he : r._data_map.isEmpty = true
  · simp only [he, Bool.not_true, Bool.false_eq_true, if_false] at h
    cases hoff : r._file_offset with
    | none => simp [hoff] at h
    | some off =>
      simp only [hoff] at h
      cases hr : md.read off (sized_header.size r._header * object_repr.sizeof uint8_t) with
      | mk c md2 =>
        rw [hr] at h
        cases c with
        | none => simp at h
        | some c =>
          simp only [Option.some.injEq, Prod.mk.injEq, true_and] at h
          obtain ⟨h1, h2⟩ := h
          subst h1
          exact ⟨rfl, rfl, rfl, Or.inr (by simp)⟩
  · simp only [he, Bool.not_false, if_true, Option.some.injEq, Prod.mk.injEq, true_and] at h
    obtain ⟨h1, h2⟩ := h
    subst h1 h2
    exact ⟨rfl, rfl, rfl, Or.inl ⟨rfl, rfl⟩⟩

theorem at_index_dumped (w : Nat) (r : memory_region) (md : file_dump) (bytes : List Nat)
    (i : Nat) (h : r.dumped_in md bytes) (hi : (i + 1) * w ≤ r._header.size) :
    ∃ (r1 : memory_region) (md1 : file_dump),
      r.at_index w md i = some (some ⟨bytes, i * w⟩, r1, md1)
        ∧ r1.dumped_in md1 bytes ∧ r1._header = r._header := by
  obtain ⟨hv, hd, hst⟩ := h
  have h1 : ¬ (i + 1) * w > r._header.size := by omega
  have h2 : ¬ i * w + w > r._header.size := by rw [Nat.add_mul] at hi; omega
  rcases hst with ⟨hmi, r1, md1, hload, hbytes⟩ | ⟨hmi, hdm⟩
  · obtain ⟨hv1, hd1, hh1, hcase⟩ := load_frame r md r1 md1 hload
    refine ⟨r1, md1, ?_, ⟨hv1.trans hv, hd1.trans hd, ?_⟩, hh1⟩
    · simp only [at_index, h1, if_false, at_offset, h2, hv, hd, hmi, Bool.not_true,
        Bool.false_eq_true, Option.isNone_none, if_true, hload, hbytes]
    · rcases hcase with ⟨e1, e2⟩ | hm
      · subst e1 e2
        exact Or.inl ⟨hmi, r1, md1, hload, hbytes⟩
      · exact Or.inr ⟨hm, hbytes⟩
  · refine ⟨r, md, ?_, ⟨hv, hd, Or.inr ⟨hmi, hdm⟩⟩, rfl⟩
    have hsome : r._mapped_info.isNone = false := by
      cases hm : r._mapped_info with
      | none => exact absurd hm hmi
      | some c => rfl
    simp only [at_index, h1, if_false, at_offset, h2, hv, hd, Bool.not_true, Bool.false_eq_true,
      hsome, hdm]

/-- A region dumped with discard into a store whose OS calls succeed shows, when reloaded, the
bytes the store holds at the recorded offset. -/
theorem dumped_in_of_store (r : memory_region) (md : file_dump) (off : Nat)
    (hv : r._valid = true) (hd : r._discarded = true) (hmi : r._mapped_info = none)
    (hdm : r._data_map = []) (hoff : r._file_offset = some off) (hwf : md.wf)
    (hpos : 0 < r._header.size) (hin : off + r._header.size ≤ md.contents.length) :
    r.dumped_in md ((md.contents.drop off).take r._header.size) := by
  obtain ⟨⟨c, hc, hdata⟩, _, _⟩ := file_dump.read_ok md off r._header.size hwf hpos hin
  have hpair : md.read off r._header.size = (some c, (md.read off r._header.size).2) :=
    Prod.ext hc rfl
  generalize (md.read off r._header.size).2 = md1 at hpair
  have hsz : object_repr.sizeof uint8_t = 1 := rfl
  have hlen : ((md.contents.drop off).take r._header.size).length = r._header.size := by
    simp only [List.length_take, List.length_drop]
    omega
  have hspan : (span_of c.data r._header.size : List uint8_t)
      = (md.contents.drop off).take r._header.size := by
    rw [hdata]
    have := span_of_uint8 ((md.contents.drop off).take r._header.size)
    rw [hlen] at this
    exact this
  refine ⟨hv, hd, Or.inl ⟨hmi, { r with _mapped_info := some c, _data_map := (md.contents.drop off).take r._header.size }, md1, ?_, rfl⟩⟩
  simp only [load, dumpable.load, hdm, List.isEmpty_nil, Bool.not_true, Bool.false_eq_true,
    if_false, hoff, sized_header.size, hsz, Nat.mul_one, hpair, hspan]

end memory_region

namespace scan_engine_templated
variable {T : Type} [scalar T]

theorem next_scan_elements_unknown (type : scan_type) (v1 : T) (v2 : Option T)
    (els : List (scan_entry T)) (bytes : List Nat) (is : List Nat) :
    ∀ (st : task_state T), st.prev_region.dumped_in st.memory_dump bytes →
      st.current_region._valid = true → st.current_region._discarded = false →
      (∀ i ∈ is, (i + 1) * object_repr.sizeof T ≤ st.prev_region._header.size) →
      ∃ st1 : task_state T,
        next_scan_elements type v1 v2 (some scan_type.unknown_value) els is st = some st1
          ∧ st1.prev_region.dumped_in st1.memory_dump bytes
          ∧ st1.prev_region._header = st.prev_region._header
          ∧ st1.current_region = st.current_region
          ∧ st1.result = st.result.accepted type
              (is.filterMap (fun i => next_pass_entry type v1 v2 st.current_region
                (reloaded_entry T st.prev_region.base bytes i)))
          ∧ st1.total_entries = st.total_entries
              + (is.filterMap (fun i => next_pass_entry type v1 v2 st.current_region
                (reloaded_entry T st.prev_region.base bytes i))).length := by
  induction is with
  | nil =>
    intro st hdump _ _ _
    exact ⟨st, rfl, hdump, rfl, rfl, by simp [accepted_nil], by simp⟩
  | cons i is ih =>
    intro st hdump hv hd hall
    have hi := hall i (List.mem_cons_self _ _)
    have hrest : ∀ k ∈ is, (k + 1) * object_repr.sizeof T ≤ st.prev_region._header.size :=
      fun k hk => hall k (List.mem_cons_of_mem _ hk)
    obtain ⟨r1, md1, hat, hdump1, hhdr1⟩ :=
      memory_region.at_index_dumped (object_repr.sizeof T) st.prev_region st.memory_dump bytes i
        hdump hi
    have hbase : r1.base = st.prev_region.base := by
      simp only [memory_region.base, hhdr1]
    have hrest1 : ∀ k ∈ is, (k + 1) * object_repr.sizeof T ≤ r1._header.size := by
      rw [hhdr1]
      exact hrest
    have hold : ({ value := (typed_ptr.deref ⟨bytes, i * object_repr.sizeof T⟩ : T),
                   address := r1.base + i * object_repr.sizeof T } : scan_entry T)
        = reloaded_entry T st.prev_region.base bytes i := by
      rw [hbase]
      rfl
    simp only [next_scan_elements, if_true, hat, hold,
      memory_region.at_address_ram _ st.current_region md1 _ hv hd, List.filterMap_cons]
    by_cases hh : st.current_region.holds (object_repr.sizeof T)
        (reloaded_entry T st.prev_region.base bytes i).address
    · simp only [hh, if_true]
      cases hc : (compare type : Option (T → T → Option T → Bool)) with
      | none =>
        have hentry : next_pass_entry type v1 v2 st.current_region
            (reloaded_entry T st.prev_region.base bytes i) = none := by
          simp [next_pass_entry, next_pass_accepts, hc]
        simp only [hentry]
        obtain ⟨st1, h1, h2, h3, h5, h6, h7⟩ :=
          ih { st with prev_region := r1, current_region := st.current_region, memory_dump := md1 }
            hdump1 hv hd hrest1
        refine ⟨st1, h1, h2, h3.trans hhdr1, h5, ?_, ?_⟩
        · rw [h6]
          simp only [hbase]
        · rw [h7]
          simp only [hbase]
      | some cmp =>
        simp only
        have hderef : (typed_ptr.deref ⟨st.current_region._data,
            (reloaded_entry T st.prev_region.base bytes i).address - st.current_region.base⟩ : T)
            = st.current_region.scalar_at_address T
                (reloaded_entry T st.prev_region.base bytes i).address := rfl
        rw [hderef, next_scan_success_eq type cmp hc]
        by_cases ha : next_pass_accepts type
            (st.current_region.scalar_at_address T
              (reloaded_entry T st.prev_region.base bytes i).address)
            (reloaded_entry T st.prev_region.base bytes i).value v1 v2 = true
        · have hentry : next_pass_entry type v1 v2 st.current_region
              (reloaded_entry T st.prev_region.base bytes i)
              = some { value := st.current_region.scalar_at_address T
                          (reloaded_entry T st.prev_region.base bytes i).address,
                       address := (reloaded_entry T st.prev_region.base bytes i).address } := by
            simp [next_pass_entry, hh, ha]
          simp only [ha, if_true, hentry]
          obtain ⟨st1, h1, h2, h3, h5, h6, h7⟩ :=
            ih { prev_region := r1, current_region := st.current_region, memory_dump := md1,
                 total_entries := st.total_entries + 1,
                 result := (st.result.add_element
                   { value := st.current_region.scalar_at_address T
                        (reloaded_entry T st.prev_region.base bytes i).address,
                     address := (reloaded_entry T st.prev_region.base bytes i).address }).set_type
                       type }
              hdump1 hv hd hrest1
          refine ⟨st1, h1, h2, h3.trans hhdr1, h5, ?_, ?_⟩
          · rw [h6]
            simp only [hbase, accepted_cons]
          · rw [h7]
            simp only [hbase, List.length_cons]
            omega
        · have hentry : next_pass_entry type v1 v2 st.current_region
              (reloaded_entry T st.prev_region.base bytes i) = none := by
            simp [next_pass_entry, ha]
          simp only [ha, Bool.false_eq_true, if_false, hentry]
          obtain ⟨st1, h1, h2, h3, h5, h6, h7⟩ :=
            ih { st with prev_region := r1, current_region := st.current_region, memory_dump := md1 }
              hdump1 hv hd hrest1
          refine ⟨st1, h1, h2, h3.trans hhdr1, h5, ?_, ?_⟩
          · rw [h6]
            simp only [hbase]
          · rw [h7]
            simp only [hbase]
    · have hentry : next_pass_entry type v1 v2 st.current_region
          (reloaded_entry T st.prev_region.base bytes i) = none := by
        simp [next_pass_entry, hh]
      simp only [hh, if_false, hentry]
      obtain ⟨st1, h1, h2, h3, h5, h6, h7⟩ :=
        ih { st with prev_region := r1, current_region := st.current_region, memory_dump := md1 }
          hdump1 hv hd hrest1
      refine ⟨st1, h1, h2, h3.trans hhdr1, h5, ?_, ?_⟩
      · rw [h6]
        simp only [hbase]
      · rw [h7]
        simp only [hbase]

/-- C10: in the task of `next_scan` for a pair of a prior result of type `unknown_value`, whose
region (base `b`, size `s`) was dumped with discard and shows `bytes` when reloaded from the
store, and a new region `R` that is read successfully, the new result's entries are exactly the
`{n_i, b + i * w}` for `i = 0 .. s / w - 1` in ascending order (`w = sizeof(T)`) such that the
region read holds a full scalar `n_i` at `b + i * w` and the requested comparator accepts
`n_i` against the scalar `x_i` reloaded from the dump at index `i` (as reference for the
relative types); the result carries the prior index and is inserted under it exactly when it
has entries. -/
theorem next_scan_task_unknown (p : process) (old_scan : scan_result T)
    (prev_region R : memory_region) (bytes : List Nat) (type : scan_type) (v1 : T)
    (v2 : Option T) (results : custom_map (scan_result T)) (total_entries : Nat) (g : globals)
    (hold : old_scan.type = some scan_type.unknown_value)
    (hreg : old_scan.associated_region = some prev_region)
    (hdump : prev_region.dumped_in g.memory_dump bytes)
    (hR : R._discarded = false)
    (hread : (scan_engine.read_memory p R).1 = true) :
    ∃ (result : scan_result T) (g1 : globals),
      next_scan_task p old_scan R type v1 v2 results total_entries g
          = some (if (List.range (prev_region.size / object_repr.sizeof T)).filterMap
                      (fun i => next_pass_entry type v1 v2 (scan_engine.read_memory p R).2
                        (reloaded_entry T prev_region.base bytes i)) = [] then results
                  else results.insert (old_scan.index : Int) result,
                  total_entries + ((List.range (prev_region.size / object_repr.sizeof T)).filterMap
                      (fun i => next_pass_entry type v1 v2 (scan_engine.read_memory p R).2
                        (reloaded_entry T prev_region.base bytes i))).length,
                  g1)
        ∧ result._data = (List.range (prev_region.size / object_repr.sizeof T)).filterMap
            (fun i => next_pass_entry type v1 v2 (scan_engine.read_memory p R).2
              (reloaded_entry T prev_region.base bytes i))
        ∧ result._header.size = result._data.length
        ∧ result.index = old_scan.index
        ∧ result.associated_region = some (scan_engine.read_memory p R).2
        ∧ g1.results = g.results := by
  obtain ⟨hv1, hd1, _⟩ := scan_engine.read_memory_ok p R hread
  rw [hR] at hd1
  have hpair : scan_engine.read_memory p R = (true, (scan_engine.read_memory p R).2) :=
    Prod.ext hread rfl
  generalize (scan_engine.read_memory p R).2 = R1 at hv1 hd1 hpair ⊢
  have hall : ∀ i ∈ List.range (prev_region.size / object_repr.sizeof T),
      (i + 1) * object_repr.sizeof T ≤ prev_region._header.size := by
    intro i hi
    have hlt : i + 1 ≤ prev_region.size / object_repr.sizeof T := List.mem_range.mp hi
    calc (i + 1) * object_repr.sizeof T
        ≤ prev_region.size / object_repr.sizeof T * object_repr.sizeof T :=
          Nat.mul_le_mul_right _ hlt
      _ ≤ prev_region.size := Nat.div_mul_le_self _ _
  obtain ⟨st1, hloop, _, _, hcur, hres, htot⟩ :=
    next_scan_elements_unknown type v1 v2 ([] : List (scan_entry T)) bytes
      (List.range (prev_region.size / object_repr.sizeof T))
      { prev_region := prev_region, current_region := R1,
        result := scan_result.ctor (some R1) old_scan.index,
        total_entries := total_entries, memory_dump := g.memory_dump } hdump hv1 hd1 hall
  simp only at hcur hres htot
  cases hf : (List.range (prev_region.size / object_repr.sizeof T)).filterMap
      (fun i => next_pass_entry type v1 v2 R1 (reloaded_entry T prev_region.base bytes i)) with
  | nil =>
    rw [hf] at hres htot
    refine ⟨{ (scan_result.ctor (some R1) old_scan.index : scan_result T) with
              _associated_region := some R1 },
            { memory_dump := st1.memory_dump, results := g.results }, ?_, rfl, rfl, rfl, rfl,
            rfl⟩
    simp only [next_scan_task, hpair, hreg, hold, if_true, hloop, hres, hcur, htot, accepted_nil]
    rw [elements_ram _ g.results rfl]
    simp [scan_result.ctor, dumpable.ctor]
  | cons a l =>
    rw [hf] at hres htot
    refine ⟨{ (scan_result.ctor (some R1) old_scan.index : scan_result T).accepted type (a :: l)
              with _associated_region := some R1 },
            { memory_dump := st1.memory_dump, results := g.results }, ?_, ?_, ?_, rfl, rfl,
            rfl⟩
    · simp only [next_scan_task, hpair, hreg, hold, if_true, hloop, hres, hcur, htot]
      rw [elements_ram _ g.results rfl]
      simp [scan_result.accepted, scan_result.pushed, scan_result.ctor, dumpable.ctor]
    · simp [scan_result.accepted, scan_result.pushed, scan_result.ctor, dumpable.ctor]
    · simp [scan_result.accepted, scan_result.pushed, scan_result.ctor, dumpable.ctor]


theorem next_scan_task_known_witness :
    (four_matches.type ≠ some scan_type.unknown_value
      ∧ four_matches._discarded = false
      ∧ four_matches.associated_region
          = some (region_holding 0x1000 16 (raw_bytes ([10, 20, 30, 40] : List int32_t)))
      ∧ (memory_region.ctor ⟨0x1000, 16, MEM_COMMIT, PAGE_READWRITE, 0x20000⟩)._discarded = false
      ∧ (scan_engine.read_memory
          (one_region_process 0x1000 (raw_bytes ([10, 21, 30, 39] : List int32_t)))
          (memory_region.ctor ⟨0x1000, 16, MEM_COMMIT, PAGE_READWRITE, 0x20000⟩)).1 = true)
    ∧ ∃ result : scan_result int32_t,
      next_scan_task (one_region_process 0x1000 (raw_bytes ([10, 21, 30, 39] : List int32_t)))
          four_matches (memory_region.ctor ⟨0x1000, 16, MEM_COMMIT, PAGE_READWRITE, 0x20000⟩)
          scan_type.increased_value 0 none custom_map.ctor 0 fresh_globals
          = some (if four_matches._data.filterMap
                      (next_pass_entry scan_type.increased_value 0 none
                        (scan_engine.read_memory
                          (one_region_process 0x1000 (raw_bytes ([10, 21, 30, 39] : List int32_t)))
                          (memory_region.ctor ⟨0x1000, 16, MEM_COMMIT, PAGE_READWRITE, 0x20000⟩)).2)
                      = [] then custom_map.ctor
                  else (custom_map.ctor : custom_map (scan_result int32_t)).insert
                    (four_matches.index : Int) result,
                  0 + (four_matches._data.filterMap
                      (next_pass_entry scan_type.increased_value 0 none
                        (scan_engine.read_memory
                          (one_region_process 0x1000 (raw_bytes ([10, 21, 30, 39] : List int32_t)))
                          (memory_region.ctor ⟨0x1000, 16, MEM_COMMIT, PAGE_READWRITE, 0x20000⟩)).2)).length,
                  fresh_globals)
        ∧ result._data = four_matches._data.filterMap
            (next_pass_entry scan_type.increased_value 0 none
              (scan_engine.read_memory
                (one_region_process 0x1000 (raw_bytes ([10, 21, 30, 39] : List int32_t)))
                (memory_region.ctor ⟨0x1000, 16, MEM_COMMIT, PAGE_READWRITE, 0x20000⟩)).2)
        ∧ result._header.size = result._data.length
        ∧ result.index = four_matches.index
        ∧ result.associated_region = some (scan_engine.read_memory
            (one_region_process 0x1000 (raw_bytes ([10, 21, 30, 39] : List int32_t)))
            (memory_region.ctor ⟨0x1000, 16, MEM_COMMIT, PAGE_READWRITE, 0x20000⟩)).2 :=
  ⟨⟨by decide, rfl, rfl, rfl, rfl⟩,
   next_scan_task_known (one_region_process 0x1000 (raw_bytes ([10, 21, 30, 39] : List int32_t)))
     four_matches (region_holding 0x1000 16 (raw_bytes ([10, 20, 30, 40] : List int32_t)))
     (memory_region.ctor ⟨0x1000, 16, MEM_COMMIT, PAGE_READWRITE, 0x20000⟩)
     scan_type.increased_value 0 none custom_map.ctor 0 fresh_globals
     (by decide) rfl rfl rfl rfl⟩

theorem next_scan_task_unknown_witness :
    (((scan_result.ctor (some (dumped_region 0x1000 12 0)) 0 : scan_result int32_t).set_type
          scan_type.unknown_value).type = some scan_type.unknown_value
      ∧ ((scan_result.ctor (some (dumped_region 0x1000 12 0)) 0 : scan_result int32_t).set_type
          scan_type.unknown_value).associated_region = some (dumped_region 0x1000 12 0)
      ∧ (dumped_region 0x1000 12 0).dumped_in
          (globals_holding (raw_bytes ([7, 8, 9] : List int32_t))).memory_dump
          (raw_bytes ([7, 8, 9] : List int32_t))
      ∧ (memory_region.ctor ⟨0x1000, 12, MEM_COMMIT, PAGE_READWRITE, 0x20000⟩)._discarded = false
      ∧ (scan_engine.read_memory
          (one_region_process 0x1000 (raw_bytes ([7, 9, 9] : List int32_t)))
          (memory_region.ctor ⟨0x1000, 12, MEM_COMMIT, PAGE_READWRITE, 0x20000⟩)).1 = true)
    ∧ ∃ (result : scan_result int32_t) (g1 : globals),
      next_scan_task (one_region_process 0x1000 (raw_bytes ([7, 9, 9] : List int32_t)))
          ((scan_result.ctor (some (dumped_region 0x1000 12 0)) 0 : scan_result int32_t).set_type
            scan_type.unknown_value)
          (memory_region.ctor ⟨0x1000, 12, MEM_COMMIT, PAGE_READWRITE, 0x20000⟩)
          scan_type.changed 0 none custom_map.ctor 0
          (globals_holding (raw_bytes ([7, 8, 9] : List int32_t)))
          = some (if (List.range ((dumped_region 0x1000 12 0).size / object_repr.sizeof int32_t)).filterMap
                      (fun i => next_pass_entry scan_type.changed 0 none
                        (scan_engine.read_memory
                          (one_region_process 0x1000 (raw_bytes ([7, 9, 9] : List int32_t)))
                          (memory_region.ctor ⟨0x1000, 12, MEM_COMMIT, PAGE_READWRITE, 0x20000⟩)).2
                        (reloaded_entry int32_t (dumped_region 0x1000 12 0).base
                          (raw_bytes ([7, 8, 9] : List int32_t)) i)) = [] then custom_map.ctor
                  else (custom_map.ctor : custom_map (scan_result int32_t)).insert
                    ((((scan_result.ctor (some (dumped_region 0x1000 12 0)) 0
                        : scan_result int32_t).set_type scan_type.unknown_value).index : Nat) : Int)
                    result,
                  0 + ((List.range ((dumped_region 0x1000 12 0).size / object_repr.sizeof int32_t)).filterMap
                      (fun i => next_pass_entry scan_type.changed 0 none
                        (scan_engine.read_memory
                          (one_region_process 0x1000 (raw_bytes ([7, 9, 9] : List int32_t)))
                          (memory_region.ctor ⟨0x1000, 12, MEM_COMMIT, PAGE_READWRITE, 0x20000⟩)).2
                        (reloaded_entry int32_t (dumped_region 0x1000 12 0).base
                          (raw_bytes ([7, 8, 9] : List int32_t)) i))).length,
                  g1)
        ∧ result._data
            = (List.range ((dumped_region 0x1000 12 0).size / object_repr.sizeof int32_t)).filterMap
                (fun i => next_pass_entry scan_type.changed 0 none
                  (scan_engine.read_memory
                    (one_region_process 0x1000 (raw_bytes ([7, 9, 9] : List int32_t)))
                    (memory_region.ctor ⟨0x1000, 12, MEM_COMMIT, PAGE_READWRITE, 0x20000⟩)).2
                  (reloaded_entry int32_t (dumped_region 0x1000 12 0).base
                    (raw_bytes ([7, 8, 9] : List int32_t)) i))
        ∧ result._header.size = result._data.length
        ∧ result.index = ((scan_result.ctor (some (dumped_region 0x1000 12 0)) 0
            : scan_result int32_t).set_type scan_type.unknown_value).index
        ∧ result.associated_region = some (scan_engine.read_memory
            (one_region_process 0x1000 (raw_bytes ([7, 9, 9] : List int32_t)))
            (memory_region.ctor ⟨0x1000, 12, MEM_COMMIT, PAGE_READWRITE, 0x20000⟩)).2
        ∧ g1.results = (globals_holding (raw_bytes ([7, 8, 9] : List int32_t))).results :=
  ⟨⟨rfl, rfl,
     (memory_region.dumped_in_of_store (dumped_region 0x1000 12 0)
       (globals_holding (raw_bytes ([7, 8, 9] : List int32_t))).memory_dump 0 rfl rfl rfl rfl rfl
       ⟨rfl, by decide⟩ (by decide) (by decide)),
     rfl, rfl⟩,
   next_scan_task_unknown (one_region_process 0x1000 (raw_bytes ([7, 9, 9] : List int32_t)))
     ((scan_result.ctor (some (dumped_region 0x1000 12 0)) 0 : scan_result int32_t).set_type
        scan_type.unknown_value)
     (dumped_region 0x1000 12 0)
     (memory_region.ctor ⟨0x1000, 12, MEM_COMMIT, PAGE_READWRITE, 0x20000⟩)
     (raw_bytes ([7, 8, 9] : List int32_t))
     scan_type.changed 0 none custom_map.ctor 0
     (globals_holding (raw_bytes ([7, 8, 9] : List int32_t)))
     rfl rfl
     (memory_region.dumped_in_of_store (dumped_region 0x1000 12 0)
       (globals_holding (raw_bytes ([7, 8, 9] : List int32_t))).memory_dump 0 rfl rfl rfl rfl rfl
       ⟨rfl, by decide⟩ (by decide) (by decide))
     rfl rfl⟩

/-- The entry lists of the two examples above, evaluated: against 10, 21, 30, 39 the pass
`increased_value` keeps one of the four prior entries, `{21, 0x1004}`; against 7, 9, 9 the
pass `changed` over the dump of 7, 8, 9 gives one entry, `{9, 0x1004}`, the second element. -/
theorem next_pass_entries_scenarios :
    four_matches._data.filterMap
        (next_pass_entry scan_type.increased_value 0 none
          (scan_engine.read_memory
            (one_region_process 0x1000 (raw_bytes ([10, 21, 30, 39] : List int32_t)))
            (memory_region.ctor ⟨0x1000, 16, MEM_COMMIT, PAGE_READWRITE, 0x20000⟩)).2)
      = [⟨21, 0x1004⟩]
    ∧ (List.range ((dumped_region 0x1000 12 0).size / object_repr.sizeof int32_t)).filterMap
        (fun i => next_pass_entry scan_type.changed 0 none
          (scan_engine.read_memory
            (one_region_process 0x1000 (raw_bytes ([7, 9, 9] : List int32_t)))
            (memory_region.ctor ⟨0x1000, 12, MEM_COMMIT, PAGE_READWRITE, 0x20000⟩)).2
          (reloaded_entry int32_t (dumped_region 0x1000 12 0).base
            (raw_bytes ([7, 8, 9] : List int32_t)) i))
      = [⟨9, 0x1004⟩] := by
  constructor <;> decide

/-- Two scenarios of the spec through `scan`.  A seed pass `bigger_than` 0 over 10, 20, 30, 40
at `0x1000` returns 4, and after the target changes to 10, 21, 30, 39 the pass
`increased_value` returns 1 and stores `{21, 0x1004}`.  A seed pass `unknown_value` over
7, 8, 9 returns 0, and after the target changes to 7, 9, 9 the pass `changed` returns 1 and
stores `{9, 0x1004}`, the second element. -/
theorem scan_two_pass_scenarios :
    (((scan_engine_templated.ctor 1 : scan_engine_templated int32_t).scan
        (one_region_process 0x1000 (raw_bytes ([10, 20, 30, 40] : List int32_t)))
        (0x1000, 0x1010) scan_type.bigger_than 0 none fresh_globals 4).bind
      (fun r => (r.2.1.scan
        (one_region_process 0x1000 (raw_bytes ([10, 21, 30, 39] : List int32_t)))
        (0x1000, 0x1010) scan_type.increased_value 0 none r.2.2 4).map
          (fun r2 => (r.1, r2.1, map_entries r2.2.1._prev_scan_results))))
      = some (4, 1, [(0, [(0x1004, 21)])])
    ∧ (((scan_engine_templated.ctor 1 : scan_engine_templated int32_t).scan
        (one_region_process 0x1000 (raw_bytes ([7, 8, 9] : List int32_t)))
        (0x1000, 0x100c) scan_type.unknown_value 0 none fresh_globals 4).bind
      (fun r => (r.2.1.scan
        (one_region_process 0x1000 (raw_bytes ([7, 9, 9] : List int32_t)))
        (0x1000, 0x100c) scan_type.changed 0 none r.2.2 4).map
          (fun r2 => (r.1, r2.1, map_entries r2.2.1._prev_scan_results))))
      = some (0, 1, [(0, [(0x1004, 9)])]) := by
  constructor <;> rfl

end scan_engine_templated

/-! ## Region clamping and the size after a read -/

namespace scan_engine

theorem clamp_to_range_base (range : Nat × Nat) (mbi : MEMORY_BASIC_INFORMATION) :
    (clamp_to_range range mbi).BaseAddress = max mbi.BaseAddress range.1 := by
  unfold clamp_to_range
  by_cases h : mbi.BaseAddress < range.1
  · simp only [h, if_true]
    split <;> (try simp only []) <;> omega
  · simp only [h, if_false]
    split <;> (try simp only []) <;> omega

theorem clamp_to_range_end (range : Nat × Nat) (mbi : MEMORY_BASIC_INFORMATION)
    (h : max mbi.BaseAddress range.1 ≤ range.2) :
    (clamp_to_range range mbi).BaseAddress + (clamp_to_range range mbi).RegionSize
      = min (max mbi.BaseAddress range.1 + mbi.RegionSize) range.2 := by
  unfold clamp_to_range
  by_cases h1 : mbi.BaseAddress < range.1
  · simp only [h1, if_true]
    split <;> (try simp only []) <;> omega
  · simp only [h1, if_false]
    split <;> (try simp only []) <;> omega

/-- An answer of the OS that starts inside the range is clamped to its intersection with the
range. -/
theorem clamp_to_range_inside (range : Nat × Nat) (mbi : MEMORY_BASIC_INFORMATION)
    (hlo : range.1 ≤ mbi.BaseAddress) (hhi : mbi.BaseAddress ≤ range.2) :
    (clamp_to_range range mbi).BaseAddress = max mbi.BaseAddress range.1
      ∧ (clamp_to_range range mbi).BaseAddress + (clamp_to_range range mbi).RegionSize
          = min (mbi.BaseAddress + mbi.RegionSize) range.2 := by
  refine ⟨clamp_to_range_base range mbi, ?_⟩
  rw [clamp_to_range_end range mbi (by omega)]
  have : max mbi.BaseAddress range.1 = mbi.BaseAddress := by omega
  rw [this]

theorem get_regions_inside_page (bytes : List Nat) (h : bytes.length = 0x1000) :
    (one_region_process 0x1000 bytes).VirtualQueryEx 0x1800
        = some ⟨0x1000, 0x1000, MEM_COMMIT, PAGE_READWRITE, 0x20000⟩
      ∧ (get_regions (one_region_process 0x1000 bytes) (0x1800, 0x4000)
            (PAGE_READWRITE ||| PAGE_WRITECOPY) 4).map
          (List.map (fun r => (r.base, r.size))) = some [(0x1800, 0x1000)]
      ∧ (read_memory (one_region_process 0x1000 bytes)
          (memory_region.ctor ⟨0x1800, 0x1000, MEM_COMMIT, PAGE_READWRITE, 0x20000⟩)).1 = false := by
  have hq1 : (one_region_process 0x1000 bytes).VirtualQueryEx 0x1800
      = some ⟨0x1000, 0x1000, MEM_COMMIT, PAGE_READWRITE, 0x20000⟩ := by
    simp [one_region_process, h]
  have hq2 : (one_region_process 0x1000 bytes).VirtualQueryEx 0x2800
      = some ⟨0x2800, 0x10000, 0x10000, 0x01, 0⟩ := by
    simp [one_region_process, h]
  have hc1 : clamp_to_range (0x1800, 0x4000) ⟨0x1000, 0x1000, MEM_COMMIT, PAGE_READWRITE, 0x20000⟩
      = ⟨0x1800, 0x1000, MEM_COMMIT, PAGE_READWRITE, 0x20000⟩ := rfl
  have hc2 : clamp_to_range (0x1800, 0x4000) ⟨0x2800, 0x10000, 0x10000, 0x01, 0⟩
      = ⟨0x2800, 0x1800, 0x10000, 0x01, 0⟩ := rfl
  refine ⟨hq1, ?_, ?_⟩
  · have e1 : get_regions_loop (one_region_process 0x1000 bytes) (0x1800, 0x4000)
        (PAGE_READWRITE ||| PAGE_WRITECOPY) 2 0x4000 = some [] := by
      simp [get_regions_loop]
    have e2 : get_regions_loop (one_region_process 0x1000 bytes) (0x1800, 0x4000)
        (PAGE_READWRITE ||| PAGE_WRITECOPY) 3 0x2800 = some [] := by
      rw [get_regions_loop]
      simp only [hq2, hc2]
      rw [e1]
      rfl
    rw [get_regions, get_regions_loop]
    simp only [hq1, hc1]
    rw [e2]
    rfl
  · simp [read_memory, memory_region.read_data, one_region_process, memory_region.ctor,
      dumpable.ctor, h]

/-- C14: a range that starts inside an OS region.  The target has one committed read-write
region `[0x1000, 0x2000)`, the range is `[0x1800, 0x4000)`.  The query at the cursor `0x1800`
answers `(B, S) = (0x1000, 0x1000)`; the clamping raises the base to `0x1800` and keeps the size
`0x1000`, so the snapshot `get_regions` enqueues is `[0x1800, 0x2800)`: it ends `0x800` bytes
past the end `0x2000` of the OS region, `min(B + S, hi) = 0x2000` is not its end, and the read
of the snapshot fails. -/
theorem get_regions_base_raised_keeps_size :
    (one_region_process 0x1000 (List.replicate 0x1000 7)).VirtualQueryEx 0x1800
        = some ⟨0x1000, 0x1000, MEM_COMMIT, PAGE_READWRITE, 0x20000⟩
      ∧ clamp_to_range (0x1800, 0x4000) ⟨0x1000, 0x1000, MEM_COMMIT, PAGE_READWRITE, 0x20000⟩
          = ⟨0x1800, 0x1000, MEM_COMMIT, PAGE_READWRITE, 0x20000⟩
      ∧ (get_regions (one_region_process 0x1000 (List.replicate 0x1000 7)) (0x1800, 0x4000)
            (PAGE_READWRITE ||| PAGE_WRITECOPY) 4).map
          (List.map (fun r => (r.base, r.size))) = some [(0x1800, 0x1000)]
      ∧ 0x1800 + 0x1000 ≠ min (0x1000 + 0x1000) 0x4000
      ∧ (read_memory (one_region_process 0x1000 (List.replicate 0x1000 7))
          (memory_region.ctor ⟨0x1800, 0x1000, MEM_COMMIT, PAGE_READWRITE, 0x20000⟩)).1 = false :=
  ⟨(get_regions_inside_page _ (List.length_replicate _ _)).1, rfl,
   (get_regions_inside_page _ (List.length_replicate _ _)).2.1, by decide,
   (get_regions_inside_page _ (List.length_replicate _ _)).2.2⟩

end scan_engine

namespace memory_region

/-- C16: a reader that reports success after a short read.  On a snapshot of size 8 the reader
delivers the 4 bytes 1, 2, 3, 4 and reports success: `read_data` returns true, the header size
is 4 and the record is valid, but the payload and the view keep the 8 bytes of the buffer
(`resize` is called with the old `_header.size`). -/
theorem read_data_short_read_keeps_length :
    ((memory_region.ctor ⟨0x1000, 8, MEM_COMMIT, PAGE_READWRITE, 0x20000⟩).read_data
        (fun _ buffer _ => (true, memcpy buffer 0 [1, 2, 3, 4], 4))).1 = true
      ∧ ((memory_region.ctor ⟨0x1000, 8, MEM_COMMIT, PAGE_READWRITE, 0x20000⟩).read_data
        (fun _ buffer _ => (true, memcpy buffer 0 [1, 2, 3, 4], 4))).2.1._header.size = 4
      ∧ ((memory_region.ctor ⟨0x1000, 8, MEM_COMMIT, PAGE_READWRITE, 0x20000⟩).read_data
        (fun _ buffer _ => (true, memcpy buffer 0 [1, 2, 3, 4], 4))).2.1._valid = true
      ∧ ((memory_region.ctor ⟨0x1000, 8, MEM_COMMIT, PAGE_READWRITE, 0x20000⟩).read_data
        (fun _ buffer _ => (true, memcpy buffer 0 [1, 2, 3, 4], 4))).2.1._data
          = [1, 2, 3, 4, 0, 0, 0, 0]
      ∧ ((memory_region.ctor ⟨0x1000, 8, MEM_COMMIT, PAGE_READWRITE, 0x20000⟩).read_data
        (fun _ buffer _ => (true, memcpy buffer 0 [1, 2, 3, 4], 4))).2.1._data_map
          = [1, 2, 3, 4, 0, 0, 0, 0] := by
  refine ⟨rfl, rfl, rfl, rfl, rfl⟩

/-- What `read_data` does hold to: a reader that fails leaves the payload and the view empty and
the record invalid; a reader that succeeds having filled the whole buffer leaves a valid record
whose payload and view have `header.size` bytes. -/
theorem read_data_full_or_failed (r : memory_region)
    (read_func : Nat → List Nat → Nat → Bool × List Nat × Nat) :
    ((read_func r._header.base (resize r._data r._header.size) r._header.size).1 = false →
        (r.read_data read_func).1 = false ∧ (r.read_data read_func).2.1._data = []
          ∧ (r.read_data read_func).2.1._data_map = []
          ∧ (r.read_data read_func).2.1._valid = false)
      ∧ ((read_func r._header.base (resize r._data r._header.size) r._header.size).1 = true →
          (read_func r._header.base (resize r._data r._header.size) r._header.size).2.2
            = r._header.size →
          (read_func r._header.base (resize r._data r._header.size) r._header.size).2.1.length
            = r._header.size →
          (r.read_data read_func).1 = true ∧ (r.read_data read_func).2.1._valid = true
            ∧ (r.read_data read_func).2.1._header.size = r._header.size
            ∧ (r.read_data read_func).2.1._data.length = r._header.size
            ∧ (r.read_data read_func).2.1._data_map = (r.read_data read_func).2.1._data) := by
  unfold read_data
  simp only
  generalize read_func r._header.base (resize r._data r._header.size) r._header.size = out
  obtain ⟨ok, data1, n⟩ := out
  cases ok with
  | false => simp
  | true =>
    simp only [Bool.true_eq_false, false_implies, true_and, forall_const]
    intro hn hl
    subst hn
    simp [hl]

end memory_region

/-! ## Typed access to a snapshot -/

namespace memory_region

theorem at_offset_invalid (w : Nat) (r : memory_region) (md : file_dump) (offset : Nat)
    (hv : r._valid = false) : r.at_offset w md offset = some (none, r, md) := by
  unfold at_offset
  by_cases h : offset + w > r._header.size
  · simp [h]
  · simp [h, hv]

theorem contains_iff (r : memory_region) (a : Nat) :
    r.contains a = true ↔ r.base ≤ a ∧ a ≤ r.base + r.size := by
  unfold contains
  by_cases h : a < r.base ∨ a > r.base + r.size
  · simp only [h, if_true, Bool.false_eq_true, false_iff]
    omega
  · simp only [h, if_false, true_iff]
    omega

theorem at_offset_size_t_eq (w : Nat) (r : memory_region) (md : file_dump) (offset : Nat)
    (h : offset + w < size_t_range) : r.at_offset_size_t w md offset = r.at_offset w md offset := by
  unfold at_offset_size_t at_offset
  rw [Nat.mod_eq_of_lt h]

theorem at_index_size_t_eq (w : Nat) (r : memory_region) (md : file_dump) (i : Nat)
    (h : (i + 1) * w < size_t_range) : r.at_index_size_t w md i = r.at_index w md i := by
  have h1 : i * w + w = (i + 1) * w := by rw [Nat.add_mul, Nat.one_mul]
  have h2 : i * w < size_t_range := by omega
  unfold at_index_size_t at_index
  simp only
  rw [Nat.mod_eq_of_lt h, Nat.mod_eq_of_lt h2, at_offset_size_t_eq w r md (i * w) (by omega)]

theorem at_address_size_t_eq (w : Nat) (r : memory_region) (md : file_dump) (a : Nat)
    (h : r.size + w < size_t_range) : r.at_address_size_t w md a = r.at_address w md a := by
  unfold at_address_size_t at_address
  by_cases hc : r.contains a = true
  · simp only [hc, Bool.not_true, Bool.false_eq_true, if_false]
    have hle := ((contains_iff r a).mp hc).2
    exact at_offset_size_t_eq w r md (a - r.base) (by omega)
  · simp [hc]

/-- The typed accessors as the code computes them, as long as nothing wraps.  On a valid,
non-discarded snapshot with base `b` and size `s`, for a width `w > 0` with `s + w < 2^64`:
`at_address(a)` is non-null exactly when `b ≤ a` and `(a - b) + w ≤ s`, and then points at
payload byte offset `a - b`; for an index with `(i + 1) * w < 2^64`, `at_index(i)` is non-null
exactly when `(i + 1) * w ≤ s`, points at offset `i * w` and is the pointer
`at_address(b + i * w)` gives; `at_address(b + s)` is null although `contains(b + s)` is true,
`contains(a)` being `b ≤ a ≤ b + s`; and on an invalid record the three accessors return null
for every argument. -/
theorem typed_access_in_range (w : Nat) (r : memory_region) (md : file_dump) (hw : 0 < w)
    (hs : r.size + w < size_t_range) :
    (r._valid = true → r._discarded = false →
        (∀ a, r.at_address_size_t w md a
            = some (if r.base ≤ a ∧ a - r.base + w ≤ r.size then some ⟨r._data, a - r.base⟩
                    else none, r, md))
          ∧ (∀ i, (i + 1) * w < size_t_range → r.at_index_size_t w md i
              = some (if (i + 1) * w ≤ r.size then some ⟨r._data, i * w⟩ else none, r, md))
          ∧ (∀ i, (i + 1) * w < size_t_range →
              r.at_index_size_t w md i = r.at_address_size_t w md (r.base + i * w))
          ∧ r.at_address_size_t w md (r.base + r.size) = some (none, r, md))
      ∧ r.contains (r.base + r.size) = true
      ∧ (∀ a, r.contains a = true ↔ r.base ≤ a ∧ a ≤ r.base + r.size)
      ∧ (r._valid = false → ∀ x,
          r.at_offset_size_t w md x = some (none, r, md)
            ∧ r.at_index_size_t w md x = some (none, r, md)
            ∧ r.at_address_size_t w md x = some (none, r, md)) := by
  have hinv : r._valid = false → ∀ x, r.at_offset_size_t w md x = some (none, r, md) := by
    intro hv x
    unfold at_offset_size_t
    by_cases h : (x + w) % size_t_range > r._header.size
    · simp [h]
    · simp [h, hv]
  refine ⟨?_, ?_, contains_iff r, ?_⟩
  · intro hv hd
    have haddr : ∀ a, r.at_address_size_t w md a
        = some (if r.base ≤ a ∧ a - r.base + w ≤ r.size then some ⟨r._data, a - r.base⟩
                else none, r, md) := by
      intro a
      rw [at_address_size_t_eq w r md a hs, at_address_ram w r md a hv hd]
      rfl
    have hidx : ∀ i, (i + 1) * w < size_t_range → r.at_index_size_t w md i
        = some (if (i + 1) * w ≤ r.size then some ⟨r._data, i * w⟩ else none, r, md) := by
      intro i hi
      rw [at_index_size_t_eq w r md i hi]
      exact at_index_ram w r md i hv hd
    refine ⟨haddr, hidx, ?_, ?_⟩
    · intro i hi
      rw [haddr, hidx i hi]
      have h1 : r.base + i * w - r.base = i * w := by omega
      have h2 : (i + 1) * w = i * w + w := by rw [Nat.add_mul]; omega
      rw [h1, h2]
      simp
    · rw [haddr]
      have h1 : ¬ (r.base ≤ r.base + r.size ∧ r.base + r.size - r.base + w ≤ r.size) := by omega
      simp only [h1, if_false]
  · exact (contains_iff r _).mpr ⟨by omega, le_refl _⟩
  · intro hv x
    refine ⟨hinv hv x, ?_, ?_⟩
    · unfold at_index_size_t
      by_cases h : ((x + 1) * w) % size_t_range > r._header.size
      · simp only [h, if_true]
      · simp only [h, if_false]
        exact hinv hv _
    · unfold at_address_size_t
      by_cases h : r.contains x = true
      · simp only [h, Bool.not_true, Bool.false_eq_true, if_false]
        exact hinv hv _
      · simp [h]

/-- C18: the bounds check of `at_index` wraps.  On the valid, non-discarded snapshot of the
four 32-bit values 10, 20, 30, 40 at `0x1000` (size 16), `at_index<int>(2^62)` is not null
although `(2^62 + 1) * 4 > 16`: in `size_t` the product `(2^62 + 1) * 4` is 4 and the offset
`2^62 * 4` is 0, so the call returns the pointer `at_index<int>(0)` returns, the one to the
first element, 10.  The range check of `at_offset` wraps the same way: `at_offset<int>` at the
offset `2^64 - 4` passes it and returns a pointer `2^64 - 4` bytes past the payload's start. -/
theorem at_index_wraps_to_first_element :
    (region_holding 0x1000 16 (raw_bytes ([10, 20, 30, 40] : List int32_t)))._valid = true
      ∧ (region_holding 0x1000 16 (raw_bytes ([10, 20, 30, 40] : List int32_t)))._discarded
          = false
      ∧ ¬ ((4611686018427387904 + 1) * 4
            ≤ (region_holding 0x1000 16 (raw_bytes ([10, 20, 30, 40] : List int32_t))).size)
      ∧ (region_holding 0x1000 16 (raw_bytes ([10, 20, 30, 40] : List int32_t))).at_index_size_t 4
            (file_dump.ctor ⟨[], []⟩) 4611686018427387904
          = some (some ⟨raw_bytes ([10, 20, 30, 40] : List int32_t), 0⟩,
              region_holding 0x1000 16 (raw_bytes ([10, 20, 30, 40] : List int32_t)),
              file_dump.ctor ⟨[], []⟩)
      ∧ (region_holding 0x1000 16 (raw_bytes ([10, 20, 30, 40] : List int32_t))).at_index_size_t 4
            (file_dump.ctor ⟨[], []⟩) 4611686018427387904
          = (region_holding 0x1000 16 (raw_bytes ([10, 20, 30, 40] : List int32_t))).at_index_size_t
              4 (file_dump.ctor ⟨[], []⟩) 0
      ∧ (typed_ptr.deref ⟨raw_bytes ([10, 20, 30, 40] : List int32_t), 0⟩ : int32_t) = 10
      ∧ (region_holding 0x1000 16 (raw_bytes ([10, 20, 30, 40] : List int32_t))).at_offset_size_t
            4 (file_dump.ctor ⟨[], []⟩) 18446744073709551612
          = some (some ⟨raw_bytes ([10, 20, 30, 40] : List int32_t), 18446744073709551612⟩,
              region_holding 0x1000 16 (raw_bytes ([10, 20, 30, 40] : List int32_t)),
              file_dump.ctor ⟨[], []⟩) := by
  refine ⟨rfl, rfl, by decide, rfl, rfl, rfl, rfl⟩

end memory_region

/-! ## The short circuit of load -/

/-- C17, as stated, fails on a scan result filled with `add_element`: the RAM vector holds one
entry and the result was never discarded, but the view `_data_map` is empty, so `load` goes to
the store at the offset 0 of the constructor.  Over a store whose next OS call fails it returns
false; over a fresh store it maps the 16 bytes of one entry, lengthening the file to 16 bytes. -/
theorem load_of_filled_result_reads_store :
    ((scan_result.ctor none 0 : scan_result int32_t).add_element ⟨30, 0x1008⟩)._data
        = [⟨30, 0x1008⟩]
      ∧ ((scan_result.ctor none 0 : scan_result int32_t).add_element ⟨30, 0x1008⟩)._discarded
          = false
      ∧ ((((scan_result.ctor none 0 : scan_result int32_t).add_element
              ⟨30, 0x1008⟩).todumpable.load ⟨⟨[], [true]⟩, 0, [], 0⟩).map (fun o => o.1))
          = some false
      ∧ ((((scan_result.ctor none 0 : scan_result int32_t).add_element
              ⟨30, 0x1008⟩).todumpable.load (file_dump.ctor ⟨[], []⟩)).map
            (fun o => (o.1, o.2.2.disk.bytes.length)))
          = some (true, 16) := by
  refine ⟨rfl, rfl, rfl, rfl⟩

/-- C17, amended: `load` returns success at once, leaving the record and the store as they are,
on every record whose view `_data_map` is not empty; a region snapshot that `read_data` filled
with at least one byte is such a record, whatever the store would answer. -/
theorem load_short_circuit {Header DataType : Type} [sized_header Header] [object_repr DataType]
    (d : dumpable Header DataType) (file : file_dump) (h : d._data_map ≠ []) :
    d.load file = some (true, d, file)
      ∧ ∀ (r : memory_region) (read_func : Nat → List Nat → Nat → Bool × List Nat × Nat),
          (r.read_data read_func).1 = true → (r.read_data read_func).2.1._data ≠ [] →
          (r.read_data read_func).2.1.load file = some (true, (r.read_data read_func).2.1, file) := by
  have key : ∀ {H D : Type} [sized_header H] [object_repr D] (d : dumpable H D) (f : file_dump),
      d._data_map ≠ [] → d.load f = some (true, d, f) := by
    intro H D _ _ d f hd
    have : d._data_map.isEmpty = false := by
      cases hm : d._data_map with
      | nil => exact absurd hm hd
      | cons a l => rfl
    simp [dumpable.load, this]
  refine ⟨key d file h, ?_⟩
  intro r read_func hok hdata
  have hview : (r.read_data read_func).2.1._data_map = (r.read_data read_func).2.1._data := by
    unfold memory_region.read_data at hok ⊢
    simp only at hok ⊢
    split at hok
    · rename_i heq
      simp [heq]
    · simp at hok
  have := key (r.read_data read_func).2.1.todumpable file (by rw [hview]; exact hdata)
  simp only [memory_region.load, this]

theorem load_short_circuit_witness :
    (region_holding 0x1000 16 (raw_bytes ([10, 20, 30, 40] : List int32_t)))._data_map ≠ []
      ∧ (region_holding 0x1000 16 (raw_bytes ([10, 20, 30, 40] : List int32_t))).todumpable.load
            ⟨⟨[], [true]⟩, 0, [], 0⟩
          = some (true,
              (region_holding 0x1000 16 (raw_bytes ([10, 20, 30, 40] : List int32_t))).todumpable,
              ⟨⟨[], [true]⟩, 0, [], 0⟩) :=
  ⟨by decide,
   (load_short_circuit
      (region_holding 0x1000 16 (raw_bytes ([10, 20, 30, 40] : List int32_t))).todumpable
      ⟨⟨[], [true]⟩, 0, [], 0⟩ (by decide)).1⟩

/-! ## The join walk of next_scan -/

namespace scan_engine_templated
variable {T : Type} [scalar T]

/-- C12: one step of the walk of `next_scan`, on the prior result `old` found under the current
key (its region has base `ob` and size `os`) and the new region `R` popped with it.  The pair is
handed to a task exactly when `ob + os ≥ R.base` and `ob < R.base + R.size`, and the walk goes
on without `old` in the prior map; when `ob + os < R.base` no task is made and `old` is erased
from the prior map at this step; otherwise the prior map is left as it is.  After the erase the
key is not in the prior map. -/
theorem next_scan_loop_step (p : process) (type : scan_type) (v1 : T) (v2 : Option T)
    (key : Int) (keys : List Int) (R : memory_region) (regions : List memory_region)
    (prev_scan results : custom_map (scan_result T)) (total_entries : Nat) (g : globals)
    (old : scan_result T) (r : memory_region)
    (hat : prev_scan.«at» key = some old) (hreg : old.associated_region = some r) :
    next_scan_loop p type v1 v2 (key :: keys) (R :: regions) prev_scan results total_entries g
        = (if r.base + r.size ≥ R.base ∧ r.base < R.base + R.size then
            (next_scan_task p old R type v1 v2 results total_entries g).bind
              (fun out => next_scan_loop p type v1 v2 keys regions (prev_scan.erase key).2
                out.1 out.2.1 out.2.2)
          else if r.base + r.size < R.base then
            next_scan_loop p type v1 v2 keys regions (prev_scan.erase key).2 results
              total_entries g
          else
            next_scan_loop p type v1 v2 keys regions prev_scan results total_entries g)
      ∧ (prev_scan.erase key).2.contains key = false := by
  constructor
  · have hb : old.region_base = some r.base := by
      simp only [scan_result.region_base]
      rw [show old._associated_region = some r from hreg]
      rfl
    have hs : old.region_size = some r.size := by
      simp only [scan_result.region_size]
      rw [show old._associated_region = some r from hreg]
      rfl
    rw [next_scan_loop]
    simp only [hat, hb, hs]
    by_cases h1 : r.base + r.size < R.base
    · have h2 : ¬ (r.base + r.size ≥ R.base ∧ r.base < R.base + R.size) := by omega
      simp only [h1, h2, if_true, if_false]
    · by_cases h3 : r.base < R.base + R.size
      · have h2 : r.base + r.size ≥ R.base ∧ r.base < R.base + R.size := ⟨by omega, h3⟩
        simp only [h1, h2, h3, and_self, if_true, if_false]
        cases next_scan_task p old R type v1 v2 results total_entries g with
        | none => rfl
        | some out => rfl
      · have h2 : ¬ (r.base + r.size ≥ R.base ∧ r.base < R.base + R.size) := by
          intro h
          exact h3 h.2
        rw [if_neg h2, if_neg h1]
        simp only [h1, h3, if_false]
  · simp [custom_map.erase, custom_map.contains]

theorem next_scan_loop_step_witness :
    (((custom_map.ctor : custom_map (scan_result int32_t)).insert 0 four_matches).«at» 0
          = some four_matches
        ∧ four_matches.associated_region
            = some (region_holding 0x1000 16 (raw_bytes ([10, 20, 30, 40] : List int32_t))))
      ∧ (next_scan_loop (one_region_process 0x1000 (raw_bytes ([10, 21, 30, 39] : List int32_t)))
            scan_type.increased_value (0 : int32_t) none [0]
            [memory_region.ctor ⟨0x1000, 16, MEM_COMMIT, PAGE_READWRITE, 0x20000⟩]
            ((custom_map.ctor : custom_map (scan_result int32_t)).insert 0 four_matches)
            custom_map.ctor 0 fresh_globals
          = (if (region_holding 0x1000 16 (raw_bytes ([10, 20, 30, 40] : List int32_t))).base
                  + (region_holding 0x1000 16 (raw_bytes ([10, 20, 30, 40] : List int32_t))).size
                  ≥ (memory_region.ctor ⟨0x1000, 16, MEM_COMMIT, PAGE_READWRITE, 0x20000⟩).base
                ∧ (region_holding 0x1000 16 (raw_bytes ([10, 20, 30, 40] : List int32_t))).base
                  < (memory_region.ctor ⟨0x1000, 16, MEM_COMMIT, PAGE_READWRITE, 0x20000⟩).base
                    + (memory_region.ctor ⟨0x1000, 16, MEM_COMMIT, PAGE_READWRITE, 0x20000⟩).size
              then
                (next_scan_task
                    (one_region_process 0x1000 (raw_bytes ([10, 21, 30, 39] : List int32_t)))
                    four_matches
                    (memory_region.ctor ⟨0x1000, 16, MEM_COMMIT, PAGE_READWRITE, 0x20000⟩)
                    scan_type.increased_value 0 none custom_map.ctor 0 fresh_globals).bind
                  (fun out => next_scan_loop
                    (one_region_process 0x1000 (raw_bytes ([10, 21, 30, 39] : List int32_t)))
                    scan_type.increased_value (0 : int32_t) none [] []
                    (((custom_map.ctor : custom_map (scan_result int32_t)).insert 0
                      four_matches).erase 0).2 out.1 out.2.1 out.2.2)
            else if (region_holding 0x1000 16 (raw_bytes ([10, 20, 30, 40] : List int32_t))).base
                  + (region_holding 0x1000 16 (raw_bytes ([10, 20, 30, 40] : List int32_t))).size
                  < (memory_region.ctor ⟨0x1000, 16, MEM_COMMIT, PAGE_READWRITE, 0x20000⟩).base
              then
                next_scan_loop
                  (one_region_process 0x1000 (raw_bytes ([10, 21, 30, 39] : List int32_t)))
                  scan_type.increased_value (0 : int32_t) none [] []
                  (((custom_map.ctor : custom_map (scan_result int32_t)).insert 0
                    four_matches).erase 0).2 custom_map.ctor 0 fresh_globals
            else
              next_scan_loop
                (one_region_process 0x1000 (raw_bytes ([10, 21, 30, 39] : List int32_t)))
                scan_type.increased_value (0 : int32_t) none [] []
                ((custom_map.ctor : custom_map (scan_result int32_t)).insert 0 four_matches)
                custom_map.ctor 0 fresh_globals)
        ∧ (((custom_map.ctor : custom_map (scan_result int32_t)).insert 0
              four_matches).erase 0).2.contains 0 = false) :=
  ⟨⟨rfl, rfl⟩,
   next_scan_loop_step (one_region_process 0x1000 (raw_bytes ([10, 21, 30, 39] : List int32_t)))
     scan_type.increased_value (0 : int32_t) none 0 []
     (memory_region.ctor ⟨0x1000, 16, MEM_COMMIT, PAGE_READWRITE, 0x20000⟩) []
     ((custom_map.ctor : custom_map (scan_result int32_t)).insert 0 four_matches)
     custom_map.ctor 0 fresh_globals four_matches
     (region_holding 0x1000 16 (raw_bytes ([10, 20, 30, 40] : List int32_t))) rfl rfl⟩

/-- The three outcomes of a step of the walk on examples: a prior result over
`[0x1000, 0x1010)` against a new region at `0x1000` is compared (one entry, `{21, 0x1004}`,
the prior map is left empty); against a new region at `0x3000` it is erased without a
comparison; a prior result over `[0x3000, 0x3010)` against a new region at `0x1000` is neither
compared nor erased. -/
theorem next_scan_step_scenarios :
    ((next_scan (one_region_process 0x1000 (raw_bytes ([10, 21, 30, 39] : List int32_t)))
          [memory_region.ctor ⟨0x1000, 16, MEM_COMMIT, PAGE_READWRITE, 0x20000⟩]
          scan_type.increased_value
          ((custom_map.ctor : custom_map (scan_result int32_t)).insert 0 four_matches)
          0 (0 : int32_t) none fresh_globals).map
        (fun out => (map_entries (some out.1), out.2.1.keys, out.2.2.1)))
      = some ([(0, [(0x1004, 21)])], [], 1)
    ∧ ((next_scan (one_region_process 0x3000 (raw_bytes ([10, 20, 30, 40] : List int32_t)))
          [memory_region.ctor ⟨0x3000, 16, MEM_COMMIT, PAGE_READWRITE, 0x20000⟩]
          scan_type.unchanged
          ((custom_map.ctor : custom_map (scan_result int32_t)).insert 0 four_matches)
          0 (0 : int32_t) none fresh_globals).map
        (fun out => (map_entries (some out.1), out.2.1.keys, out.2.2.1)))
      = some ([], [], 0)
    ∧ ((next_scan (one_region_process 0x1000 (raw_bytes ([10, 20, 30, 40] : List int32_t)))
          [memory_region.ctor ⟨0x1000, 16, MEM_COMMIT, PAGE_READWRITE, 0x20000⟩]
          scan_type.unchanged
          ((custom_map.ctor : custom_map (scan_result int32_t)).insert 1 second_matches)
          0 (0 : int32_t) none fresh_globals).map
        (fun out => (map_entries (some out.1), out.2.1.keys, out.2.2.1)))
      = some ([], [1], 0) := by
  refine ⟨rfl, rfl, rfl⟩

/-- C13: the walk over a stale prior result.  The prior map holds `A = four_matches` over
`[0x1000, 0x1010)` under key 0 and `B = second_matches` over `[0x3000, 0x3010)` under key 1;
the new queue is the one region `R = [0x3000, 0x3010)`, whose bytes are the ones `B` was found
in; the pass is `unchanged`.  `A` ends below `R.base` and is erased, but `R` has been popped
for it and the queue is empty when the walk reaches key 1: `next_scan` returns an empty map and
the count 0 and leaves `B` in the prior map, never compared.  The task on the pair `(B, R)`
itself would store the four entries of `B` under key 1. -/
theorem next_scan_stale_key_consumes_region :
    two_prior_results.keys = [0, 1]
      ∧ four_matches.region_base = some 0x1000 ∧ four_matches.region_size = some 16
      ∧ second_matches.region_base = some 0x3000 ∧ second_matches.region_size = some 16
      ∧ (memory_region.ctor ⟨0x3000, 16, MEM_COMMIT, PAGE_READWRITE, 0x20000⟩).base = 0x3000
      ∧ (memory_region.ctor ⟨0x3000, 16, MEM_COMMIT, PAGE_READWRITE, 0x20000⟩).size = 16
      ∧ ((next_scan (one_region_process 0x3000 (raw_bytes ([10, 20, 30, 40] : List int32_t)))
            [memory_region.ctor ⟨0x3000, 16, MEM_COMMIT, PAGE_READWRITE, 0x20000⟩]
            scan_type.unchanged two_prior_results 0 (0 : int32_t) none fresh_globals).map
          (fun out => (map_entries (some out.1), out.2.1.keys, out.2.2.1)))
        = some ([], [1], 0)
      ∧ ((next_scan_task (one_region_process 0x3000 (raw_bytes ([10, 20, 30, 40] : List int32_t)))
            second_matches (memory_region.ctor ⟨0x3000, 16, MEM_COMMIT, PAGE_READWRITE, 0x20000⟩)
            scan_type.unchanged (0 : int32_t) none custom_map.ctor 0 fresh_globals).map
          (fun out => (map_entries (some out.1), out.2.1)))
        = some ([(1, [(0x3000, 10), (0x3004, 20), (0x3008, 30), (0x300c, 40)])], 4) := by
  refine ⟨rfl, rfl, rfl, rfl, rfl, rfl, rfl, rfl, rfl⟩

end scan_engine_templated

/-! ## The file offset of a record -/

namespace memory_region

theorem load_keeps (r : memory_region) (md : file_dump) (ok : Bool) (r1 : memory_region)
    (md1 : file_dump) (h : r.load md = some (ok, r1, md1)) :
    r1._file_offset = r._file_offset ∧ r1._data = r._data ∧ r1._discarded = r._discarded
      ∧ r1._valid = r._valid ∧ r1._header = r._header := by
  unfold load dumpable.load at h
  by_cases he : r._data_map.isEmpty = true
  · simp only [he, Bool.not_true, Bool.false_eq_true, if_false] at h
    cases hoff : r._file_offset with
    | none => simp [hoff] at h
    | some off =>
      simp only [hoff] at h
      cases hr : md.read off (sized_header.size r._header * object_repr.sizeof uint8_t) with
      | mk c md2 =>
        rw [hr] at h
        cases c with
        | none =>
          simp only [Option.some.injEq, Prod.mk.injEq] at h
          obtain ⟨_, h1, _⟩ := h
          subst h1
          exact ⟨rfl, rfl, rfl, rfl, rfl⟩
        | some c =>
          simp only [Option.some.injEq, Prod.mk.injEq] at h
          obtain ⟨_, h1, _⟩ := h
          subst h1
          exact ⟨rfl, rfl, rfl, rfl, rfl⟩
  · simp only [he, Bool.not_false, if_true, Option.some.injEq, Prod.mk.injEq] at h
    obtain ⟨_, h1, _⟩ := h
    subst h1
    exact ⟨rfl, rfl, rfl, rfl, rfl⟩

end memory_region

namespace region_life

theorem step_offset (h h1 : region_life) (c : region_call) (hs : h.step c = some h1)
    (hinv : h.region._file_offset.isSome = !h.write_failed) :
    h1.region._file_offset.isSome = !h1.write_failed := by
  cases c with
  | read_data f =>
    simp only [step, Option.some.injEq] at hs
    subst hs
    simp only [memory_region.read_data]
    split <;> exact hinv
  | dump b =>
    simp only [step, Option.some.injEq] at hs
    subst hs
    simp only [memory_region.dump, dumpable.dump]
    by_cases he : h.region._data.isEmpty = true
    · simp only [he, if_true]
      exact hinv
    · simp only [he, Bool.false_eq_true, if_false]
      split
      · simp
      · cases b <;> simp
  | load =>
    simp only [step] at hs
    cases hl : h.region.load h.memory_dump with
    | none => simp [hl] at hs
    | some out =>
      obtain ⟨ok, r, md⟩ := out
      simp only [hl, Option.some.injEq] at hs
      subst hs
      rw [(memory_region.load_keeps h.region h.memory_dump ok r md hl).1]
      exact hinv
  | copy_map_view =>
    simp only [step, Option.some.injEq] at hs
    subst hs
    simp only [memory_region.copy_map_view, dumpable.copy_map_view]
    split <;> exact hinv
  | move =>
    simp only [step, Option.some.injEq] at hs
    subst hs
    exact hinv

theorem run_offset (cs : List region_call) :
    ∀ (h h1 : region_life), run cs h = some h1 →
      h.region._file_offset.isSome = !h.write_failed →
      h1.region._file_offset.isSome = !h1.write_failed := by
  induction cs with
  | nil =>
    intro h h1 hr hinv
    simp only [run, Option.some.injEq] at hr
    subst hr
    exact hinv
  | cons c cs ih =>
    intro h h1 hr hinv
    simp only [run] at hr
    cases hs : h.step c with
    | none => simp [hs] at hr
    | some h2 =>
      simp only [hs] at hr
      exact ih h2 h1 hr (step_offset h h2 c hs hinv)

end region_life

/-- C19, as stated, fails in the state of construction: a region snapshot on which no call has
been made holds the file offset 0 (the member initialiser `_file_offset{ 0 }`) and has not
been written; so does a snapshot after a read that was never dumped. -/
theorem file_offset_present_before_any_write :
    (((region_life.start ⟨0x1000, 16, MEM_COMMIT, PAGE_READWRITE, 0x20000⟩
          (file_dump.ctor ⟨[], []⟩)).run []).map
        (fun h => (h.region._file_offset, h.written))) = some (some 0, false)
      ∧ (((region_life.start ⟨0x1000, 4, MEM_COMMIT, PAGE_READWRITE, 0x20000⟩
          (file_dump.ctor ⟨[], []⟩)).run
            [region_call.read_data (fun _ buffer _ => (true, memcpy buffer 0 [1, 2, 3, 4], 4)),
             region_call.load, region_call.copy_map_view, region_call.move]).map
        (fun h => (h.region._file_offset, h.written))) = some (some 0, false)
      ∧ ¬ (∀ (cs : List region_call) (h : region_life),
            (region_life.start ⟨0x1000, 16, MEM_COMMIT, PAGE_READWRITE, 0x20000⟩
              (file_dump.ctor ⟨[], []⟩)).run cs = some h →
            (h.region._file_offset.isSome = true ↔ h.written = true)) := by
  refine ⟨rfl, rfl, ?_⟩
  intro hall
  have := hall [] _ rfl
  simp [region_life.start, memory_region.ctor, dumpable.ctor] at this

/-- C19, amended: in every state a region snapshot reaches from its construction through
`read_data`, `dump`, `load`, `copy_map_view` and moves, over any store, the stored file offset
has a value exactly when the latest write the record asked of the store did not fail (none has
failed before the first write); so a record that has been written, and whose later writes all
succeeded, has a value, and a record never written has one too. -/
theorem file_offset_iff_no_failed_write (mbi : MEMORY_BASIC_INFORMATION) (memory_dump : file_dump)
    (cs : List region_call) (h : region_life)
    (hrun : (region_life.start mbi memory_dump).run cs = some h) :
    (h.region._file_offset.isSome = true ↔ h.write_failed = false)
      ∧ (h.written = true → h.write_failed = false → h.region._file_offset.isSome = true) := by
  have key := region_life.run_offset cs _ h hrun rfl
  constructor
  · rw [key]
    cases h.write_failed <;> simp
  · intro _ hf
    rw [key, hf]
    rfl

theorem file_offset_iff_no_failed_write_witness :
    ∃ h : region_life,
      (region_life.start ⟨0x1000, 4, MEM_COMMIT, PAGE_READWRITE, 0x20000⟩
          (file_dump.ctor ⟨[], []⟩)).run
            [region_call.read_data (fun _ buffer _ => (true, memcpy buffer 0 [1, 2, 3, 4], 4)),
             region_call.dump true, region_call.load] = some h
        ∧ h.written = true
        ∧ ((h.region._file_offset.isSome = true ↔ h.write_failed = false)
            ∧ (h.written = true → h.write_failed = false
                → h.region._file_offset.isSome = true)) :=
  ⟨_, rfl, rfl,
   file_offset_iff_no_failed_write ⟨0x1000, 4, MEM_COMMIT, PAGE_READWRITE, 0x20000⟩
     (file_dump.ctor ⟨[], []⟩)
     [region_call.read_data (fun _ buffer _ => (true, memcpy buffer 0 [1, 2, 3, 4], 4)),
      region_call.dump true, region_call.load] _ rfl⟩

/-! ## The discarded flag and the RAM vector -/

/-- C20, as stated, fails for `copy_map_view`, `add_element` and `read_data` on a discarded
record.  A snapshot of the bytes 1, 2, 3, 4 is dumped with discard (flag set, RAM vector empty)
and loaded again; `copy_map_view` then fills the RAM vector from the view and leaves the flag
set.  The same happens when `read_data` is called again on the dumped snapshot, and when
`add_element` is called on a result that was dumped with discard. -/
theorem discarded_with_ram_payload :
    (((region_life.start ⟨0x1000, 4, MEM_COMMIT, PAGE_READWRITE, 0x20000⟩
          (file_dump.ctor ⟨[], []⟩)).run
            [region_call.read_data (fun _ buffer _ => (true, memcpy buffer 0 [1, 2, 3, 4], 4)),
             region_call.dump true, region_call.load]).map
        (fun h => (h.region._discarded, h.region._data, h.region._data_map)))
        = some (true, [], [1, 2, 3, 4])
      ∧ (((region_life.start ⟨0x1000, 4, MEM_COMMIT, PAGE_READWRITE, 0x20000⟩
          (file_dump.ctor ⟨[], []⟩)).run
            [region_call.read_data (fun _ buffer _ => (true, memcpy buffer 0 [1, 2, 3, 4], 4)),
             region_call.dump true, region_call.load, region_call.copy_map_view]).map
        (fun h => (h.region._discarded, h.region._data)))
        = some (true, [1, 2, 3, 4])
      ∧ (((region_life.start ⟨0x1000, 4, MEM_COMMIT, PAGE_READWRITE, 0x20000⟩
          (file_dump.ctor ⟨[], []⟩)).run
            [region_call.read_data (fun _ buffer _ => (true, memcpy buffer 0 [1, 2, 3, 4], 4)),
             region_call.dump true,
             region_call.read_data (fun _ buffer _ => (true, memcpy buffer 0 [5, 6, 7, 8], 4))]).map
        (fun h => (h.region._discarded, h.region._data)))
        = some (true, [5, 6, 7, 8])
      ∧ ((four_matches.todumpable.dump true (file_dump.ctor ⟨[], []⟩)).1 = true
          ∧ (four_matches.todumpable.dump true (file_dump.ctor ⟨[], []⟩)).2.1._discarded = true
          ∧ (four_matches.todumpable.dump true (file_dump.ctor ⟨[], []⟩)).2.1._data = []
          ∧ (({ four_matches with
                todumpable := (four_matches.todumpable.dump true (file_dump.ctor ⟨[], []⟩)).2.1 }
              : scan_result int32_t).add_element ⟨50, 0x1010⟩)._discarded = true
          ∧ (({ four_matches with
                todumpable := (four_matches.todumpable.dump true (file_dump.ctor ⟨[], []⟩)).2.1 }
              : scan_result int32_t).add_element ⟨50, 0x1010⟩)._data = [⟨50, 0x1010⟩])
      ∧ ¬ (∀ d : dumpable region_header uint8_t,
            d.discard_invariant → d.copy_map_view.discard_invariant) := by
  refine ⟨rfl, rfl, rfl, ⟨rfl, rfl, rfl, rfl, rfl⟩, ?_⟩
  intro hall
  have := hall { _header := ⟨0x1000, 4⟩, _file_offset := some 0, _data_map := [1, 2, 3, 4],
                 _data := [], _mapped_info := none, _valid := true, _discarded := true }
    (fun _ => rfl) rfl
  simp [dumpable.copy_map_view] at this

/-- C20, amended: the predicate "discarded implies RAM vector empty" is established by a
`dump(true)` that returns true and preserved by `dump` and by `load` in every state; it is
preserved by `copy_map_view` when the record is not discarded or has no view, and by
`add_element` and `read_data` on a record that is not discarded (none of the three touches the
flag). -/
theorem discard_invariant_kept {Header DataType : Type} [sized_header Header]
    [object_repr DataType] (d : dumpable Header DataType) (file : file_dump)
    (hinv : d.discard_invariant) :
    ((d.dump true file).1 = true →
        (d.dump true file).2.1._discarded = true ∧ (d.dump true file).2.1._data = [])
      ∧ (∀ discard_memory, (d.dump discard_memory file).2.1.discard_invariant)
      ∧ (∀ out, d.load file = some out → out.2.1.discard_invariant)
      ∧ (d._discarded = false ∨ d._data_map = [] → d.copy_map_view.discard_invariant)
      ∧ (∀ (T : Type) (res : scan_result T) (entry : scan_entry T), res._discarded = false →
          (res.add_element entry).todumpable.discard_invariant)
      ∧ (∀ (r : memory_region) (read_func : Nat → List Nat → Nat → Bool × List Nat × Nat),
          r._discarded = false → (r.read_data read_func).2.1.todumpable.discard_invariant) := by
  refine ⟨?_, ?_, ?_, ?_, ?_, ?_⟩
  · intro hok
    unfold dumpable.dump at hok ⊢
    by_cases he : d._data.isEmpty = true
    · simp [he] at hok
    · simp only [he, Bool.false_eq_true, if_false] at hok ⊢
      split
      · rename_i heq
        simp [heq] at hok
      · simp
  · intro b
    unfold dumpable.dump
    by_cases he : d._data.isEmpty = true
    · simp only [he, if_true]
      exact hinv
    · simp only [he, Bool.false_eq_true, if_false]
      split
      · exact hinv
      · cases b
        · exact hinv
        · intro _
          rfl
  · intro out hl
    unfold dumpable.load at hl
    by_cases he : d._data_map.isEmpty = true
    · simp only [he, Bool.not_true, Bool.false_eq_true, if_false] at hl
      cases hoff : d._file_offset with
      | none => simp [hoff] at hl
      | some off =>
        simp only [hoff] at hl
        split at hl
        · simp only [Option.some.injEq] at hl
          subst hl
          exact hinv
        · simp only [Option.some.injEq] at hl
          subst hl
          exact hinv
    · simp only [he, Bool.not_false, if_true, Option.some.injEq] at hl
      subst hl
      exact hinv
  · intro h
    unfold dumpable.copy_map_view
    rcases h with h | h
    · split
      · intro hd
        simp [h] at hd
      · exact hinv
    · simp only [h, List.isEmpty_nil, Bool.not_true, Bool.false_eq_true, if_false]
      exact hinv
  · intro T res entry hd hd1
    simp [scan_result.add_element, hd] at hd1
  · intro r read_func hd hd1
    unfold memory_region.read_data at hd1
    simp only at hd1
    split at hd1 <;> simp [hd] at hd1

theorem discard_invariant_kept_witness :
    (region_holding 0x1000 16 (raw_bytes ([10, 20, 30, 40] : List int32_t))).todumpable.discard_invariant
      ∧ ((region_holding 0x1000 16 (raw_bytes ([10, 20, 30, 40] : List int32_t))).todumpable.dump
            true (file_dump.ctor ⟨[], []⟩)).1 = true
      ∧ ((region_holding 0x1000 16 (raw_bytes ([10, 20, 30, 40] : List int32_t))).todumpable.dump
            true (file_dump.ctor ⟨[], []⟩)).2.1._discarded = true
      ∧ ((region_holding 0x1000 16 (raw_bytes ([10, 20, 30, 40] : List int32_t))).todumpable.dump
            true (file_dump.ctor ⟨[], []⟩)).2.1._data = [] :=
  ⟨fun h => absurd h (by decide), rfl,
   ((discard_invariant_kept
      (region_holding 0x1000 16 (raw_bytes ([10, 20, 30, 40] : List int32_t))).todumpable
      (file_dump.ctor ⟨[], []⟩) (fun h => absurd h (by decide))).1 rfl).1,
   ((discard_invariant_kept
      (region_holding 0x1000 16 (raw_bytes ([10, 20, 30, 40] : List int32_t))).todumpable
      (file_dump.ctor ⟨[], []⟩) (fun h => absurd h (by decide))).1 rfl).2⟩

/-! ## Every task returns: monotonicity of a next pass and scans without the secondary argument -/

namespace memory_region

theorem load_total (r : memory_region) (md : file_dump) (h : r._file_offset ≠ none) :
    ∃ (ok : Bool) (r1 : memory_region) (md1 : file_dump), r.load md = some (ok, r1, md1) := by
  unfold load dumpable.load
  by_cases he : r._data_map.isEmpty = true
  · simp only [he, Bool.not_true, Bool.false_eq_true, if_false]
    cases hoff : r._file_offset with
    | none => exact absurd hoff h
    | some off =>
      simp only
      cases hr : md.read off (sized_header.size r._header * object_repr.sizeof uint8_t) with
      | mk c md2 =>
        cases c with
        | none => exact ⟨_, _, _, rfl⟩
        | some c => exact ⟨_, _, _, rfl⟩
  · simp only [he, Bool.not_false, if_true]
    exact ⟨_, _, _, rfl⟩

theorem at_index_total (w : Nat) (r : memory_region) (md : file_dump) (i : Nat)
    (h : r._file_offset ≠ none) :
    ∃ (v : Option typed_ptr) (r1 : memory_region) (md1 : file_dump),
      r.at_index w md i = some (v, r1, md1) ∧ r1._file_offset ≠ none
        ∧ r1._header = r._header := by
  unfold at_index
  by_cases h1 : (i + 1) * w > r._header.size
  · simp only [h1, if_true]
    exact ⟨_, _, _, rfl, h, rfl⟩
  · simp only [h1, if_false]
    unfold at_offset
    by_cases h2 : i * w + w > r._header.size
    · simp only [h2, if_true]
      exact ⟨_, _, _, rfl, h, rfl⟩
    · simp only [h2, if_false]
      by_cases hv : r._valid = true
      · simp only [hv, Bool.not_true, Bool.false_eq_true, if_false]
        by_cases hd : r._discarded = true
        · simp only [hd, Bool.not_true, Bool.false_eq_true, if_false]
          by_cases hm : r._mapped_info.isNone = true
          · simp only [hm, if_true]
            obtain ⟨ok, r1, md1, hl⟩ := load_total r md h
            obtain ⟨ho, _, _, _, hh⟩ := load_keeps r md ok r1 md1 hl
            rw [hl]
            cases ok with
            | false => exact ⟨_, _, _, rfl, by rw [ho]; exact h, hh⟩
            | true => exact ⟨_, _, _, rfl, by rw [ho]; exact h, hh⟩
          · simp only [hm, Bool.false_eq_true, if_false]
            exact ⟨_, _, _, rfl, h, rfl⟩
        · simp only [hd, Bool.not_false, if_true]
          exact ⟨_, _, _, rfl, h, rfl⟩
      · simp only [hv, Bool.not_false, if_true]
        exact ⟨_, _, _, rfl, h, rfl⟩

end memory_region

namespace scan_engine_templated
variable {T : Type} [scalar T]

theorem next_scan_elements_unknown_total (type : scan_type) (v1 : T) (v2 : Option T)
    (els : List (scan_entry T)) (is : List Nat) :
    ∀ (st : task_state T), st.prev_region._file_offset ≠ none →
      st.current_region._valid = true → st.current_region._discarded = false →
      ∃ (st1 : task_state T) (found : List (scan_entry T)),
        next_scan_elements type v1 v2 (some scan_type.unknown_value) els is st = some st1
          ∧ st1.current_region = st.current_region
          ∧ st1.result = st.result.accepted type found
          ∧ st1.total_entries = st.total_entries + found.length
          ∧ ∀ e ∈ found, ∃ o : T, next_pass_accepts type e.value o v1 v2 = true := by
  induction is with
  | nil =>
    intro st _ _ _
    exact ⟨st, [], rfl, rfl, rfl, rfl, by simp⟩
  | cons i is ih =>
    intro st ho hv hd
    obtain ⟨v, r1, md1, hat, ho1, _⟩ :=
      memory_region.at_index_total (object_repr.sizeof T) st.prev_region st.memory_dump i ho
    simp only [next_scan_elements, if_true, hat]
    cases v with
    | none =>
      simp only
      obtain ⟨st1, found, h1, h2, h3, h4, h5⟩ :=
        ih { st with prev_region := r1, memory_dump := md1 } ho1 hv hd
      exact ⟨st1, found, h1, h2, h3, h4, h5⟩
    | some old_value =>
      simp only [memory_region.at_address_ram _ st.current_region md1 _ hv hd]
      by_cases hh : st.current_region.holds (object_repr.sizeof T)
          (r1.base + i * object_repr.sizeof T)
      · simp only [hh, if_true]
        cases hc : (compare type : Option (T → T → Option T → Bool)) with
        | none =>
          simp only
          obtain ⟨st1, found, h1, h2, h3, h4, h5⟩ :=
            ih { st with prev_region := r1, current_region := st.current_region,
                         memory_dump := md1 } ho1 hv hd
          exact ⟨st1, found, h1, h2, h3, h4, h5⟩
        | some cmp =>
          simp only
          rw [next_scan_success_eq type cmp hc]
          simp only
          by_cases ha : next_pass_accepts type
              (typed_ptr.deref ⟨st.current_region._data,
                r1.base + i * object_repr.sizeof T - st.current_region.base⟩ : T)
              (typed_ptr.deref old_value : T) v1 v2 = true
          · simp only [ha, if_true]
            obtain ⟨st1, found, h1, h2, h3, h4, h5⟩ :=
              ih { prev_region := r1, current_region := st.current_region, memory_dump := md1,
                   total_entries := st.total_entries + 1,
                   result := (st.result.add_element
                     { value := (typed_ptr.deref ⟨st.current_region._data,
                         r1.base + i * object_repr.sizeof T - st.current_region.base⟩ : T),
                       address := r1.base + i * object_repr.sizeof T }).set_type type }
                ho1 hv hd
            refine ⟨st1,
              { value := (typed_ptr.deref ⟨st.current_region._data,
                  r1.base + i * object_repr.sizeof T - st.current_region.base⟩ : T),
                address := r1.base + i * object_repr.sizeof T } :: found, h1, h2, ?_, ?_, ?_⟩
            · rw [h3, accepted_cons]
            · rw [h4]
              simp only [List.length_cons]
              omega
            · intro e he
              rcases List.mem_cons.mp he with rfl | he
              · exact ⟨_, ha⟩
              · exact h5 e he
          · simp only [ha, Bool.false_eq_true, if_false]
            obtain ⟨st1, found, h1, h2, h3, h4, h5⟩ :=
              ih { st with prev_region := r1, current_region := st.current_region,
                           memory_dump := md1 } ho1 hv hd
            exact ⟨st1, found, h1, h2, h3, h4, h5⟩
      · simp only [hh, if_false]
        obtain ⟨st1, found, h1, h2, h3, h4, h5⟩ :=
          ih { st with prev_region := r1, current_region := st.current_region,
                       memory_dump := md1 } ho1 hv hd
        exact ⟨st1, found, h1, h2, h3, h4, h5⟩

theorem next_pass_entry_some (type : scan_type) (v1 : T) (v2 : Option T) (R : memory_region)
    (e0 e : scan_entry T) (h : next_pass_entry type v1 v2 R e0 = some e) :
    e.address = e0.address ∧ next_pass_accepts type e.value e0.value v1 v2 = true := by
  unfold next_pass_entry at h
  split at h
  · rename_i hc
    simp only [Option.some.injEq] at h
    subst h
    exact ⟨rfl, hc.2⟩
  · simp at h

omit [scalar T] in
theorem filterMap_address_sublist (f : scan_entry T → Option (scan_entry T))
    (hf : ∀ e0 e, f e0 = some e → e.address = e0.address) (l : List (scan_entry T)) :
    ((l.filterMap f).map (fun e => e.address)).Sublist (l.map (fun e => e.address)) := by
  induction l with
  | nil => exact List.Sublist.slnil
  | cons a l ih =>
    rw [List.filterMap_cons]
    cases hfa : f a with
    | none =>
      simp only [List.map_cons]
      exact List.Sublist.cons _ ih
    | some b =>
      simp only [List.map_cons]
      rw [hf a b hfa]
      exact List.Sublist.cons₂ _ ih

/-- What the task of `next_scan` leaves for a usable prior result and a region that is not
discarded: it returns; it either leaves the new map as it is or inserts one result under the
prior index; the entries of that result were accepted by the comparator, and, for a prior
result not produced by `unknown_value`, their addresses are a sublist of the prior ones. -/
theorem next_scan_task_total (p : process) (old_scan : scan_result T) (R : memory_region)
    (type : scan_type) (v1 : T) (v2 : Option T) (results : custom_map (scan_result T))
    (total_entries : Nat) (g : globals) (hold : old_scan.usable) (hR : R._discarded = false) :
    ∃ (results1 : custom_map (scan_result T)) (g1 : globals) (found : List (scan_entry T)),
      next_scan_task p old_scan R type v1 v2 results total_entries g
          = some (results1, total_entries + found.length, g1)
        ∧ (found = [] → results1 = results)
        ∧ (found ≠ [] → ∃ result : scan_result T,
            results1 = results.insert (old_scan.index : Int) result ∧ result._data = found
              ∧ result.index = old_scan.index ∧ result._discarded = false
              ∧ result._associated_region = some (scan_engine.read_memory p R).2)
        ∧ (∀ e ∈ found, ∃ o : T, next_pass_accepts type e.value o v1 v2 = true)
        ∧ (old_scan.type ≠ some scan_type.unknown_value →
            (found.map (fun e => e.address)).Sublist (old_scan._data.map (fun e => e.address))) := by
  obtain ⟨hnd, prev_region, hreg, hoff⟩ := hold
  have hreg1 : old_scan.associated_region = some prev_region := hreg
  cases hread : (scan_engine.read_memory p R).1 with
  | false =>
    have hpair : scan_engine.read_memory p R = (false, (scan_engine.read_memory p R).2) :=
      Prod.ext hread rfl
    refine ⟨results, g, [], ?_, fun _ => rfl, fun h => absurd rfl h, by simp, by simp⟩
    rw [next_scan_task, hpair]
    rfl
  | true =>
    obtain ⟨hv1, hd1, _⟩ := scan_engine.read_memory_ok p R hread
    rw [hR] at hd1
    have hpair : scan_engine.read_memory p R = (true, (scan_engine.read_memory p R).2) :=
      Prod.ext hread rfl
    generalize (scan_engine.read_memory p R).2 = R1 at hv1 hd1 hpair ⊢
    by_cases hu : old_scan.type = some scan_type.unknown_value
    · obtain ⟨st1, found, hrun, hcur, hres, htot, hacc⟩ :=
        next_scan_elements_unknown_total type v1 v2 ([] : List (scan_entry T))
          (List.range (prev_region.size / object_repr.sizeof T))
          { prev_region := prev_region, current_region := R1,
            result := scan_result.ctor (some R1) old_scan.index,
            total_entries := total_entries, memory_dump := g.memory_dump } hoff hv1 hd1
      have hsub : old_scan.type ≠ some scan_type.unknown_value →
          (found.map (fun e => e.address)).Sublist (old_scan._data.map (fun e => e.address)) :=
        fun h => absurd hu h
      simp only at hcur hres htot
      cases found with
      | nil =>
        refine ⟨results, { memory_dump := st1.memory_dump, results := g.results }, [], ?_,
          fun _ => rfl, fun h => absurd rfl h, by simp, by simp⟩
        rw [accepted_nil] at hres
        simp only [next_scan_task, hpair, hreg1, hu, if_true, hrun, hres, hcur, htot]
        rw [elements_ram _ g.results rfl]
        simp [scan_result.ctor, dumpable.ctor]
      | cons a l =>
        refine ⟨results.insert (old_scan.index : Int)
            { (scan_result.ctor (some R1) old_scan.index : scan_result T).accepted type (a :: l)
              with _associated_region := some R1 },
          { memory_dump := st1.memory_dump, results := g.results }, a :: l, ?_,
          fun h => by simp at h, fun _ => ⟨_, rfl, ?_, rfl, rfl, rfl⟩, hacc, hsub⟩
        · simp only [next_scan_task, hpair, hreg1, hu, if_true, hrun, hres, hcur, htot]
          rw [elements_ram _ g.results rfl]
          simp [scan_result.accepted, scan_result.pushed, scan_result.ctor, dumpable.ctor]
        · simp [scan_result.accepted, scan_result.pushed, scan_result.ctor, dumpable.ctor]
    · have hall : ∀ i ∈ List.range old_scan._data.length, i < old_scan._data.length :=
        fun i hi => List.mem_range.mp hi
      have hrun := next_scan_elements_known type v1 v2 old_scan.type hu old_scan._data
        (List.range old_scan._data.length)
        { prev_region := prev_region, current_region := R1,
          result := scan_result.ctor (some R1) old_scan.index,
          total_entries := total_entries, memory_dump := g.memory_dump } hv1 hd1 hall
      simp only [range_filterMap_get] at hrun
      have hacc : ∀ e ∈ old_scan._data.filterMap (fun a => next_pass_entry type v1 v2 R1 a),
          ∃ o : T, next_pass_accepts type e.value o v1 v2 = true := by
        intro e he
        obtain ⟨e0, _, he0⟩ := List.mem_filterMap.mp he
        exact ⟨e0.value, (next_pass_entry_some type v1 v2 R1 e0 e he0).2⟩
      have hsub : old_scan.type ≠ some scan_type.unknown_value →
          ((old_scan._data.filterMap (fun a => next_pass_entry type v1 v2 R1 a)).map
            (fun e => e.address)).Sublist (old_scan._data.map (fun e => e.address)) :=
        fun _ => filterMap_address_sublist _
          (fun e0 e h => (next_pass_entry_some type v1 v2 R1 e0 e h).1) _
      obtain ⟨st1, hst⟩ : ∃ st1 : task_state T, st1 =
          { prev_region := prev_region, current_region := R1,
            result := (scan_result.ctor (some R1) old_scan.index : scan_result T).accepted type
              (old_scan._data.filterMap (fun a => next_pass_entry type v1 v2 R1 a)),
            total_entries := total_entries
              + (old_scan._data.filterMap (fun a => next_pass_entry type v1 v2 R1 a)).length,
            memory_dump := g.memory_dump } := ⟨_, rfl⟩
      rw [← hst] at hrun
      have hcur : st1.current_region = R1 := by rw [hst]
      have hres : st1.result = (scan_result.ctor (some R1) old_scan.index : scan_result T).accepted
          type (old_scan._data.filterMap (fun a => next_pass_entry type v1 v2 R1 a)) := by
        rw [hst]
      have htot : st1.total_entries = total_entries
          + (old_scan._data.filterMap (fun a => next_pass_entry type v1 v2 R1 a)).length := by
        rw [hst]
      clear hst
      generalize old_scan._data.filterMap (fun a => next_pass_entry type v1 v2 R1 a) = found
        at hacc hsub hres htot
      cases found with
      | nil =>
        refine ⟨results, { memory_dump := st1.memory_dump, results := g.results }, [], ?_,
          fun _ => rfl, fun h => absurd rfl h, by simp, by simp⟩
        rw [accepted_nil] at hres
        simp only [next_scan_task, hpair, hreg1, hu, if_false, elements_ram old_scan g.results hnd, hrun, hres, hcur, htot]
        rw [elements_ram _ g.results rfl]
        simp [scan_result.ctor, dumpable.ctor]
      | cons a l =>
        refine ⟨results.insert (old_scan.index : Int)
            { (scan_result.ctor (some R1) old_scan.index : scan_result T).accepted type (a :: l)
              with _associated_region := some R1 },
          { memory_dump := st1.memory_dump, results := g.results }, a :: l, ?_,
          fun h => by simp at h, fun _ => ⟨_, rfl, ?_, rfl, rfl, rfl⟩, hacc, hsub⟩
        · simp only [next_scan_task, hpair, hreg1, hu, if_false, elements_ram old_scan g.results hnd, hrun, hres, hcur, htot]
          rw [elements_ram _ g.results rfl]
          simp [scan_result.accepted, scan_result.pushed, scan_result.ctor, dumpable.ctor]
        · simp [scan_result.accepted, scan_result.pushed, scan_result.ctor, dumpable.ctor]

end scan_engine_templated

namespace custom_map
variable {V : Type}

theorem mem_assign (key : Int) (value : V) (m : List (Int × V)) (kv : Int × V)
    (h : kv ∈ assign key value m) : kv = (key, value) ∨ kv ∈ m := by
  induction m with
  | nil =>
    simp only [assign, List.mem_singleton] at h
    exact Or.inl h
  | cons e m ih =>
    obtain ⟨k, v⟩ := e
    simp only [assign] at h
    split at h
    · rcases List.mem_cons.mp h with h | h
      · exact Or.inl h
      · exact Or.inr h
    · split at h
      · rcases List.mem_cons.mp h with h | h
        · exact Or.inl h
        · exact Or.inr (List.mem_cons_of_mem _ h)
      · rcases List.mem_cons.mp h with h | h
        · exact Or.inr (by rw [h]; exact List.mem_cons_self _ _)
        · rcases ih h with h | h
          · exact Or.inl h
          · exact Or.inr (List.mem_cons_of_mem _ h)

theorem at_erase_ne (m : custom_map V) (key k : Int) (h : k ≠ key) :
    (m.erase key).2.«at» k = m.«at» k := by
  obtain ⟨l⟩ := m
  simp only [erase, «at»]
  congr 1
  induction l with
  | nil => rfl
  | cons e l ih =>
    rw [List.filter_cons]
    by_cases he : e.1 = key
    · have hk : ¬ e.1 = k := by
        intro hek
        exact h (hek.symm.trans he)
      have hd : decide (e.1 ≠ key) = false := by simp [he]
      have hdk : decide (e.1 = k) = false := by simp [hk]
      rw [hd]
      simp only [Bool.false_eq_true, if_false]
      rw [ih, List.find?_cons, hdk]
    · have hd : decide (e.1 ≠ key) = true := by simp [he]
      rw [hd]
      simp only [if_true]
      rw [List.find?_cons, List.find?_cons, ih]

theorem at_of_mem_keys (m : custom_map V) (key : Int) (h : key ∈ m.keys) :
    ∃ v, m.«at» key = some v ∧ (key, v) ∈ m._map := by
  obtain ⟨l⟩ := m
  simp only [keys, «at», List.mem_map] at h ⊢
  obtain ⟨e, he, hek⟩ := h
  cases hf : l.find? (fun e => decide (e.1 = key)) with
  | none =>
    have := List.find?_eq_none.mp hf e he
    simp [hek] at this
  | some x =>
    have hx := List.find?_some hf
    have hmem := List.mem_of_find?_eq_some hf
    simp only [decide_eq_true_eq] at hx
    refine ⟨x.2, rfl, ?_⟩
    rw [← hx]
    exact hmem

theorem mem_of_at (m : custom_map V) (key : Int) (v : V) (h : m.«at» key = some v) :
    (key, v) ∈ m._map := by
  obtain ⟨l⟩ := m
  simp only [«at», Option.map_eq_some'] at h
  obtain ⟨x, hf, hv⟩ := h
  have hx := List.find?_some hf
  have hmem := List.mem_of_find?_eq_some hf
  simp only [decide_eq_true_eq] at hx
  rw [← hx, ← hv]
  exact hmem

theorem ordered_nodup (m : custom_map V) (h : m.ordered) : m.keys.Nodup :=
  List.Pairwise.imp (fun hab => ne_of_lt hab) h

end custom_map

namespace scan_engine_templated
variable {T : Type} [scalar T]

theorem next_scan_loop_total (p : process) (type : scan_type) (v1 : T) (v2 : Option T) :
    ∀ (keys : List Int) (regions : List memory_region)
      (prev_scan results : custom_map (scan_result T)) (total_entries : Nat) (g : globals),
      keys.Nodup →
      (∀ key ∈ keys, ∃ old, prev_scan.«at» key = some old ∧ old.usable) →
      (∀ R ∈ regions, R._discarded = false) →
      ∃ (prev1 results1 : custom_map (scan_result T)) (total1 : Nat) (g1 : globals),
        next_scan_loop p type v1 v2 keys regions prev_scan results total_entries g
            = some (prev1, results1, total1, g1)
          ∧ (∀ kv ∈ results1._map, kv ∈ results._map
              ∨ ∃ key ∈ keys, ∃ old, prev_scan.«at» key = some old ∧ kv.1 = (old.index : Int)
                  ∧ next_pass_result type v1 v2 old kv.2)
          ∧ ((∀ n o : T, next_pass_accepts type n o v1 v2 = false) →
              results1 = results ∧ total1 = total_entries) := by
  intro keys
  induction keys with
  | nil =>
    intro regions prev_scan results total_entries g _ _ _
    exact ⟨prev_scan, results, total_entries, g, by simp [next_scan_loop],
      fun kv h => Or.inl h, fun _ => ⟨rfl, rfl⟩⟩
  | cons key keys ih =>
    intro regions prev_scan results total_entries g hnd hkeys hregs
    cases regions with
    | nil =>
      exact ⟨prev_scan, results, total_entries, g, by simp [next_scan_loop],
        fun kv h => Or.inl h, fun _ => ⟨rfl, rfl⟩⟩
    | cons R regions =>
      obtain ⟨old, hat, husable⟩ := hkeys key (List.mem_cons_self _ _)
      obtain ⟨_, r, hreg, _⟩ := id husable
      have hb : old.region_base = some r.base := by
        simp only [scan_result.region_base, hreg]
        rfl
      have hs : old.region_size = some r.size := by
        simp only [scan_result.region_size, hreg]
        rfl
      have hnd_tail : keys.Nodup := (List.nodup_cons.mp hnd).2
      have hnotin : key ∉ keys := (List.nodup_cons.mp hnd).1
      have hne : ∀ k ∈ keys, k ≠ key := fun k hk hkk => hnotin (hkk ▸ hk)
      have hregs_tail : ∀ R ∈ regions, R._discarded = false :=
        fun x hx => hregs x (List.mem_cons_of_mem _ hx)
      have hkeys_tail : ∀ k ∈ keys, ∃ old, prev_scan.«at» k = some old ∧ old.usable :=
        fun k hk => hkeys k (List.mem_cons_of_mem _ hk)
      have hkeys_erase : ∀ k ∈ keys, ∃ old, (prev_scan.erase key).2.«at» k = some old
          ∧ old.usable := by
        intro k hk
        obtain ⟨o, ho, hu⟩ := hkeys_tail k hk
        exact ⟨o, by rw [custom_map.at_erase_ne _ _ _ (hne k hk)]; exact ho, hu⟩
      rw [next_scan_loop]
      simp only [hat, hb, hs]
      by_cases h1 : r.base + r.size < R.base
      · simp only [h1, if_true]
        obtain ⟨prev1, results1, total1, g1, hl, hmem, hrej⟩ :=
          ih regions (prev_scan.erase key).2 results total_entries g hnd_tail hkeys_erase
            hregs_tail
        refine ⟨prev1, results1, total1, g1, hl, ?_, hrej⟩
        intro kv hkv
        rcases hmem kv hkv with h | ⟨k, hk, o, ho, rest⟩
        · exact Or.inl h
        · rw [custom_map.at_erase_ne _ _ _ (hne k hk)] at ho
          exact Or.inr ⟨k, List.mem_cons_of_mem _ hk, o, ho, rest⟩
      · by_cases h3 : r.base < R.base + R.size
        · simp only [h1, h3, if_true, if_false]
          obtain ⟨results2, g2, found, htask, hnil, hcons, hacc, hsub⟩ :=
            next_scan_task_total p old R type v1 v2 results total_entries g husable
              (hregs R (List.mem_cons_self _ _))
          rw [htask]
          simp only
          obtain ⟨prev1, results1, total1, g1, hl, hmem, hrej⟩ :=
            ih regions (prev_scan.erase key).2 results2 (total_entries + found.length) g2
              hnd_tail hkeys_erase hregs_tail
          refine ⟨prev1, results1, total1, g1, hl, ?_, ?_⟩
          · intro kv hkv
            rcases hmem kv hkv with h | ⟨k, hk, o, ho, rest⟩
            · by_cases hf : found = []
              · rw [hnil hf] at h
                exact Or.inl h
              · obtain ⟨result, hins, hdata, hidx, hdisc, _⟩ := hcons hf
                rw [hins] at h
                rcases custom_map.mem_assign _ _ _ _ h with h | h
                · refine Or.inr ⟨key, List.mem_cons_self _ _, old, hat, by rw [h], ?_⟩
                  rw [h]
                  refine ⟨hidx, by rw [hdata]; exact hf, hdisc, by rw [hdata]; exact hacc, ?_⟩
                  rw [hdata]
                  exact hsub
                · exact Or.inl h
            · rw [custom_map.at_erase_ne _ _ _ (hne k hk)] at ho
              exact Or.inr ⟨k, List.mem_cons_of_mem _ hk, o, ho, rest⟩
          · intro hall
            have hf : found = [] := by
              cases found with
              | nil => rfl
              | cons a l =>
                obtain ⟨o, ho⟩ := hacc a (List.mem_cons_self _ _)
                rw [hall] at ho
                exact absurd ho (by decide)
            obtain ⟨e1, e2⟩ := hrej hall
            rw [hnil hf] at e1
            rw [hf] at e2
            exact ⟨e1, e2⟩
        · simp only [h1, h3, if_false]
          obtain ⟨prev1, results1, total1, g1, hl, hmem, hrej⟩ :=
            ih regions prev_scan results total_entries g hnd_tail hkeys_tail hregs_tail
          refine ⟨prev1, results1, total1, g1, hl, ?_, hrej⟩
          intro kv hkv
          rcases hmem kv hkv with h | ⟨k, hk, o, ho, rest⟩
          · exact Or.inl h
          · exact Or.inr ⟨k, List.mem_cons_of_mem _ hk, o, ho, rest⟩

/-- C11: a next pass over a stored map whose results are stored under their index.  The
call returns, and every result `new` it stores under a key `k` comes with a result `old` of the
prior map under the same key; when `old` was not produced by `unknown_value`, every address of
`new` is the address of an entry of `old` (the addresses of `new` are a sublist of those of
`old`), and `new` has no more entries than `old`.  So when no prior result was produced by
`unknown_value`, every address in the output of the pass is an address of the prior output. -/
theorem next_pass_monotone (e : scan_engine_templated T) (p : process) (range : Nat × Nat)
    (type : scan_type) (v1 : T) (v2 : Option T) (g : globals) (fuel : Nat)
    (regions : List memory_region) (prev_scan : custom_map (scan_result T))
    (hnext : e._current_scan ≠ 0)
    (hprev : e._prev_scan_results = some prev_scan)
    (hord : prev_scan.ordered)
    (hidx : ∀ kv ∈ prev_scan._map, (kv.2.index : Int) = kv.1)
    (huse : ∀ kv ∈ prev_scan._map, kv.2.usable)
    (hregions : scan_engine.get_regions p range (PAGE_READWRITE ||| PAGE_WRITECOPY) fuel
      = some regions) :
    ∃ (results : custom_map (scan_result T)) (total : Nat) (g1 : globals),
      e.scan p range type v1 v2 g fuel
          = some (total, { e with _prev_scan_results := some results }, g1)
        ∧ (∀ (k : Int) (new : scan_result T), (k, new) ∈ results._map →
            ∃ old : scan_result T, (k, old) ∈ prev_scan._map
              ∧ (old.type ≠ some scan_type.unknown_value →
                  (∀ en ∈ new._data, ∃ eo ∈ old._data, eo.address = en.address)
                    ∧ (new._data.map (fun x => x.address)).Sublist
                        (old._data.map (fun x => x.address))
                    ∧ new._data.length ≤ old._data.length))
        ∧ ((∀ kv ∈ prev_scan._map, kv.2.type ≠ some scan_type.unknown_value) →
            ∀ kv ∈ results._map, ∀ en ∈ kv.2._data,
              ∃ kv0 ∈ prev_scan._map, ∃ eo ∈ kv0.2._data, eo.address = en.address) := by
  have hfresh := scan_engine.get_regions_loop_fresh p range _ fuel range.1 regions hregions
  have hkeys : ∀ key ∈ prev_scan.keys, ∃ old, prev_scan.«at» key = some old ∧ old.usable := by
    intro key hk
    obtain ⟨v, hv, hmem⟩ := custom_map.at_of_mem_keys prev_scan key hk
    exact ⟨v, hv, huse _ hmem⟩
  obtain ⟨prev1, results1, total1, g1, hl, hmem, _⟩ :=
    next_scan_loop_total p type v1 v2 prev_scan.keys regions prev_scan custom_map.ctor 0 g
      (custom_map.ordered_nodup prev_scan hord) hkeys hfresh
  have hkey : ∀ (k : Int) (new : scan_result T), (k, new) ∈ results1._map →
      ∃ old : scan_result T, (k, old) ∈ prev_scan._map
        ∧ (old.type ≠ some scan_type.unknown_value →
            (∀ en ∈ new._data, ∃ eo ∈ old._data, eo.address = en.address)
              ∧ (new._data.map (fun x => x.address)).Sublist
                  (old._data.map (fun x => x.address))
              ∧ new._data.length ≤ old._data.length) := by
    intro k new hk
    rcases hmem (k, new) hk with h | ⟨key, _, old, hat, hk1, _, _, _, _, hsub⟩
    · simp [custom_map.ctor] at h
    · have hin := custom_map.mem_of_at prev_scan key old hat
      have hko : (old.index : Int) = key := hidx _ hin
      simp only at hk1 hsub
      refine ⟨old, by rw [hk1, hko]; exact hin, ?_⟩
      intro hty
      have hs := hsub hty
      refine ⟨?_, hs, ?_⟩
      · intro en hen
        have : en.address ∈ old._data.map (fun x => x.address) :=
          hs.subset (List.mem_map_of_mem _ hen)
        obtain ⟨eo, heo, heq⟩ := List.mem_map.mp this
        exact ⟨eo, heo, heq⟩
      · have := hs.length_le
        simpa using this
  refine ⟨results1, total1, g1, ?_, hkey, ?_⟩
  · simp only [scan, hregions, hnext, if_false, hprev, next_scan, hl]
  · intro hall kv hkv en hen
    obtain ⟨old, hin, hprop⟩ := hkey kv.1 kv.2 hkv
    obtain ⟨eo, heo, heq⟩ := (hprop (hall _ hin)).1 en hen
    exact ⟨_, hin, eo, heo, heq⟩

theorem next_pass_monotone_witness :
    ((engine_holding ((custom_map.ctor : custom_map (scan_result int32_t)).insert 0
          four_matches))._current_scan ≠ 0
      ∧ ((custom_map.ctor : custom_map (scan_result int32_t)).insert 0 four_matches).ordered
      ∧ (∀ kv ∈ ((custom_map.ctor : custom_map (scan_result int32_t)).insert 0 four_matches)._map,
          (kv.2.index : Int) = kv.1)
      ∧ (∀ kv ∈ ((custom_map.ctor : custom_map (scan_result int32_t)).insert 0 four_matches)._map,
          kv.2.usable)
      ∧ scan_engine.get_regions
            (one_region_process 0x1000 (raw_bytes ([10, 21, 30, 39] : List int32_t)))
            (0x1000, 0x1010) (PAGE_READWRITE ||| PAGE_WRITECOPY) 4
          = some [memory_region.ctor ⟨0x1000, 16, MEM_COMMIT, PAGE_READWRITE, 0x20000⟩])
    ∧ ∃ (results : custom_map (scan_result int32_t)) (total : Nat) (g1 : globals),
      (engine_holding ((custom_map.ctor : custom_map (scan_result int32_t)).insert 0
          four_matches)).scan
            (one_region_process 0x1000 (raw_bytes ([10, 21, 30, 39] : List int32_t)))
            (0x1000, 0x1010) scan_type.increased_value 0 none fresh_globals 4
          = some (total,
              { engine_holding ((custom_map.ctor : custom_map (scan_result int32_t)).insert 0
                  four_matches) with _prev_scan_results := some results }, g1)
        ∧ (∀ (k : Int) (new : scan_result int32_t), (k, new) ∈ results._map →
            ∃ old : scan_result int32_t,
              (k, old) ∈ ((custom_map.ctor : custom_map (scan_result int32_t)).insert 0
                  four_matches)._map
              ∧ (old.type ≠ some scan_type.unknown_value →
                  (∀ en ∈ new._data, ∃ eo ∈ old._data, eo.address = en.address)
                    ∧ (new._data.map (fun x => x.address)).Sublist
                        (old._data.map (fun x => x.address))
                    ∧ new._data.length ≤ old._data.length))
        ∧ ((∀ kv ∈ ((custom_map.ctor : custom_map (scan_result int32_t)).insert 0
                four_matches)._map, kv.2.type ≠ some scan_type.unknown_value) →
            ∀ kv ∈ results._map, ∀ en ∈ kv.2._data,
              ∃ kv0 ∈ ((custom_map.ctor : custom_map (scan_result int32_t)).insert 0
                  four_matches)._map, ∃ eo ∈ kv0.2._data, eo.address = en.address) :=
  ⟨⟨by decide, List.pairwise_singleton _ _,
    fun kv h => by
      simp only [custom_map.insert, custom_map.ctor, custom_map.assign, List.mem_singleton] at h
      subst h
      rfl,
    fun kv h => by
      simp only [custom_map.insert, custom_map.ctor, custom_map.assign, List.mem_singleton] at h
      subst h
      exact ⟨rfl, _, rfl, by decide⟩,
    rfl⟩,
   next_pass_monotone
     (engine_holding ((custom_map.ctor : custom_map (scan_result int32_t)).insert 0 four_matches))
     (one_region_process 0x1000 (raw_bytes ([10, 21, 30, 39] : List int32_t)))
     (0x1000, 0x1010) scan_type.increased_value 0 none fresh_globals 4
     [memory_region.ctor ⟨0x1000, 16, MEM_COMMIT, PAGE_READWRITE, 0x20000⟩]
     ((custom_map.ctor : custom_map (scan_result int32_t)).insert 0 four_matches)
     (by decide) rfl (List.pairwise_singleton _ _)
     (fun kv h => by
       simp only [custom_map.insert, custom_map.ctor, custom_map.assign, List.mem_singleton] at h
       subst h
       rfl)
     (fun kv h => by
       simp only [custom_map.insert, custom_map.ctor, custom_map.assign, List.mem_singleton] at h
       subst h
       exact ⟨rfl, _, rfl, by decide⟩)
     rfl⟩

theorem first_pass_results_nil (p : process) (type : scan_type) (cmp : T → T → Option T → Bool)
    (v1 : T) (v2 : Option T) (hrej : ∀ a b : T, cmp a b v2 = false)
    (regions : List memory_region) :
    ∀ i : Nat, first_pass_results p type cmp v1 v2 regions i = [] := by
  induction regions with
  | nil =>
    intro i
    rfl
  | cons r rs ih =>
    intro i
    have hm : (scan_engine.read_memory p r).2.matches cmp v1 v2 = [] := by
      simp [memory_region.matches, hrej]
    simp only [first_pass_results, hm, ne_eq, not_true_eq_false, and_false, if_false]
    exact ih (i + 1)

/-- C15: a scan issued without the secondary argument.  For `value_between` in a seed pass or
in a next pass, and for `increased_by` and `decreased_by` in a seed pass, the comparator is
false on every pair of values, `scan` returns 0 and the map it stores is empty.  For the next
pass the stored prior map is one whose results can be worked on (`usable`). -/
theorem scan_without_secondary (e : scan_engine_templated T) (p : process) (range : Nat × Nat)
    (type : scan_type) (v1 : T) (g : globals) (fuel : Nat) (regions : List memory_region)
    (htype : type = scan_type.value_between
      ∨ (e._current_scan = 0
          ∧ (type = scan_type.increased_by ∨ type = scan_type.decreased_by)))
    (hprev : e._current_scan ≠ 0 →
      ∃ prev_scan, e._prev_scan_results = some prev_scan ∧ prev_scan.ordered
        ∧ ∀ kv ∈ prev_scan._map, kv.2.usable)
    (hregions : scan_engine.get_regions p range (PAGE_READWRITE ||| PAGE_WRITECOPY) fuel
      = some regions) :
    (∃ cmp : T → T → Option T → Bool, compare type = some cmp ∧ ∀ a b : T, cmp a b none = false)
      ∧ ∃ (e1 : scan_engine_templated T) (g1 : globals),
          e.scan p range type v1 none g fuel = some (0, e1, g1)
            ∧ e1.get_results = some custom_map.ctor := by
  have hfresh := scan_engine.get_regions_loop_fresh p range _ fuel range.1 regions hregions
  have hcmp : ∃ cmp : T → T → Option T → Bool, compare type = some cmp
      ∧ ∀ a b : T, cmp a b none = false := by
    rcases htype with h | ⟨_, h | h⟩ <;> subst h <;> exact ⟨_, rfl, fun _ _ => rfl⟩
  refine ⟨hcmp, ?_⟩
  obtain ⟨cmp, hc, hrej⟩ := hcmp
  by_cases hfirst : e._current_scan = 0
  · have hloop := first_scan_loop_known p type cmp hc v1 none regions 0 custom_map.ctor 0 g hfresh
      (by intro x hx; simp [custom_map.ctor] at hx)
    rw [first_pass_results_nil p type cmp v1 none hrej regions 0] at hloop
    refine ⟨{ e with _prev_scan_results := some custom_map.ctor, _current_scan := 1 }, g, ?_, rfl⟩
    simp only [scan, hregions, hfirst, if_true, first_scan, hloop]
    simp [custom_map.ctor]
  · have hvb : type = scan_type.value_between := by
      rcases htype with h | ⟨h, _⟩
      · exact h
      · exact absurd h hfirst
    obtain ⟨prev_scan, hp, hord, huse⟩ := hprev hfirst
    have hkeys : ∀ key ∈ prev_scan.keys, ∃ old, prev_scan.«at» key = some old ∧ old.usable := by
      intro key hk
      obtain ⟨v, hv, hmem⟩ := custom_map.at_of_mem_keys prev_scan key hk
      exact ⟨v, hv, huse _ hmem⟩
    obtain ⟨prev1, results1, total1, g1, hl, _, hrej1⟩ :=
      next_scan_loop_total p type v1 none prev_scan.keys regions prev_scan custom_map.ctor 0 g
        (custom_map.ordered_nodup prev_scan hord) hkeys hfresh
    have hno : ∀ n o : T, next_pass_accepts type n o v1 none = false := by
      intro n o
      subst hvb
      rfl
    obtain ⟨e1, e2⟩ := hrej1 hno
    subst e1 e2
    refine ⟨{ e with _prev_scan_results := some custom_map.ctor }, g1, ?_, rfl⟩
    simp only [scan, hregions, hfirst, if_false, hp, next_scan, hl]

theorem scan_without_secondary_witness :
    ((scan_type.value_between = scan_type.value_between
          ∨ ((scan_engine_templated.ctor 1 : scan_engine_templated int32_t)._current_scan = 0
              ∧ (scan_type.value_between = scan_type.increased_by
                  ∨ scan_type.value_between = scan_type.decreased_by)))
      ∧ scan_engine.get_regions
            (one_region_process 0x1000 (raw_bytes ([5, 10, 15, 25, 30, 35] : List int32_t)))
            (0x1000, 0x1018) (PAGE_READWRITE ||| PAGE_WRITECOPY) 4
          = some [memory_region.ctor ⟨0x1000, 24, MEM_COMMIT, PAGE_READWRITE, 0x20000⟩])
    ∧ (∃ cmp : int32_t → int32_t → Option int32_t → Bool,
          compare scan_type.value_between = some cmp ∧ ∀ a b : int32_t, cmp a b none = false)
    ∧ ∃ (e1 : scan_engine_templated int32_t) (g1 : globals),
        (scan_engine_templated.ctor 1 : scan_engine_templated int32_t).scan
            (one_region_process 0x1000 (raw_bytes ([5, 10, 15, 25, 30, 35] : List int32_t)))
            (0x1000, 0x1018) scan_type.value_between 10 none fresh_globals 4
          = some (0, e1, g1)
        ∧ e1.get_results = some custom_map.ctor :=
  ⟨⟨Or.inl rfl, rfl⟩,
   scan_without_secondary (scan_engine_templated.ctor 1 : scan_engine_templated int32_t)
     (one_region_process 0x1000 (raw_bytes ([5, 10, 15, 25, 30, 35] : List int32_t)))
     (0x1000, 0x1018) scan_type.value_between 10 fresh_globals 4
     [memory_region.ctor ⟨0x1000, 24, MEM_COMMIT, PAGE_READWRITE, 0x20000⟩]
     (Or.inl rfl) (fun h => absurd rfl h) rfl⟩

/-- The scenario of the spec for `value_between`: over 5, 10, 15, 25, 30, 35 at `0x1000` the
seed pass with `v1 = 10`, `v2 = 30` returns 2 and stores 15 and 25 (both bounds strict); the
next pass of the same type without `v2` returns 0 and stores an empty map; so does a seed pass
`increased_by` without `v2`. -/
theorem scan_without_secondary_scenarios :
    (((scan_engine_templated.ctor 1 : scan_engine_templated int32_t).scan
        (one_region_process 0x1000 (raw_bytes ([5, 10, 15, 25, 30, 35] : List int32_t)))
        (0x1000, 0x1018) scan_type.value_between 10 (some 30) fresh_globals 4).bind
      (fun r => (r.2.1.scan
        (one_region_process 0x1000 (raw_bytes ([5, 10, 15, 25, 30, 35] : List int32_t)))
        (0x1000, 0x1018) scan_type.value_between 10 none r.2.2 4).map
          (fun r2 => (r.1, map_entries r.2.1._prev_scan_results, r2.1,
            map_entries r2.2.1._prev_scan_results))))
      = some (2, [(0, [(0x1008, 15), (0x100c, 25)])], 0, [])
    ∧ (((scan_engine_templated.ctor 1 : scan_engine_templated int32_t).scan
        (one_region_process 0x1000 (raw_bytes ([5, 10, 15, 25, 30, 35] : List int32_t)))
        (0x1000, 0x1018) scan_type.increased_by 5 none fresh_globals 4).map
          (fun r => (r.1, map_entries r.2.1._prev_scan_results)))
      = some (0, []) := by
  constructor <;> rfl

end scan_engine_templated

/-! ## The lockstep join -/

namespace scan_engine_templated

/-- The seed pass `exact_value` 30 over `three_regions` enumerates the three regions in
ascending order, returns 1 and stores one result, under key 2, bound to the third region; the
next pass `unchanged` over the same, unchanged target returns 0 and stores an empty map. -/
theorem lockstep_scan_scenario :
    (scan_engine.get_regions three_regions (0x1000, 0x3010) (PAGE_READWRITE ||| PAGE_WRITECOPY)
        8).map (List.map (fun r => (r.base, r.size)))
      = some [(0x1000, 16), (0x2000, 16), (0x3000, 16)]
    ∧ (((scan_engine_templated.ctor 1 : scan_engine_templated int32_t).scan three_regions
          (0x1000, 0x3010) scan_type.exact_value 30 none fresh_globals 8).bind
        (fun r => (r.2.1.scan three_regions (0x1000, 0x3010) scan_type.unchanged 0 none r.2.2
            8).map
          (fun r2 => (r.1, map_entries r.2.1._prev_scan_results, r2.1,
            map_entries r2.2.1._prev_scan_results))))
      = some (1, [(2, [(0x3008, 30)])], 0, []) := by
  constructor <;> rfl

/-- C22: the lockstep join misses an overlap.  There are a target, a prior map, a queue of new
regions in strictly ascending base order, a prior result `old` under a key of the map and a
region `R` of the queue such that `old` is bound to the address range of `R` and has entries,
the target bytes are unchanged (against `R` as read, every entry of `old` passes `unchanged`),
and yet `next_scan` with the type `unchanged` returns the count 0 and an empty map and leaves
`old` in the prior map, never compared: the prior map holds the key 2 only, for the third of
the three regions of the queue, and the one iteration of the walk pops the first region. -/
theorem next_scan_lockstep_misses_overlap :
    ∃ (p : process) (prev_scan : custom_map (scan_result int32_t))
      (regions : List memory_region) (key : Int) (old : scan_result int32_t)
      (R : memory_region),
      (regions.map memory_region.base).Pairwise (fun a b => a < b)
        ∧ prev_scan.keys = [key] ∧ prev_scan.«at» key = some old ∧ R ∈ regions
        ∧ old.region_base = some R.base ∧ old.region_size = some R.size
        ∧ old._data ≠ []
        ∧ (scan_engine.read_memory p R).1 = true
        ∧ old._data.filterMap
            (next_pass_entry scan_type.unchanged 0 none (scan_engine.read_memory p R).2)
            = old._data
        ∧ (next_scan p regions scan_type.unchanged prev_scan 0 (0 : int32_t) none
              fresh_globals).map
            (fun out => (out.1._map.length, out.2.1.keys, out.2.2.1)) = some (0, [key], 0) :=
  ⟨three_regions,
   (custom_map.ctor : custom_map (scan_result int32_t)).insert 2 third_region_match,
   [memory_region.ctor ⟨0x1000, 16, MEM_COMMIT, PAGE_READWRITE, 0x20000⟩,
    memory_region.ctor ⟨0x2000, 16, MEM_COMMIT, PAGE_READWRITE, 0x20000⟩,
    memory_region.ctor ⟨0x3000, 16, MEM_COMMIT, PAGE_READWRITE, 0x20000⟩],
   2, third_region_match,
   memory_region.ctor ⟨0x3000, 16, MEM_COMMIT, PAGE_READWRITE, 0x20000⟩,
   by decide, rfl, rfl,
   List.mem_cons_of_mem _ (List.mem_cons_of_mem _ (List.mem_cons_self _ _)),
   rfl, rfl, List.cons_ne_nil _ _, rfl, rfl, rfl⟩

end scan_engine_templated

/-! ## Successive calls of scan -/

namespace scan_engine_templated
variable {T : Type} [scalar T]

theorem compare_none_iff (type : scan_type) :
    (compare type : Option (T → T → Option T → Bool)) = none ↔ type = scan_type.unknown_value := by
  cases type <;> simp [compare]

theorem first_scan_total (p : process) (regions : List memory_region) (type : scan_type)
    (v1 : T) (v2 : Option T) (g : globals) (hfresh : ∀ r ∈ regions, r._discarded = false) :
    ∃ (results : custom_map (scan_result T)) (total : Nat) (g1 : globals),
      first_scan p regions type 0 v1 v2 g = some (results, total, g1) := by
  cases hc : (compare type : Option (T → T → Option T → Bool)) with
  | none =>
    have ht := (compare_none_iff type).mp hc
    subst ht
    exact ⟨_, _, _, first_scan_loop_unknown p v1 v2 regions 0 custom_map.ctor 0 g
      (by intro x hx; simp [custom_map.ctor] at hx)⟩
  | some cmp =>
    exact ⟨_, _, _, first_scan_loop_known p type cmp hc v1 v2 regions 0 custom_map.ctor 0 g hfresh
      (by intro x hx; simp [custom_map.ctor] at hx)⟩

theorem scan_next_eq (e : scan_engine_templated T) (p : process) (range : Nat × Nat)
    (type : scan_type) (v1 : T) (v2 : Option T) (g : globals) (fuel : Nat)
    (prev_scan : custom_map (scan_result T)) (regions : List memory_region)
    (hnext : e._current_scan ≠ 0) (hprev : e._prev_scan_results = some prev_scan)
    (hregions : scan_engine.get_regions p range (PAGE_READWRITE ||| PAGE_WRITECOPY) fuel
      = some regions) :
    e.scan p range type v1 v2 g fuel
      = (next_scan p regions type prev_scan 0 v1 v2 g).map
          (fun out => (out.2.2.1, { e with _prev_scan_results := some out.1 }, out.2.2.2)) := by
  simp only [scan, hregions, hnext, if_false, hprev]
  cases next_scan p regions type prev_scan 0 v1 v2 g with
  | none => rfl
  | some out => rfl

theorem scan_keeps_next (e : scan_engine_templated T) (p : process) (range : Nat × Nat)
    (type : scan_type) (v1 : T) (v2 : Option T) (g : globals) (fuel : Nat) (n : Nat)
    (e1 : scan_engine_templated T) (g1 : globals) (hnext : e._current_scan ≠ 0)
    (h : e.scan p range type v1 v2 g fuel = some (n, e1, g1)) :
    e1._current_scan = e._current_scan ∧ e1._prev_scan_results ≠ none := by
  cases hr : scan_engine.get_regions p range (PAGE_READWRITE ||| PAGE_WRITECOPY) fuel with
  | none => simp [scan, hr] at h
  | some regions =>
    cases hp : e._prev_scan_results with
    | none => simp [scan, hr, hnext, hp] at h
    | some prev_scan =>
      rw [scan_next_eq e p range type v1 v2 g fuel prev_scan regions hnext hp hr] at h
      cases hn : next_scan p regions type prev_scan 0 v1 v2 g with
      | none => simp [hn] at h
      | some out =>
        simp only [hn, Option.map_some', Option.some.injEq, Prod.mk.injEq] at h
        obtain ⟨_, h2, _⟩ := h
        subst h2
        exact ⟨rfl, by simp⟩

theorem scans_keep_next (cs : List (scan_call T)) :
    ∀ (e : scan_engine_templated T) (g : globals) (counts : List Nat)
      (e2 : scan_engine_templated T) (g2 : globals),
      e._current_scan = 1 → e._prev_scan_results ≠ none →
      scans cs e g = some (counts, e2, g2) →
      e2._current_scan = 1 ∧ e2._prev_scan_results ≠ none := by
  induction cs with
  | nil =>
    intro e g counts e2 g2 h1 h2 h
    simp only [scans, Option.some.injEq, Prod.mk.injEq] at h
    obtain ⟨_, he, _⟩ := h
    subst he
    exact ⟨h1, h2⟩
  | cons c cs ih =>
    intro e g counts e2 g2 h1 h2 h
    simp only [scans] at h
    cases hs : e.scan c.p c.range c.type c.value1 c.value2 g c.fuel with
    | none => simp [hs] at h
    | some out =>
      obtain ⟨n, e1, g1⟩ := out
      simp only [hs] at h
      cases hrest : scans cs e1 g1 with
      | none => simp [hrest] at h
      | some out2 =>
        obtain ⟨ns, e3, g3⟩ := out2
        simp only [hrest, Option.some.injEq, Prod.mk.injEq] at h
        obtain ⟨_, he, _⟩ := h
        subst he
        have hk := scan_keeps_next e c.p c.range c.type c.value1 c.value2 g c.fuel n e1 g1
          (by rw [h1]; decide) hs
        exact ih e1 g1 ns e3 g3 (by rw [hk.1, h1]) hk.2 hrest

theorem scan_of_empty_map (e : scan_engine_templated T) (p : process) (range : Nat × Nat)
    (type : scan_type) (v1 : T) (v2 : Option T) (g : globals) (fuel : Nat)
    (hnext : e._current_scan ≠ 0) (hprev : e._prev_scan_results = some custom_map.ctor)
    (hregions : (scan_engine.get_regions p range (PAGE_READWRITE ||| PAGE_WRITECOPY)
      fuel).isSome = true) :
    e.scan p range type v1 v2 g fuel = some (0, e, g) := by
  cases hr : scan_engine.get_regions p range (PAGE_READWRITE ||| PAGE_WRITECOPY) fuel with
  | none => simp [hr] at hregions
  | some regions =>
    rw [scan_next_eq e p range type v1 v2 g fuel custom_map.ctor regions hnext hprev hr]
    have hl : next_scan p regions type (custom_map.ctor : custom_map (scan_result T)) 0 v1 v2 g
        = some (custom_map.ctor, custom_map.ctor, 0, g) := by
      simp [next_scan, custom_map.keys, custom_map.ctor, next_scan_loop]
    rw [hl]
    simp only [Option.map_some', Option.some.injEq, Prod.mk.injEq, and_true, true_and]
    cases e with
    | mk base prev =>
      simp only at hprev
      rw [hprev]

theorem scans_of_empty_map (cs : List (scan_call T)) :
    ∀ (e : scan_engine_templated T) (g : globals),
      e._current_scan ≠ 0 → e._prev_scan_results = some custom_map.ctor →
      (∀ d ∈ cs, (scan_engine.get_regions d.p d.range (PAGE_READWRITE ||| PAGE_WRITECOPY)
        d.fuel).isSome = true) →
      scans cs e g = some (List.replicate cs.length 0, e, g) := by
  induction cs with
  | nil =>
    intro e g _ _ _
    rfl
  | cons c cs ih =>
    intro e g h1 h2 hall
    simp only [scans]
    rw [scan_of_empty_map e c.p c.range c.type c.value1 c.value2 g c.fuel h1 h2
      (hall c (List.mem_cons_self _ _))]
    simp only
    rw [ih e g h1 h2 (fun d hd => hall d (List.mem_cons_of_mem _ hd))]
    rfl

/-- C23: the seed path is taken exactly once.  The first call of `scan` on an engine as
constructed runs `first_scan` over the enumerated regions, whatever the type, stores its map
and sets `_current_scan` to 1.  A call on an engine whose `_current_scan` is not 0 runs
`next_scan` against the stored map, and after any number of later calls `_current_scan` is
still 1 and a map is stored, so no later call takes the seed path.  If the first call stored
an empty map, every sequence of later calls (whose enumerations end) returns 0 each time and
leaves an empty map stored, for every type, value and target. -/
theorem seed_path_taken_once (pid : Int) (c : scan_call T) (g : globals)
    (regions : List memory_region)
    (hregions : scan_engine.get_regions c.p c.range (PAGE_READWRITE ||| PAGE_WRITECOPY) c.fuel
      = some regions) :
    ∃ (results : custom_map (scan_result T)) (total : Nat) (g1 : globals),
      first_scan c.p regions c.type 0 c.value1 c.value2 g = some (results, total, g1)
        ∧ (scan_engine_templated.ctor pid : scan_engine_templated T).scan c.p c.range c.type
              c.value1 c.value2 g c.fuel
            = some (total, { _pid := pid, _current_scan := 1, _prev_scan_results := some results },
                g1)
        ∧ (∀ (e : scan_engine_templated T) (d : scan_call T) (g2 : globals)
              (prev_scan : custom_map (scan_result T)) (regions2 : List memory_region),
            e._current_scan ≠ 0 → e._prev_scan_results = some prev_scan →
            scan_engine.get_regions d.p d.range (PAGE_READWRITE ||| PAGE_WRITECOPY) d.fuel
              = some regions2 →
            e.scan d.p d.range d.type d.value1 d.value2 g2 d.fuel
              = (next_scan d.p regions2 d.type prev_scan 0 d.value1 d.value2 g2).map
                  (fun out => (out.2.2.1, { e with _prev_scan_results := some out.1 },
                    out.2.2.2)))
        ∧ (∀ (cs : List (scan_call T)) (counts : List Nat) (e2 : scan_engine_templated T)
              (g2 : globals),
            scans cs { _pid := pid, _current_scan := 1, _prev_scan_results := some results } g1
              = some (counts, e2, g2) →
            e2._current_scan = 1 ∧ e2._prev_scan_results ≠ none)
        ∧ (results._map = [] → ∀ cs : List (scan_call T),
            (∀ d ∈ cs, (scan_engine.get_regions d.p d.range (PAGE_READWRITE ||| PAGE_WRITECOPY)
              d.fuel).isSome = true) →
            ∃ e2 : scan_engine_templated T,
              scans cs { _pid := pid, _current_scan := 1, _prev_scan_results := some results } g1
                  = some (List.replicate cs.length 0, e2, g1)
                ∧ e2.get_results = some custom_map.ctor) := by
  have hfresh := scan_engine.get_regions_loop_fresh c.p c.range _ c.fuel c.range.1 regions hregions
  obtain ⟨results, total, g1, hfirst⟩ :=
    first_scan_total c.p regions c.type c.value1 c.value2 g hfresh
  refine ⟨results, total, g1, hfirst, ?_, ?_, ?_, ?_⟩
  · simp only [scan, hregions, scan_engine_templated.ctor, if_true, hfirst]
  · intro e d g2 prev_scan regions2 hn hp hr
    exact scan_next_eq e d.p d.range d.type d.value1 d.value2 g2 d.fuel prev_scan regions2 hn hp hr
  · intro cs counts e2 g2 h
    exact scans_keep_next cs _ g1 counts e2 g2 rfl (by simp) h
  · intro hempty cs hall
    have hres : results = custom_map.ctor := by
      cases results with
      | mk m =>
        simp only at hempty
        rw [hempty]
        rfl
    subst hres
    exact ⟨_, scans_of_empty_map cs _ g1 Nat.one_ne_zero rfl hall, rfl⟩

theorem seed_path_taken_once_witness :
    scan_engine.get_regions
        (one_region_process 0x1000 (raw_bytes ([10, 20, 30, 40] : List int32_t)))
        (0x1000, 0x1010) (PAGE_READWRITE ||| PAGE_WRITECOPY) 4
      = some [memory_region.ctor ⟨0x1000, 16, MEM_COMMIT, PAGE_READWRITE, 0x20000⟩]
    ∧ ∃ (results : custom_map (scan_result int32_t)) (total : Nat) (g1 : globals),
      first_scan (one_region_process 0x1000 (raw_bytes ([10, 20, 30, 40] : List int32_t)))
          [memory_region.ctor ⟨0x1000, 16, MEM_COMMIT, PAGE_READWRITE, 0x20000⟩]
          scan_type.exact_value 0 (5 : int32_t) none fresh_globals = some (results, total, g1)
        ∧ (scan_engine_templated.ctor 1 : scan_engine_templated int32_t).scan
              (one_region_process 0x1000 (raw_bytes ([10, 20, 30, 40] : List int32_t)))
              (0x1000, 0x1010) scan_type.exact_value 5 none fresh_globals 4
            = some (total, { _pid := 1, _current_scan := 1, _prev_scan_results := some results },
                g1) :=
  ⟨rfl,
   (seed_path_taken_once 1
      (⟨one_region_process 0x1000 (raw_bytes ([10, 20, 30, 40] : List int32_t)),
        (0x1000, 0x1010), scan_type.exact_value, 5, none, 4⟩ : scan_call int32_t)
      fresh_globals [memory_region.ctor ⟨0x1000, 16, MEM_COMMIT, PAGE_READWRITE, 0x20000⟩]
      rfl).imp
     (fun _ h => h.imp (fun _ h => h.imp (fun _ h => ⟨h.1, h.2.1⟩)))⟩

/-- The scenario of the spec: over 10, 20, 30, 40 at `0x1000` the seed pass `exact_value` 5
returns 0 and stores a present, empty map; a later `exact_value` 30 and a later `bigger_than` 0,
which would both match in a seed pass, then return 0 and leave the map empty. -/
theorem scans_after_empty_seed_scenario :
    ((scan_engine_templated.ctor 1 : scan_engine_templated int32_t).scans
        [⟨one_region_process 0x1000 (raw_bytes ([10, 20, 30, 40] : List int32_t)),
            (0x1000, 0x1010), scan_type.exact_value, 5, none, 4⟩,
         ⟨one_region_process 0x1000 (raw_bytes ([10, 20, 30, 40] : List int32_t)),
            (0x1000, 0x1010), scan_type.exact_value, 30, none, 4⟩,
         ⟨one_region_process 0x1000 (raw_bytes ([10, 20, 30, 40] : List int32_t)),
            (0x1000, 0x1010), scan_type.bigger_than, 0, none, 4⟩]
        fresh_globals).map
      (fun out => (out.1, out.2.1._current_scan, map_entries out.2.1._prev_scan_results))
      = some ([0, 0, 0], 1, []) := rfl

end scan_engine_templated

/-! ## The ordering invariant of the stored map -/

namespace scan_engine

theorem get_regions_loop_offset (p : process) (range : Nat × Nat) (flags : Nat) :
    ∀ (fuel cur : Nat) (regions : List memory_region),
      get_regions_loop p range flags fuel cur = some regions →
      ∀ r ∈ regions, r._file_offset ≠ none := by
  intro fuel
  induction fuel with
  | zero =>
    intro cur regions h r hr
    by_cases hlt : cur < range.2
    · simp [get_regions_loop, hlt] at h
    · simp only [get_regions_loop, hlt, if_false, Option.some.injEq] at h
      subst h
      simp at hr
  | succ fuel ih =>
    intro cur regions h r hr
    by_cases hlt : cur < range.2
    · cases hq : p.VirtualQueryEx cur with
      | none =>
        simp only [get_regions_loop, hlt, if_true, hq, Option.some.injEq] at h
        subst h
        simp at hr
      | some mbi =>
        cases hl : get_regions_loop p range flags fuel
            ((clamp_to_range range mbi).BaseAddress + (clamp_to_range range mbi).RegionSize) with
        | none => simp [get_regions_loop, hlt, hq, hl] at h
        | some rest =>
          simp only [get_regions_loop, hlt, if_true, hq, hl] at h
          split at h
          · simp only [Option.some.injEq] at h
            subst h
            rcases List.mem_cons.mp hr with h2 | h2
            · rw [h2]
              simp [memory_region.ctor, dumpable.ctor]
            · exact ih _ _ hl r h2
          · simp only [Option.some.injEq] at h
            subst h
            exact ih _ _ hl r hr
    · simp only [get_regions_loop, hlt, if_false, Option.some.injEq] at h
      subst h
      simp at hr

theorem read_memory_keeps (p : process) (R : memory_region) :
    (read_memory p R).2.base = R.base ∧ (read_memory p R).2._file_offset = R._file_offset := by
  unfold read_memory memory_region.read_data
  simp only
  split <;> exact ⟨rfl, rfl⟩

end scan_engine

theorem seed_entries_nil {T : Type} (regions : List memory_region) (i : Nat) :
    seed_entries_ok regions i ([] : List (Int × scan_result T)) :=
  ⟨List.Pairwise.nil, fun kv h => by simp at h⟩

theorem seed_entries_skip {T : Type} (r : memory_region) (rs : List memory_region) (i : Nat)
    (entries : List (Int × scan_result T)) (h : seed_entries_ok rs (i + 1) entries) :
    seed_entries_ok (r :: rs) i entries := by
  refine ⟨h.1, ?_⟩
  intro kv hkv
  obtain ⟨h1, h2, h3, x, hx, hb⟩ := h.2 kv hkv
  refine ⟨?_, h2, h3, x, List.mem_cons_of_mem _ hx, hb⟩
  have : ((i + 1 : Nat) : Int) = (i : Int) + 1 := by push_cast; rfl
  omega

theorem seed_entries_cons {T : Type} (r : memory_region) (rs : List memory_region) (i : Nat)
    (res : scan_result T) (entries : List (Int × scan_result T))
    (hasc : ((r :: rs).map memory_region.base).Pairwise (fun a b => a < b))
    (hidx : res.index = i) (huse : res.usable) (hbase : res.region_base = some r.base)
    (h : seed_entries_ok rs (i + 1) entries) :
    seed_entries_ok (r :: rs) i (((i : Int), res) :: entries) := by
  have hskip := seed_entries_skip r rs i entries h
  have hlt : ∀ x ∈ rs, r.base < x.base := by
    intro x hx
    have := (List.pairwise_cons.mp hasc).1 x.base (List.mem_map_of_mem _ hx)
    exact this
  refine ⟨List.pairwise_cons.mpr ⟨?_, h.1⟩, ?_⟩
  · intro kv hkv
    obtain ⟨h1, _, _, x, hx, hb⟩ := h.2 kv hkv
    refine ⟨?_, r.base, x.base, hbase, hb, hlt x hx⟩
    have : ((i + 1 : Nat) : Int) = (i : Int) + 1 := by push_cast; rfl
    simp only
    omega
  · intro kv hkv
    rcases List.mem_cons.mp hkv with h1 | h1
    · rw [h1]
      exact ⟨le_refl _, by simp only [hidx], huse, r, List.mem_cons_self _ _, hbase⟩
    · exact hskip.2 kv h1

namespace scan_engine_templated
variable {T : Type} [scalar T]

theorem first_pass_results_ok (p : process) (type : scan_type) (cmp : T → T → Option T → Bool)
    (v1 : T) (v2 : Option T) (regions : List memory_region) :
    ∀ (i : Nat), (regions.map memory_region.base).Pairwise (fun a b => a < b) →
      (∀ r ∈ regions, r._file_offset ≠ none) →
      seed_entries_ok regions i (first_pass_results p type cmp v1 v2 regions i) := by
  induction regions with
  | nil =>
    intro i _ _
    exact seed_entries_nil _ _
  | cons r rs ih =>
    intro i hasc hoff
    have hrec := ih (i + 1) (List.pairwise_cons.mp hasc).2
      (fun x hx => hoff x (List.mem_cons_of_mem _ hx))
    simp only [first_pass_results]
    split
    · refine seed_entries_cons r rs i _ _ hasc rfl ?_ ?_ hrec
      · refine ⟨rfl, (scan_engine.read_memory p r).2, rfl, ?_⟩
        rw [(scan_engine.read_memory_keeps p r).2]
        exact hoff r (List.mem_cons_self _ _)
      · show some (scan_engine.read_memory p r).2.base = some r.base
        rw [(scan_engine.read_memory_keeps p r).1]
    · exact seed_entries_skip r rs i _ hrec

omit [scalar T] in
theorem seed_unknown_results_ok (p : process) (regions : List memory_region) :
    ∀ (i : Nat) (md : file_dump),
      (regions.map memory_region.base).Pairwise (fun a b => a < b) →
      seed_entries_ok regions i (seed_unknown_results p regions i md : List (Int × scan_result T)) := by
  induction regions with
  | nil =>
    intro i md _
    exact seed_entries_nil _ _
  | cons r rs ih =>
    intro i md hasc
    have hrec := fun md1 => ih (i + 1) md1 (List.pairwise_cons.mp hasc).2
    simp only [seed_unknown_results]
    split
    · split
      · rename_i hdump
        obtain ⟨_, _, ho, hsome, _, _, _, _, hh, _⟩ :=
          memory_region.dump_discard_ok (scan_engine.read_memory p r).2 md hdump
        refine seed_entries_cons r rs i _ _ hasc rfl ?_ ?_ (hrec _)
        · refine ⟨rfl, _, rfl, ?_⟩
          rw [ho]
          intro hn
          rw [hn] at hsome
          exact absurd hsome (by decide)
        · show some ((scan_engine.read_memory p r).2.dump true md).2.1.base = some r.base
          simp only [memory_region.base, hh]
          exact congrArg some (scan_engine.read_memory_keeps p r).1
      · exact seed_entries_skip r rs i _ (hrec _)
    · exact seed_entries_skip r rs i _ (hrec _)

/-- The map a seed pass stores satisfies the ordering invariant, when the queue ascends. -/
theorem first_scan_ordered (p : process) (regions : List memory_region) (type : scan_type)
    (v1 : T) (v2 : Option T) (g : globals)
    (hfresh : ∀ r ∈ regions, r._discarded = false)
    (hoff : ∀ r ∈ regions, r._file_offset ≠ none)
    (hasc : (regions.map memory_region.base).Pairwise (fun a b => a < b)) :
    ∃ (results : custom_map (scan_result T)) (total : Nat) (g1 : globals),
      first_scan p regions type 0 v1 v2 g = some (results, total, g1) ∧ results.stored_ok := by
  cases hc : (compare type : Option (T → T → Option T → Bool)) with
  | none =>
    have ht := (compare_none_iff type).mp hc
    subst ht
    have hl := first_scan_loop_unknown p v1 v2 regions 0 custom_map.ctor 0 g
      (by intro x hx; simp [custom_map.ctor] at hx)
    have hok := seed_unknown_results_ok (T := T) p regions 0 g.memory_dump hasc
    refine ⟨_, _, _, hl, ?_⟩
    simp only [custom_map.ctor, List.nil_append]
    exact ⟨hok.1, fun kv hkv => ⟨(hok.2 kv hkv).2.1, (hok.2 kv hkv).2.2.1⟩⟩
  | some cmp =>
    have hl := first_scan_loop_known p type cmp hc v1 v2 regions 0 custom_map.ctor 0 g hfresh
      (by intro x hx; simp [custom_map.ctor] at hx)
    have hok := first_pass_results_ok p type cmp v1 v2 regions 0 hasc hoff
    refine ⟨_, _, _, hl, ?_⟩
    simp only [custom_map.ctor, List.nil_append]
    exact ⟨hok.1, fun kv hkv => ⟨(hok.2 kv hkv).2.1, (hok.2 kv hkv).2.2.1⟩⟩

theorem next_scan_loop_ordered (p : process) (type : scan_type) (v1 : T) (v2 : Option T) :
    ∀ (keys : List Int) (regions : List memory_region)
      (prev_scan results : custom_map (scan_result T)) (total_entries : Nat) (g : globals),
      keys.Pairwise (fun a b => a < b) →
      (∀ key ∈ keys, ∃ old, prev_scan.«at» key = some old ∧ old.usable
        ∧ (old.index : Int) = key) →
      (regions.map memory_region.base).Pairwise (fun a b => a < b) →
      (∀ R ∈ regions, R._discarded = false ∧ R._file_offset ≠ none) →
      results.stored_ok →
      (∀ kv ∈ results._map, (∀ key ∈ keys, kv.1 < key)
        ∧ ∀ R ∈ regions, ∀ x, kv.2.region_base = some x → x < R.base) →
      ∃ (prev1 results1 : custom_map (scan_result T)) (total1 : Nat) (g1 : globals),
        next_scan_loop p type v1 v2 keys regions prev_scan results total_entries g
            = some (prev1, results1, total1, g1)
          ∧ results1.stored_ok := by
  intro keys
  induction keys with
  | nil =>
    intro regions prev_scan results total_entries g _ _ _ _ hok _
    exact ⟨prev_scan, results, total_entries, g, by simp [next_scan_loop], hok⟩
  | cons key keys ih =>
    intro regions prev_scan results total_entries g hkasc hkeys hrasc hregs hok hbound
    cases regions with
    | nil => exact ⟨prev_scan, results, total_entries, g, by simp [next_scan_loop], hok⟩
    | cons R regions =>
      obtain ⟨old, hat, husable, hidx⟩ := hkeys key (List.mem_cons_self _ _)
      obtain ⟨_, r, hreg, _⟩ := id husable
      have hb : old.region_base = some r.base := by
        simp only [scan_result.region_base, hreg]
        rfl
      have hs : old.region_size = some r.size := by
        simp only [scan_result.region_size, hreg]
        rfl
      have hkasc_tail := (List.pairwise_cons.mp hkasc).2
      have hklt : ∀ k ∈ keys, key < k := (List.pairwise_cons.mp hkasc).1
      have hne : ∀ k ∈ keys, k ≠ key := fun k hk hkk => by
        have := hklt k hk
        omega
      have hrasc_tail : (regions.map memory_region.base).Pairwise (fun a b => a < b) :=
        (List.pairwise_cons.mp hrasc).2
      have hrlt : ∀ x ∈ regions, R.base < x.base := fun x hx =>
        (List.pairwise_cons.mp hrasc).1 x.base (List.mem_map_of_mem _ hx)
      have hregs_tail : ∀ x ∈ regions, x._discarded = false ∧ x._file_offset ≠ none :=
        fun x hx => hregs x (List.mem_cons_of_mem _ hx)
      have hkeys_tail : ∀ k ∈ keys, ∃ old, prev_scan.«at» k = some old ∧ old.usable
          ∧ (old.index : Int) = k :=
        fun k hk => hkeys k (List.mem_cons_of_mem _ hk)
      have hkeys_erase : ∀ k ∈ keys, ∃ old, (prev_scan.erase key).2.«at» k = some old
          ∧ old.usable ∧ (old.index : Int) = k := by
        intro k hk
        obtain ⟨o, ho, hu, hi⟩ := hkeys_tail k hk
        exact ⟨o, by rw [custom_map.at_erase_ne _ _ _ (hne k hk)]; exact ho, hu, hi⟩
      have hbound_tail : ∀ kv ∈ results._map, (∀ k ∈ keys, kv.1 < k)
          ∧ ∀ x ∈ regions, ∀ y, kv.2.region_base = some y → y < x.base :=
        fun kv hkv => ⟨fun k hk => (hbound kv hkv).1 k (List.mem_cons_of_mem _ hk),
          fun x hx => (hbound kv hkv).2 x (List.mem_cons_of_mem _ hx)⟩
      rw [next_scan_loop]
      simp only [hat, hb, hs]
      by_cases h1 : r.base + r.size < R.base
      · simp only [h1, if_true]
        exact ih regions (prev_scan.erase key).2 results total_entries g hkasc_tail hkeys_erase
          hrasc_tail hregs_tail hok hbound_tail
      · by_cases h3 : r.base < R.base + R.size
        · simp only [h1, h3, if_true, if_false]
          obtain ⟨results2, g2, found, htask, hnil, hcons, _, _⟩ :=
            next_scan_task_total p old R type v1 v2 results total_entries g husable
              (hregs R (List.mem_cons_self _ _)).1
          rw [htask]
          simp only
          by_cases hf : found = []
          · rw [hnil hf]
            exact ih regions (prev_scan.erase key).2 results (total_entries + found.length) g2
              hkasc_tail hkeys_erase hrasc_tail hregs_tail hok hbound_tail
          · obtain ⟨result, hins, _, hridx, hrdisc, hrreg⟩ := hcons hf
            have hrbase : result.region_base = some R.base := by
              simp only [scan_result.region_base, hrreg, Option.map_some']
              exact congrArg some (scan_engine.read_memory_keeps p R).1
            have hruse : result.usable := by
              refine ⟨hrdisc, _, hrreg, ?_⟩
              rw [(scan_engine.read_memory_keeps p R).2]
              exact (hregs R (List.mem_cons_self _ _)).2
            have hkeylt : ∀ e ∈ results._map, e.1 < ((old.index : Nat) : Int) := by
              intro e he
              rw [hidx]
              exact (hbound e he).1 key (List.mem_cons_self _ _)
            have hmap : results2._map = results._map ++ [((old.index : Int), result)] := by
              rw [hins]
              exact custom_map.assign_append _ _ _ hkeylt
            have hok2 : results2.stored_ok := by
              refine ⟨?_, ?_⟩
              · rw [hmap]
                refine List.pairwise_append.mpr ⟨hok.1, List.pairwise_singleton _ _, ?_⟩
                intro a ha b hb2
                rw [List.mem_singleton] at hb2
                subst hb2
                obtain ⟨_, ra, hra, _⟩ := (hok.2 a ha).2
                have hab : a.2.region_base = some ra.base := by
                  simp only [scan_result.region_base, hra, Option.map_some']
                exact ⟨hkeylt a ha, ra.base, R.base, hab, hrbase,
                  (hbound a ha).2 R (List.mem_cons_self _ _) _ hab⟩
              · intro kv hkv
                rw [hmap] at hkv
                rcases List.mem_append.mp hkv with h | h
                · exact hok.2 kv h
                · rw [List.mem_singleton] at h
                  subst h
                  exact ⟨by simp only [hridx], hruse⟩
            have hbound2 : ∀ kv ∈ results2._map, (∀ k ∈ keys, kv.1 < k)
                ∧ ∀ x ∈ regions, ∀ y, kv.2.region_base = some y → y < x.base := by
              intro kv hkv
              rw [hmap] at hkv
              rcases List.mem_append.mp hkv with h | h
              · exact hbound_tail kv h
              · rw [List.mem_singleton] at h
                subst h
                refine ⟨fun k hk => ?_, fun x hx y hy => ?_⟩
                · simp only [hidx]
                  exact hklt k hk
                · simp only [hrbase, Option.some.injEq] at hy
                  rw [← hy]
                  exact hrlt x hx
            exact ih regions (prev_scan.erase key).2 results2 (total_entries + found.length) g2
              hkasc_tail hkeys_erase hrasc_tail hregs_tail hok2 hbound2
        · simp only [h1, h3, if_false]
          exact ih regions prev_scan results total_entries g hkasc_tail hkeys_tail hrasc_tail
            hregs_tail hok hbound_tail

omit [scalar T] in
theorem stored_ok_keys (m : custom_map (scan_result T)) (h : m.stored_ok) :
    m.keys.Pairwise (fun a b => a < b) :=
  List.pairwise_map.mpr (h.1.imp (fun hab => hab.1))

/-- One call of `scan` on an engine whose stored map, if it has made a pass, satisfies the
ordering invariant, over a queue that ascends: the call returns and the map it stores
satisfies the invariant. -/
theorem scan_ordered (e : scan_engine_templated T) (p : process) (range : Nat × Nat)
    (type : scan_type) (v1 : T) (v2 : Option T) (g : globals) (fuel : Nat)
    (regions : List memory_region)
    (hinv : e._current_scan ≠ 0 → ∃ m, e._prev_scan_results = some m ∧ m.stored_ok)
    (hregions : scan_engine.get_regions p range (PAGE_READWRITE ||| PAGE_WRITECOPY) fuel
      = some regions)
    (hasc : (regions.map memory_region.base).Pairwise (fun a b => a < b)) :
    ∃ (n : Nat) (e1 : scan_engine_templated T) (g1 : globals) (m1 : custom_map (scan_result T)),
      e.scan p range type v1 v2 g fuel = some (n, e1, g1)
        ∧ e1._current_scan ≠ 0 ∧ e1._prev_scan_results = some m1 ∧ m1.stored_ok := by
  have hfresh := scan_engine.get_regions_loop_fresh p range _ fuel range.1 regions hregions
  have hoff := scan_engine.get_regions_loop_offset p range _ fuel range.1 regions hregions
  by_cases hfirst : e._current_scan = 0
  · obtain ⟨results, total, g1, hl, hok⟩ :=
      first_scan_ordered p regions type v1 v2 g hfresh hoff hasc
    refine ⟨total, { e with _prev_scan_results := some results, _current_scan := 1 }, g1,
      results, ?_, Nat.one_ne_zero, rfl, hok⟩
    simp only [scan, hregions, hfirst, if_true, hl]
  · obtain ⟨m, hp, hok⟩ := hinv hfirst
    have hkeys : ∀ key ∈ m.keys, ∃ old, m.«at» key = some old ∧ old.usable
        ∧ (old.index : Int) = key := by
      intro key hk
      obtain ⟨v, hv, hmem⟩ := custom_map.at_of_mem_keys m key hk
      exact ⟨v, hv, (hok.2 _ hmem).2, (hok.2 _ hmem).1⟩
    obtain ⟨prev1, results1, total1, g1, hl, hok1⟩ :=
      next_scan_loop_ordered p type v1 v2 m.keys regions m custom_map.ctor 0 g
        (stored_ok_keys m hok) hkeys hasc (fun R hR => ⟨hfresh R hR, hoff R hR⟩)
        ⟨List.Pairwise.nil, fun kv hkv => by simp [custom_map.ctor] at hkv⟩
        (fun kv hkv => by simp [custom_map.ctor] at hkv)
    refine ⟨total1, { e with _prev_scan_results := some results1 }, g1, results1, ?_, hfirst,
      rfl, hok1⟩
    simp only [scan, hregions, hfirst, if_false, hp, next_scan, hl]

theorem scans_ordered (cs : List (scan_call T)) :
    ∀ (e : scan_engine_templated T) (g : globals),
      (e._current_scan ≠ 0 → ∃ m, e._prev_scan_results = some m ∧ m.stored_ok) →
      (∀ c ∈ cs, ∃ regions : List memory_region,
        scan_engine.get_regions c.p c.range (PAGE_READWRITE ||| PAGE_WRITECOPY) c.fuel
          = some regions
        ∧ (regions.map memory_region.base).Pairwise (fun a b => a < b)) →
      ∃ (counts : List Nat) (e2 : scan_engine_templated T) (g2 : globals),
        scans cs e g = some (counts, e2, g2)
          ∧ (e2._current_scan ≠ 0 → ∃ m, e2._prev_scan_results = some m ∧ m.stored_ok)
          ∧ (cs ≠ [] → e2._current_scan ≠ 0) := by
  induction cs with
  | nil =>
    intro e g hinv _
    exact ⟨[], e, g, rfl, hinv, fun h => absurd rfl h⟩
  | cons c cs ih =>
    intro e g hinv hall
    obtain ⟨regions, hr, hasc⟩ := hall c (List.mem_cons_self _ _)
    obtain ⟨n, e1, g1, m1, hs, hne1, hp1, hok1⟩ :=
      scan_ordered e c.p c.range c.type c.value1 c.value2 g c.fuel regions hinv hr hasc
    obtain ⟨counts, e2, g2, hrest, hinv2, _⟩ :=
      ih e1 g1 (fun _ => ⟨m1, hp1, hok1⟩) (fun d hd => hall d (List.mem_cons_of_mem _ hd))
    refine ⟨n :: counts, e2, g2, ?_, hinv2, fun _ => ?_⟩
    · simp only [scans, hs, hrest]
    · cases cs with
      | nil =>
        simp only [scans, Option.some.injEq, Prod.mk.injEq] at hrest
        obtain ⟨_, he, _⟩ := hrest
        rw [← he]
        exact hne1
      | cons d ds =>
        obtain ⟨r2, hr2, ha2⟩ := hall d (List.mem_cons_of_mem _ (List.mem_cons_self _ _))
        have := ih e1 g1 (fun _ => ⟨m1, hp1, hok1⟩)
          (fun d hd => hall d (List.mem_cons_of_mem _ hd))
        obtain ⟨c3, e3, g3, h3, _, hne3⟩ := this
        rw [hrest] at h3
        simp only [Option.some.injEq, Prod.mk.injEq] at h3
        obtain ⟨_, he, _⟩ := h3
        rw [he]
        exact hne3 (List.cons_ne_nil _ _)

/-- C21: the ordering invariant of the stored map.  From the construction of the engine, after
any sequence of `scan` calls (a seed pass, then next passes) in each of which the enumerated
queue is strictly ascending by base address, every call has returned, a map is stored, each
result in it has `index()` equal to its key, the keys ascend strictly along the map, and so do
the bases of the regions the results are bound to. -/
theorem stored_map_ordered (pid : Int) (cs : List (scan_call T)) (g : globals) (hne : cs ≠ [])
    (hasc : ∀ c ∈ cs, ∃ regions : List memory_region,
      scan_engine.get_regions c.p c.range (PAGE_READWRITE ||| PAGE_WRITECOPY) c.fuel
        = some regions
      ∧ (regions.map memory_region.base).Pairwise (fun a b => a < b)) :
    ∃ (counts : List Nat) (e : scan_engine_templated T) (g1 : globals)
      (m : custom_map (scan_result T)),
      scans cs (scan_engine_templated.ctor pid) g = some (counts, e, g1)
        ∧ e.get_results = some m
        ∧ (∀ kv ∈ m._map, (kv.2.index : Int) = kv.1)
        ∧ m.ordered
        ∧ m._map.Pairwise (fun a b => ∃ x y : Nat,
            a.2.region_base = some x ∧ b.2.region_base = some y ∧ x < y) := by
  obtain ⟨counts, e, g1, hs, hinv, hcur⟩ :=
    scans_ordered cs (scan_engine_templated.ctor pid) g (fun h => absurd rfl h) hasc
  obtain ⟨m, hp, hok⟩ := hinv (hcur hne)
  exact ⟨counts, e, g1, m, hs, hp, fun kv hkv => (hok.2 kv hkv).1, stored_ok_keys m hok,
    hok.1.imp (fun hab => hab.2)⟩

theorem stored_map_ordered_witness :
    ([⟨three_regions, (0x1000, 0x3010), scan_type.bigger_than, 0, none, 8⟩,
      ⟨three_regions, (0x1000, 0x3010), scan_type.unchanged, 0, none, 8⟩]
        : List (scan_call int32_t)) ≠ []
    ∧ ∃ (counts : List Nat) (e : scan_engine_templated int32_t) (g1 : globals)
        (m : custom_map (scan_result int32_t)),
      scans
          [⟨three_regions, (0x1000, 0x3010), scan_type.bigger_than, 0, none, 8⟩,
           ⟨three_regions, (0x1000, 0x3010), scan_type.unchanged, 0, none, 8⟩]
          (scan_engine_templated.ctor 1) fresh_globals = some (counts, e, g1)
        ∧ e.get_results = some m
        ∧ (∀ kv ∈ m._map, (kv.2.index : Int) = kv.1)
        ∧ m.ordered
        ∧ m._map.Pairwise (fun a b => ∃ x y : Nat,
            a.2.region_base = some x ∧ b.2.region_base = some y ∧ x < y) :=
  ⟨List.cons_ne_nil _ _,
   stored_map_ordered 1
     [⟨three_regions, (0x1000, 0x3010), scan_type.bigger_than, 0, none, 8⟩,
      ⟨three_regions, (0x1000, 0x3010), scan_type.unchanged, 0, none, 8⟩]
     fresh_globals (List.cons_ne_nil _ _)
     (fun c hc => by
       have hq : scan_engine.get_regions three_regions (0x1000, 0x3010)
           (PAGE_READWRITE ||| PAGE_WRITECOPY) 8
           = some [memory_region.ctor ⟨0x1000, 16, MEM_COMMIT, PAGE_READWRITE, 0x20000⟩,
                   memory_region.ctor ⟨0x2000, 16, MEM_COMMIT, PAGE_READWRITE, 0x20000⟩,
                   memory_region.ctor ⟨0x3000, 16, MEM_COMMIT, PAGE_READWRITE, 0x20000⟩] := rfl
       simp only [List.mem_cons, List.mem_singleton, List.not_mem_nil, or_false] at hc
       rcases hc with rfl | rfl <;> exact ⟨_, hq, by decide⟩)⟩

/-- Two passes over `three_regions`: the seed pass `bigger_than` 0 returns 12 and the next
pass `unchanged` returns 12; the map stored then has the keys 0, 1, 2, each result has its key
as index and is bound to the region at `0x1000`, `0x2000`, `0x3000` in this order. -/
theorem stored_map_ordered_scenario :
    ((scan_engine_templated.ctor 1 : scan_engine_templated int32_t).scans
        [⟨three_regions, (0x1000, 0x3010), scan_type.bigger_than, 0, none, 8⟩,
         ⟨three_regions, (0x1000, 0x3010), scan_type.unchanged, 0, none, 8⟩]
        fresh_globals).map
      (fun out => (out.1,
        (out.2.1._prev_scan_results.map
          (fun m => m._map.map (fun kv => (kv.1, kv.2.index, kv.2.region_base))))))
      = some ([12, 12], some [(0, 0, some 0x1000), (1, 1, some 0x2000), (2, 2, some 0x3000)]) :=
  rfl

end scan_engine_templated

end MemoryPP
